import Mathlib

/-! CCI transport core: shallow embedding and verified properties.

The development embeds two parts of the repository:

* the endpoint id bitmap of the shared-memory transport
  (`src/src/plugins/ctp/sm/ctp_sm_api.c`: `sm_get_ep_id`, `sm_put_ep_id`);
* the connection, completion, event, send and remote memory access paths of
  the verbs transport (`src/src/plugins/core/verbs/core_verbs_api.c`);
* the device selection of `cci_create_endpoint`
  (`src/src/api/create_endpoint.c`);
* the event ring of the ccieth driver, whose algorithm is described in
  `src/contrib/driver/ccieth/linux/ccieth_main.c`, and the `GET_INFO` control
  operation of that file.

Machine integers are natural numbers with explicit reduction modulo `2 ^ 32`
or `2 ^ 64` where the C code can wrap.  A C function that can dereference a
null pointer, fail an `assert`, or spin for ever returns `Option`; `none`
stands for that abnormal outcome.  Calls into libibverbs, librdmacm and libc
are not part of the repository: their outcome is an explicit argument of the
embedded function.
-/

namespace CCI

/-! ## Return codes -/

/-- Values an `int ret` takes in the embedded functions: the `CCI_*` codes the
code names, or a raw `errno` value copied from a failed library call. -/
inductive cci_status where
  | CCI_SUCCESS
  | CCI_ERROR
  | CCI_ERR_RNR
  | CCI_ERR_NOT_FOUND
  | CCI_ERR_NOT_IMPLEMENTED
  | CCI_EINVAL
  | CCI_ETIMEDOUT
  | CCI_ENOMEM
  | CCI_ENODEV
  | CCI_ENOBUFS
  | CCI_EAGAIN
  | CCI_EMSGSIZE
  | errno (e : Nat)
  deriving DecidableEq

/-- The C test `if (ret)`: true for every value other than zero. -/
def cci_status.nonzero : cci_status → Bool
  | .CCI_SUCCESS => false
  | .errno 0 => false
  | _ => true

/-! ## Shared-memory transport: endpoint id bitmap -/

/-- Modelled from the spec: the header `ctp_sm.h` that defines `SM_BLOCK_SIZE`
is missing; the spec fixes blocks of 64 slots, the width of the `uint64_t`
words of `sdev->ids`. -/
def SM_BLOCK_SIZE : Nat := 64

/-- The `uint64_t` value `~((uint64_t)0)`. -/
def UINT64_MAX : Nat := 2 ^ 64 - 1

/-- Scan of `ffsl`: the one-based position of the first set bit at or above
`pos`, looking at `fuel` positions, and 0 when there is none. -/
def ffsl_scan (x : Nat) : Nat → Nat → Nat
  | 0, _ => 0
  | fuel + 1, pos => if x.testBit pos then pos + 1 else ffsl_scan x fuel (pos + 1)

/-- The libc function `ffsl` on a 64-bit `long`: one plus the index of the
least significant set bit, 0 for the zero word. -/
def ffsl (x : Nat) : Nat := ffsl_scan x 64 0

/-- The fields of `sm_dev_t` the id allocator uses: the base id `id` and the
array `ids` of `num_blocks` words. -/
structure sm_dev_t where
  id : Nat
  ids : List Nat
  deriving DecidableEq

/-- The field `num_blocks`: the number of words of `ids`. -/
def sm_dev_t.num_blocks (sdev : sm_dev_t) : Nat := sdev.ids.length

/-- The `for` loop of `sm_get_ep_id` over the blocks from the current one on.
`some none`: no block had a clear bit (`found == 0`).
`some (some (ids, shift))`: the blocks after the update and the value of `shift`.
`none`: one of the two `assert`s failed. -/
def sm_scan_blocks : List Nat → Option (Option (List Nat × Nat))
  | [] => some none
  | b :: rest =>
    if b ≠ UINT64_MAX then
      let inverted := UINT64_MAX ^^^ b
      let shift := ffsl inverted
      if shift = 0 then none
      else
        let shift := shift - 1
        if b &&& (1 <<< shift) ≠ 0 then none
        else some (some ((b ||| (1 <<< shift)) :: rest, shift))
    else
      match sm_scan_blocks rest with
      | none => none
      | some none => some none
      | some (some (rest', shift)) => some (some (b :: rest', shift))

/-- What `sm_get_ep_id` hands back: the return code, the value stored through
`id` (written only on success) and the device afterwards. -/
structure sm_get_result where
  ret : cci_status
  id : Option Nat
  sdev : sm_dev_t
  deriving DecidableEq

/-- The function `sm_get_ep_id`.  The argument `realloc` is the outcome of the
libc call that grows `ids` by one word: `none` when it fails, `some w` when it
succeeds, `w` being the indeterminate content of the new word (the code does
not clear it before `*b |= 1`).  The id is `shift + sdev->id` in `uint32_t`. -/
def sm_get_ep_id (sdev : sm_dev_t) (realloc : Option Nat) : Option sm_get_result :=
  match sm_scan_blocks sdev.ids with
  | none => none
  | some (some (ids', shift)) =>
    some { ret := .CCI_SUCCESS, id := some ((shift + sdev.id) % 2 ^ 32),
           sdev := { sdev with ids := ids' } }
  | some none =>
    match realloc with
    | none => some { ret := .CCI_ENOMEM, id := none, sdev := sdev }
    | some w =>
      some { ret := .CCI_SUCCESS, id := some ((0 + sdev.id) % 2 ^ 32),
             sdev := { sdev with ids := sdev.ids ++ [w ||| 1] } }

/-- The function `sm_put_ep_id`.  `none` when the block index is outside the
array or the `assert` that the bit is set fails. -/
def sm_put_ep_id (sdev : sm_dev_t) (id : Nat) : Option sm_dev_t :=
  let id := (id + 2 ^ 32 - sdev.id % 2 ^ 32) % 2 ^ 32
  let i := id / SM_BLOCK_SIZE
  let shift := id % SM_BLOCK_SIZE
  match sdev.ids[i]? with
  | none => none
  | some b =>
    if b &&& (1 <<< shift) = 0 then none
    else some { sdev with ids := sdev.ids.set i (b &&& (UINT64_MAX ^^^ (1 <<< shift))) }

/-- Runs `n` consecutive calls of `sm_get_ep_id`, every growth of the array
succeeding with new word content `w`; returns the ids in call order and the
final device, `none` as soon as a call does not succeed. -/
def sm_get_n : Nat → sm_dev_t → Nat → Option (List Nat × sm_dev_t)
  | 0, sdev, _ => some ([], sdev)
  | n + 1, sdev, w =>
    match sm_get_ep_id sdev (some w) with
    | some r =>
      match r.ret, r.id with
      | .CCI_SUCCESS, some x =>
        match sm_get_n n r.sdev w with
        | some (xs, sdev') => some (x :: xs, sdev')
        | none => none
      | _, _ => none
    | none => none

/-- One call on the id allocator of a device. -/
inductive sm_call where
  | get (realloc : Option Nat)
  | put (id : Nat)
  deriving DecidableEq

/-- State of a call sequence: the device and the ids handed out by a
successful `sm_get_ep_id` and not yet given back, most recent first. -/
structure sm_trace where
  sdev : sm_dev_t
  outstanding : List Nat
  deriving DecidableEq

/-- One call of a sequence.  A `put` is only made for an id that is currently
outstanding (otherwise the step is refused with `none`), and removes one
occurrence of it from the outstanding ids. -/
def sm_step (t : sm_trace) : sm_call → Option sm_trace
  | .get realloc =>
    match sm_get_ep_id t.sdev realloc with
    | none => none
    | some r =>
      match r.id with
      | some x => some { sdev := r.sdev, outstanding := x :: t.outstanding }
      | none => some { sdev := r.sdev, outstanding := t.outstanding }
  | .put id =>
    if id ∈ t.outstanding then
      match sm_put_ep_id t.sdev id with
      | none => none
      | some sdev' => some { sdev := sdev', outstanding := t.outstanding.erase id }
    else none

/-- Runs a sequence of calls from a trace state. -/
def sm_run : sm_trace → List sm_call → Option sm_trace
  | t, [] => some t
  | t, c :: cs =>
    match sm_step t c with
    | none => none
    | some t' => sm_run t' cs

/-! ## Verbs transport: constants of headers that are not among the sources -/

/-- Modelled from the spec: `core_verbs.h`, which declares `verbs_msg_type_t`,
is missing.  The low four bits of the header word hold the message kind; the
kinds are numbered in the order the spec lists them, after the invalid kind 0
(`verbs_msg_type_t type = 0`). -/
def VERBS_MSG_INVALID : Nat := 0

/-- Modelled from the spec: message kind ConnRequest (see `VERBS_MSG_INVALID`). -/
def VERBS_MSG_CONN_REQUEST : Nat := 1

/-- Modelled from the spec: message kind ConnPayload (see `VERBS_MSG_INVALID`). -/
def VERBS_MSG_CONN_PAYLOAD : Nat := 2

/-- Modelled from the spec: message kind ConnReply (see `VERBS_MSG_INVALID`). -/
def VERBS_MSG_CONN_REPLY : Nat := 3

/-- Modelled from the spec: message kind Send (see `VERBS_MSG_INVALID`). -/
def VERBS_MSG_SEND : Nat := 4

/-- Modelled from the spec: message kind RmaRemoteRequest (see `VERBS_MSG_INVALID`). -/
def VERBS_MSG_RMA_REMOTE_REQUEST : Nat := 5

/-- Modelled from the spec: message kind RmaRemoteReply (see `VERBS_MSG_INVALID`). -/
def VERBS_MSG_RMA_REMOTE_REPLY : Nat := 6

/-- Modelled from the spec: message kind Disconnect (see `VERBS_MSG_INVALID`). -/
def VERBS_MSG_DISCONNECT : Nat := 7

/-- Modelled from the spec: message kind Keepalive (see `VERBS_MSG_INVALID`). -/
def VERBS_MSG_KEEPALIVE : Nat := 8

/-- Modelled from the spec: `cci.h`, which declares `cci_event_type_t`, is
missing.  The event kinds are those of the spec plus `CCI_EVENT_NONE`, which the
code names; `other` holds a value that is none of the enumerators. -/
inductive cci_event_type where
  | CCI_EVENT_NONE
  | CCI_EVENT_SEND
  | CCI_EVENT_RECV
  | CCI_EVENT_CONNECT_ACCEPTED
  | CCI_EVENT_CONNECT_REJECTED
  | CCI_EVENT_CONNECT_REQUEST
  | CCI_EVENT_KEEPALIVE_TIMEDOUT
  | CCI_EVENT_ENDPOINT_DEVICE_FAILED
  | other (code : Nat)
  deriving DecidableEq

/-- Modelled from the spec: the numeric value of an event kind where the code
stores it in a header (`CCI_EVENT_CONNECT_ACCEPTED << 4`): the reply outcome is
Accepted = 0, Rejected = 1; the other kinds take the next values. -/
def cci_event_type.code : cci_event_type → Nat
  | .CCI_EVENT_CONNECT_ACCEPTED => 0
  | .CCI_EVENT_CONNECT_REJECTED => 1
  | .CCI_EVENT_NONE => 2
  | .CCI_EVENT_SEND => 3
  | .CCI_EVENT_RECV => 4
  | .CCI_EVENT_CONNECT_REQUEST => 5
  | .CCI_EVENT_KEEPALIVE_TIMEDOUT => 6
  | .CCI_EVENT_ENDPOINT_DEVICE_FAILED => 7
  | .other code => code

/-- Modelled from the spec: the event kind a numeric value stands for, inverse
of `cci_event_type.code` on the enumerators. -/
def cci_event_type.ofCode (n : Nat) : cci_event_type :=
  if n = 0 then .CCI_EVENT_CONNECT_ACCEPTED
  else if n = 1 then .CCI_EVENT_CONNECT_REJECTED
  else if n = 2 then .CCI_EVENT_NONE
  else if n = 3 then .CCI_EVENT_SEND
  else if n = 4 then .CCI_EVENT_RECV
  else if n = 5 then .CCI_EVENT_CONNECT_REQUEST
  else if n = 6 then .CCI_EVENT_KEEPALIVE_TIMEDOUT
  else if n = 7 then .CCI_EVENT_ENDPOINT_DEVICE_FAILED
  else .other n

/-- Modelled from the spec: `cci.h` is missing; `BLOCKING` is one bit of the
`flags` argument of the send calls.  Bit 0 is taken; the code only tests
`flags & CCI_FLAG_BLOCKING`. -/
def CCI_FLAG_BLOCKING : Nat := 1

/-- Modelled from the spec: connection attribute reliable-ordered, first of
the attributes of the glossary (`cci.h` is missing). -/
def CCI_CONN_ATTR_RO : Nat := 0

/-- Modelled from the spec: connection attribute reliable-unordered. -/
def CCI_CONN_ATTR_RU : Nat := 1

/-- Modelled from the spec: connection attribute unreliable-unordered. -/
def CCI_CONN_ATTR_UU : Nat := 2

/-- Modelled from the spec: `cci_conn_is_reliable` lives in the missing header
`cci_lib_types.h`; a connection is reliable when its attribute is
reliable-ordered or reliable-unordered. -/
def cci_conn_is_reliable (attr : Nat) : Bool :=
  attr == CCI_CONN_ATTR_RO || attr == CCI_CONN_ATTR_RU

/-! ## libibverbs values -/

/-- The `enum ibv_wc_status` values the code distinguishes; `other` is any
other failure status. -/
inductive ibv_wc_status where
  | IBV_WC_SUCCESS
  | IBV_WC_RETRY_EXC_ERR
  | IBV_WC_RNR_RETRY_EXC_ERR
  | other (code : Nat)
  deriving DecidableEq

/-- The libibverbs opcode `IBV_WC_SEND`. -/
def IBV_WC_SEND : Nat := 0

/-- The libibverbs opcode bit `IBV_WC_RECV` (`1 << 7`). -/
def IBV_WC_RECV : Nat := 128

/-- The `enum ibv_mtu` values. -/
inductive ibv_mtu where
  | IBV_MTU_256
  | IBV_MTU_512
  | IBV_MTU_1024
  | IBV_MTU_2048
  | IBV_MTU_4096
  | other (code : Nat)
  deriving DecidableEq

/-- The function `verbs_mtu_val`. -/
def verbs_mtu_val : ibv_mtu → Nat
  | .IBV_MTU_2048 => 2048
  | .IBV_MTU_256 => 256
  | .IBV_MTU_512 => 512
  | .IBV_MTU_1024 => 1024
  | .IBV_MTU_4096 => 4096
  | .other _ => 0

/-! ## Byte order -/

/-- Reverses the four bytes of a 32-bit word. -/
def bswap32 (x : Nat) : Nat :=
  (x % 256) * 2 ^ 24 + (x / 2 ^ 8 % 256) * 2 ^ 16 + (x / 2 ^ 16 % 256) * 2 ^ 8
    + (x / 2 ^ 24 % 256)

/-- The libc function `htonl` on a host that is little-endian or not. -/
def htonl (little_endian : Bool) (x : Nat) : Nat :=
  if little_endian then bswap32 x else x % 2 ^ 32

/-- The libc function `ntohl` on a host that is little-endian or not. -/
def ntohl (little_endian : Bool) (x : Nat) : Nat :=
  if little_endian then bswap32 x else x % 2 ^ 32

/-- The 32-bit word with the four given bytes, least significant first. -/
def word_of_bytes (b0 b1 b2 b3 : Nat) : Nat :=
  b0 + 256 * b1 + 65536 * b2 + 16777216 * b3

/-- The four bytes of a 32-bit word in the memory of a host, lowest address
first. -/
def word_bytes (little_endian : Bool) (x : Nat) : List Nat :=
  if little_endian then [x % 256, x / 2 ^ 8 % 256, x / 2 ^ 16 % 256, x / 2 ^ 24 % 256]
  else [x / 2 ^ 24 % 256, x / 2 ^ 16 % 256, x / 2 ^ 8 % 256, x % 256]

/-- The 32-bit word a host reads from four bytes of memory, lowest address
first. -/
def bytes_word (little_endian : Bool) : List Nat → Nat
  | [b0, b1, b2, b3] =>
    if little_endian then b0 + b1 * 2 ^ 8 + b2 * 2 ^ 16 + b3 * 2 ^ 24
    else b3 + b2 * 2 ^ 8 + b1 * 2 ^ 16 + b0 * 2 ^ 24
  | _ => 0

/-- The immediate word of a completion on the receiving host: the fabric
carries the four bytes of the sender's `wr.imm_data` unchanged. -/
def imm_on_receiver (sender_le receiver_le : Bool) (imm_data : Nat) : Nat :=
  bytes_word receiver_le (word_bytes sender_le imm_data)

/-! ## Verbs transport: data model

One endpoint is modelled.  Descriptors and connections live in stores
(`txs`, `rxs`, `vconns`) and are named by their index, which stands for their
address.  The lists `ep->evts` and `vep->idle_txs` are always threaded through
the one link field `entry` of their elements and are modelled as lists of
indices.  The three connection lists are threaded through two different link
fields (`entry` and `temp`) and are modelled with their link words. -/

/-- A pointer value stored in a work-request id (`wr_id`). -/
inductive wr_ptr where
  | null
  | tx (i : Nat)
  | rx (i : Nat)
  | rma_op (i : Nat)
  deriving DecidableEq

/-- An element of `ep->evts`: the `cci__evt_t` embedded in a Tx or in an Rx
descriptor. -/
inductive evt_ref where
  | tx (i : Nat)
  | rx (i : Nat)
  deriving DecidableEq

/-- The union `cci_event`, one field per member the code accesses, named by
its access path (`event.send.status` is `send_status`).  The layout of the
union is declared in the missing `cci.h`; members are kept apart. -/
structure cci_event where
  type : cci_event_type
  send_connection : Option Nat
  send_context : Nat
  send_status : cci_status
  recv_connection : Option Nat
  recv_len : Nat
  request_data_len : Nat
  request_data_ptr : Option Nat
  request_attribute : Nat
  accepted_context : Nat
  accepted_connection : Option Nat
  rejected_context : Nat
  deriving DecidableEq

/-- An event whose bytes are all zero (after `calloc` or `memset`). -/
def cci_event.zero : cci_event :=
  { type := cci_event_type.ofCode 0, send_connection := none, send_context := 0,
    send_status := .CCI_SUCCESS, recv_connection := none, recv_len := 0,
    request_data_len := 0, request_data_ptr := none, request_attribute := 0,
    accepted_context := 0, accepted_connection := none, rejected_context := 0 }

/-- The struct `cci__evt_t`: the public event and the connection it belongs
to.  The field `ep` is left out, the model having one endpoint. -/
structure cci__evt_t where
  event : cci_event
  conn : Option Nat
  deriving DecidableEq

/-- The struct `verbs_tx_t` without its buffer address. -/
structure verbs_tx_t where
  evt : cci__evt_t
  msg_type : Nat
  flags : Nat
  len : Nat
  rma_op : Option Nat
  deriving DecidableEq

/-- The struct `verbs_rx_t`. -/
structure verbs_rx_t where
  evt : cci__evt_t
  offset : Nat
  deriving DecidableEq

/-- The struct `verbs_conn_request_t`: what `verbs_connect` keeps of the
connect request. -/
structure verbs_conn_request_t where
  context : Nat
  attr : Nat
  len : Nat
  ptr : List Nat
  deriving DecidableEq

/-- The enum `verbs_conn_state_t`. -/
inductive verbs_conn_state_t where
  | VERBS_CONN_CLOSED
  | VERBS_CONN_CLOSING
  | VERBS_CONN_INIT
  | VERBS_CONN_ACTIVE
  | VERBS_CONN_PASSIVE
  | VERBS_CONN_ESTABLISHED
  deriving DecidableEq

/-- The three connection lists of `verbs_ep_t`. -/
inductive conn_list where
  | conns
  | active
  | passive
  deriving DecidableEq

/-- The two `TAILQ_ENTRY` fields of `verbs_conn_t`. -/
inductive conn_link where
  | entry
  | temp
  deriving DecidableEq

/-- A value of type `verbs_conn_t **`: null, the address of the `tqh_first`
word of a list head, or the address of the `tqe_next` word of a link field of
a connection. -/
inductive link_ptr where
  | null
  | head (l : conn_list)
  | next (vc : Nat) (f : conn_link)
  deriving DecidableEq

/-- A `TAILQ_ENTRY`. -/
structure tailq_entry where
  tqe_next : Option Nat
  tqe_prev : link_ptr
  deriving DecidableEq

/-- A `TAILQ_HEAD`. -/
structure tailq_head where
  tqh_first : Option Nat
  tqh_last : link_ptr
  deriving DecidableEq

/-- The structs `cci__conn_t` and `verbs_conn_t` of one connection:
`qp_num` is `id->qp->qp_num`, `max_send_size` and `conn_attribute` are the
fields of the public `cci_connection_t`. -/
structure verbs_conn_t where
  qp_num : Nat
  state : verbs_conn_state_t
  mss : Nat
  max_send_size : Nat
  conn_attribute : Nat
  conn_req : Option verbs_conn_request_t
  entry : tailq_entry
  temp : tailq_entry
  deriving DecidableEq

/-- A send work request accepted by `ibv_post_send`: the connection whose
queue pair it was posted on, its id, the length of its one segment (0 without
a segment), and the immediate word (`with_imm` is opcode
`IBV_WR_SEND_WITH_IMM`). -/
structure ibv_send_wr where
  conn : Nat
  wr_id : wr_ptr
  length : Nat
  num_sge : Nat
  with_imm : Bool
  imm_data : Nat
  deriving DecidableEq

/-- The fields of `struct ibv_wc` the code reads. -/
structure ibv_wc where
  wr_id : wr_ptr
  status : ibv_wc_status
  opcode : Nat
  imm_data : Nat
  byte_len : Nat
  qp_num : Nat
  deriving DecidableEq

/-- A `struct iovec`. -/
structure iovec where
  iov_base : Nat
  iov_len : Nat
  deriving DecidableEq

/-- The structs `cci__ep_t` and `verbs_ep_t` of one endpoint, and the two
fabric queues it posts to: `sq` holds the send work requests accepted and not
yet completed, `srq` the Rx descriptors posted to the shared receive queue. -/
structure cci__ep_t where
  little_endian : Bool
  closing : Bool
  buffer_len : Nat
  rx_buf : Nat
  txs : List verbs_tx_t
  rxs : List verbs_rx_t
  idle_txs : List Nat
  evts : List evt_ref
  vconns : List verbs_conn_t
  conns : tailq_head
  active : tailq_head
  passive : tailq_head
  sq : List ibv_send_wr
  srq : List Nat
  deriving DecidableEq

/-! ## Verbs transport: the `TAILQ` operations on connection lists -/

/-- Applies `f` to the element of index `i`. -/
def list_modify {α : Type} (xs : List α) (i : Nat) (f : α → α) : List α :=
  match xs[i]? with
  | none => xs
  | some x => xs.set i (f x)

/-- The head of a connection list. -/
def cci__ep_t.head (ep : cci__ep_t) : conn_list → tailq_head
  | .conns => ep.conns
  | .active => ep.active
  | .passive => ep.passive

/-- Stores a new head for a connection list. -/
def cci__ep_t.set_head (ep : cci__ep_t) (l : conn_list) (h : tailq_head) : cci__ep_t :=
  match l with
  | .conns => { ep with conns := h }
  | .active => { ep with active := h }
  | .passive => { ep with passive := h }

/-- A link field of a connection. -/
def verbs_conn_t.link (c : verbs_conn_t) : conn_link → tailq_entry
  | .entry => c.entry
  | .temp => c.temp

/-- Stores a link field of a connection. -/
def verbs_conn_t.set_link (c : verbs_conn_t) (f : conn_link) (e : tailq_entry) : verbs_conn_t :=
  match f with
  | .entry => { c with entry := e }
  | .temp => { c with temp := e }

/-- Updates one connection of the store. -/
def cci__ep_t.modify_conn (ep : cci__ep_t) (vc : Nat) (f : verbs_conn_t → verbs_conn_t) :
    cci__ep_t :=
  { ep with vconns := list_modify ep.vconns vc f }

/-- The assignment `*p = v` through a `verbs_conn_t **`; `none` when `p` is
null or dangling. -/
def store_ptr (ep : cci__ep_t) (p : link_ptr) (v : Option Nat) : Option cci__ep_t :=
  match p with
  | .null => none
  | .head l => some (ep.set_head l { ep.head l with tqh_first := v })
  | .next vc f =>
    match ep.vconns[vc]? with
    | none => none
    | some _ => some (ep.modify_conn vc (fun c => c.set_link f { c.link f with tqe_next := v }))

/-- The macro `TAILQ_INIT`. -/
def TAILQ_INIT (l : conn_list) : tailq_head :=
  { tqh_first := none, tqh_last := .head l }

/-- The macro `TAILQ_INSERT_TAIL(head, elm, field)` of `sys/queue.h`. -/
def TAILQ_INSERT_TAIL (ep : cci__ep_t) (l : conn_list) (elm : Nat) (f : conn_link) :
    Option cci__ep_t :=
  match ep.vconns[elm]? with
  | none => none
  | some _ =>
    let last := (ep.head l).tqh_last
    let ep1 := ep.modify_conn elm (fun c => c.set_link f { tqe_next := none, tqe_prev := last })
    match store_ptr ep1 last (some elm) with
    | none => none
    | some ep2 => some (ep2.set_head l { ep2.head l with tqh_last := .next elm f })

/-- The macro `TAILQ_REMOVE(head, elm, field)` of `sys/queue.h`.  The link
words of the removed element itself are left as they are. -/
def TAILQ_REMOVE (ep : cci__ep_t) (l : conn_list) (elm : Nat) (f : conn_link) :
    Option cci__ep_t :=
  match ep.vconns[elm]? with
  | none => none
  | some c =>
    let e := c.link f
    let ep1 : Option cci__ep_t :=
      match e.tqe_next with
      | some n =>
        match ep.vconns[n]? with
        | none => none
        | some _ =>
          some (ep.modify_conn n (fun d => d.set_link f { d.link f with tqe_prev := e.tqe_prev }))
      | none => some (ep.set_head l { ep.head l with tqh_last := e.tqe_prev })
    match ep1 with
    | none => none
    | some ep1 => store_ptr ep1 e.tqe_prev e.tqe_next

/-- The loop `TAILQ_FOREACH(vc, head, field)` with the body
`if (vc->id->qp->qp_num == wc.qp_num) { ...; break; }`, started at `cur`.
`some (some vc)`: the loop stopped at `vc`; `some none`: it reached the end;
`none`: it read a dangling pointer or did not stop within `fuel` steps. -/
def verbs_find_conn (ep : cci__ep_t) (f : conn_link) (qp_num : Nat) :
    Nat → Option Nat → Option (Option Nat)
  | 0, _ => none
  | _ + 1, none => some none
  | fuel + 1, some vc =>
    match ep.vconns[vc]? with
    | none => none
    | some c =>
      if c.qp_num = qp_num then some (some vc)
      else verbs_find_conn ep f qp_num fuel (c.link f).tqe_next

/-! ## Verbs transport: descriptors and posting -/

/-- The function `verbs_get_tx_locked`: takes the first idle Tx. -/
def verbs_get_tx_locked (ep : cci__ep_t) : Option Nat × cci__ep_t :=
  match ep.idle_txs with
  | [] => (none, ep)
  | t :: rest => (some t, { ep with idle_txs := rest })

/-- The function `verbs_get_tx`. -/
def verbs_get_tx (ep : cci__ep_t) : Option Nat × cci__ep_t :=
  verbs_get_tx_locked ep

/-- The function `verbs_post_rx`; `post` is what `ibv_post_srq_recv` gives
(after the `errno` conversion).  An accepted Rx joins the shared receive
queue. -/
def verbs_post_rx (ep : cci__ep_t) (rx : Nat) (post : cci_status) : cci_status × cci__ep_t :=
  if post.nonzero then (post, ep) else (post, { ep with srq := ep.srq ++ [rx] })

/-- The state `verbs_create_endpoint` builds when every library call
succeeds: `tx_cnt` zeroed Tx descriptors, all idle, in creation order;
`rx_cnt` Rx descriptors at offsets `i * buffer_len`, all posted; empty event
and connection lists. -/
def verbs_create_endpoint (little_endian : Bool) (tx_cnt rx_cnt max_send_size rx_buf : Nat) :
    cci__ep_t :=
  { little_endian := little_endian, closing := false, buffer_len := max_send_size,
    rx_buf := rx_buf,
    txs := List.replicate tx_cnt
      { evt := { event := cci_event.zero, conn := none }, msg_type := 0, flags := 0, len := 0,
        rma_op := none },
    rxs := (List.range rx_cnt).map
      (fun i => { evt := { event := cci_event.zero, conn := none }, offset := i * max_send_size }),
    idle_txs := List.range tx_cnt, evts := [], vconns := [],
    conns := TAILQ_INIT .conns, active := TAILQ_INIT .active, passive := TAILQ_INIT .passive,
    sq := [], srq := List.range rx_cnt }

/-- The function `verbs_vconn_set_mss`; `query` is the outcome of
`ibv_query_qp`: an `errno` value, or the path MTU of the queue pair. -/
def verbs_vconn_set_mss (c : verbs_conn_t) (query : Except Nat ibv_mtu) :
    cci_status × verbs_conn_t :=
  match query with
  | .error e => (.errno e, c)
  | .ok mtu => (.CCI_SUCCESS, { c with mss := verbs_mtu_val mtu })

/-- The function `verbs_post_send`; `buffer` tells whether the buffer pointer
is not null and `post` is what `ibv_post_send` gives.  An accepted work
request joins the send queue. -/
def verbs_post_send (ep : cci__ep_t) (conn : Nat) (id : wr_ptr) (buffer : Bool) (len : Nat)
    (header : Nat) (post : cci_status) : cci_status × cci__ep_t :=
  let seg := buffer && len != 0
  let wr : ibv_send_wr :=
    { conn := conn, wr_id := id, length := if seg then len else 0,
      num_sge := if seg then 1 else 0, with_imm := header != 0,
      imm_data := if header != 0 then htonl ep.little_endian header else 0 }
  if post.nonzero then (post, ep) else (post, { ep with sq := ep.sq ++ [wr] })

/-! ## Verbs transport: connection establishment -/

/-- The function `verbs_handle_conn_request`.  `qp_num` is the number of the
queue pair `rdma_create_qp` makes, `header` the private data word after
`ntohl`; `create_qp` and `accept` are the outcomes of `rdma_create_qp` and
`rdma_accept`, `alloc` tells whether both `calloc` calls succeed. -/
def verbs_handle_conn_request (ep : cci__ep_t) (qp_num header : Nat)
    (create_qp : cci_status) (alloc : Bool) (accept : cci_status) :
    Option (cci_status × cci__ep_t) :=
  if create_qp.nonzero then some (create_qp, ep)
  else if header &&& 0xF ≠ VERBS_MSG_CONN_REQUEST then none
  else if !alloc then some (.CCI_ENOMEM, ep)
  else
    let vc := ep.vconns.length
    let c : verbs_conn_t :=
      { qp_num := qp_num, state := .VERBS_CONN_PASSIVE, mss := 0, max_send_size := 0,
        conn_attribute := 0, conn_req := none,
        entry := { tqe_next := none, tqe_prev := .null },
        temp := { tqe_next := none, tqe_prev := .null } }
    let ep1 := { ep with vconns := ep.vconns ++ [c] }
    match TAILQ_INSERT_TAIL ep1 .passive vc .temp with
    | none => none
    | some ep2 =>
      if accept.nonzero then
        match TAILQ_REMOVE ep2 .passive vc .temp with
        | none => none
        | some ep3 => some (accept, ep3)
      else some (accept, ep2)

/-- The function `verbs_accept` on the ConnectRequest event embedded in the
Rx descriptor `rx`. -/
def verbs_accept (ep : cci__ep_t) (rx : Nat) (query : Except Nat ibv_mtu) (post : cci_status) :
    Option (cci_status × cci__ep_t) :=
  match ep.rxs[rx]? with
  | none => none
  | some r =>
    match r.evt.conn with
    | none => none
    | some vc =>
      match ep.vconns[vc]? with
      | none => none
      | some c =>
        let (ret, c1) := verbs_vconn_set_mss c query
        let ep1 := ep.modify_conn vc (fun _ => c1)
        if ret.nonzero then some (ret, ep1)
        else
          let ep2 := ep1.modify_conn vc (fun d => { d with max_send_size := d.mss })
          let header := VERBS_MSG_CONN_REPLY
            ||| (cci_event_type.code .CCI_EVENT_CONNECT_ACCEPTED <<< 4)
          match TAILQ_INSERT_TAIL ep2 .conns vc .entry with
          | none => none
          | some ep3 =>
            let (ret, ep4) := verbs_post_send ep3 vc .null false 0 header post
            if ret.nonzero then
              match TAILQ_REMOVE ep4 .conns vc .entry with
              | none => none
              | some ep5 => some (ret, ep5)
            else some (ret, ep4)

/-- The header word `verbs_conn_est_active` builds from the connect request
record. -/
def verbs_conn_payload_header (cr : verbs_conn_request_t) : Nat :=
  let header := VERBS_MSG_CONN_PAYLOAD
  let header := header ||| ((cr.attr &&& 0xF) <<< 4)
  if cr.len ≠ 0 then header ||| ((cr.len &&& 0xFFF) <<< 8) else header

/-- The function `verbs_conn_est_active` for connection `vc`.  The result of
`verbs_vconn_set_mss` is dropped by the code.  `none` when the connect request
record is read through a null pointer (`cr->attr`). -/
def verbs_conn_est_active (ep : cci__ep_t) (vc : Nat) (query : Except Nat ibv_mtu)
    (post : cci_status) : Option (cci_status × cci__ep_t) :=
  match ep.vconns[vc]? with
  | none => none
  | some c =>
    let cr := c.conn_req
    let c1 := (verbs_vconn_set_mss c query).2
    let ep1 := ep.modify_conn vc (fun _ => { c1 with max_send_size := c1.mss })
    match verbs_get_tx ep1 with
    | (none, ep2) => some (.CCI_ENOBUFS, ep2)
    | (some t, ep2) =>
      match ep2.txs[t]? with
      | none => none
      | some tx =>
        let tx1 := { tx with evt := { event := { tx.evt.event with type := .CCI_EVENT_NONE },
                                      conn := some vc } }
        let ep3 := { ep2 with txs := ep2.txs.set t tx1 }
        match cr with
        | none => none
        | some r =>
          some (verbs_post_send ep3 vc (.tx t) true r.len (verbs_conn_payload_header r) post)

/-! ## Verbs transport: receive completions -/

/-- The function `verbs_handle_conn_payload`. -/
def verbs_handle_conn_payload (ep : cci__ep_t) (wc : ibv_wc) : Option (cci_status × cci__ep_t) :=
  match verbs_find_conn ep .temp wc.qp_num (ep.vconns.length + 1) ep.passive.tqh_first with
  | none => none
  | some none => some (.CCI_SUCCESS, ep)
  | some (some vc) =>
    match TAILQ_REMOVE ep .passive vc .temp with
    | none => none
    | some ep1 =>
      let header := ntohl ep.little_endian wc.imm_data
      let attr := (header >>> 4) &&& 0xF
      let len := (header >>> 8) &&& 0xFFF
      let ep2 := ep1.modify_conn vc (fun c => { c with conn_attribute := attr })
      match wc.wr_id with
      | .rx i =>
        match ep2.rxs[i]? with
        | none => none
        | some rx =>
          let rx1 := { rx with evt :=
            { conn := some vc,
              event := { rx.evt.event with
                type := .CCI_EVENT_CONNECT_REQUEST,
                request_attribute := attr,
                request_data_len := len,
                request_data_ptr := if len ≠ 0 then some (ep.rx_buf + rx.offset) else none } } }
          some (.CCI_SUCCESS, { ep2 with rxs := ep2.rxs.set i rx1, evts := ep2.evts ++ [.rx i] })
      | _ => none

/-- The function `verbs_handle_conn_reply`.  The element found on the active
list is unlinked with `TAILQ_REMOVE(&vep->passive, vconn, temp)`, as written. -/
def verbs_handle_conn_reply (ep : cci__ep_t) (wc : ibv_wc) : Option (cci_status × cci__ep_t) :=
  match verbs_find_conn ep .temp wc.qp_num (ep.vconns.length + 1) ep.active.tqh_first with
  | none => none
  | some none => some (.CCI_SUCCESS, ep)
  | some (some vc) =>
    match TAILQ_REMOVE ep .passive vc .temp, ep.vconns[vc]? with
    | some ep1, some c =>
      let header := ntohl ep.little_endian wc.imm_data
      match wc.wr_id with
      | .rx i =>
        match ep1.rxs[i]? with
        | none => none
        | some rx =>
          let type := cci_event_type.ofCode ((header >>> 4) &&& 0xF)
          let context := match c.conn_req with
            | some r => r.context
            | none => 0
          let ev := { rx.evt.event with type := type }
          if type = .CCI_EVENT_CONNECT_ACCEPTED then
            let ev1 := { ev with accepted_context := context, accepted_connection := some vc }
            let ep2 := { ep1 with rxs := ep1.rxs.set i { rx with evt := { rx.evt with event := ev1 } } }
            match TAILQ_INSERT_TAIL ep2 .conns vc .entry with
            | none => none
            | some ep3 => some (.CCI_SUCCESS, { ep3 with evts := ep3.evts ++ [.rx i] })
          else
            let ev1 := if type = .CCI_EVENT_CONNECT_REJECTED
              then { ev with rejected_context := context } else ev
            some (.CCI_SUCCESS,
              { ep1 with rxs := ep1.rxs.set i { rx with evt := { rx.evt with event := ev1 } },
                         evts := ep1.evts ++ [.rx i] })
      | _ => none
    | _, _ => none

/-- The function `verbs_handle_msg`.  The established list `vep->conns` is
walked with `TAILQ_FOREACH(vc, &vep->conns, temp)`, as written. -/
def verbs_handle_msg (ep : cci__ep_t) (wc : ibv_wc) : Option (cci_status × cci__ep_t) :=
  match verbs_find_conn ep .temp wc.qp_num (ep.vconns.length + 1) ep.conns.tqh_first with
  | none => none
  | some none => some (.CCI_SUCCESS, ep)
  | some (some vc) =>
    match wc.wr_id with
    | .rx i =>
      match ep.rxs[i]? with
      | none => none
      | some rx =>
        let len := wc.byte_len % 2 ^ 32
        let rx1 := { rx with evt :=
          { conn := some vc,
            event := { rx.evt.event with
              type := .CCI_EVENT_RECV,
              recv_connection := some vc,
              recv_len := len,
              request_data_ptr := if len ≠ 0 then some (ep.rx_buf + rx.offset) else none } } }
        some (.CCI_SUCCESS, { ep with rxs := ep.rxs.set i rx1, evts := ep.evts ++ [.rx i] })
    | _ => none

/-- The function `verbs_handle_remote_request`, which ends after it has
filled in the Tx it took. -/
def verbs_handle_remote_request (ep : cci__ep_t) (wc : ibv_wc) :
    Option (cci_status × cci__ep_t) :=
  match verbs_find_conn ep .temp wc.qp_num (ep.vconns.length + 1) ep.conns.tqh_first with
  | none => none
  | some none => some (.CCI_ERR_NOT_FOUND, ep)
  | some (some vc) =>
    match verbs_get_tx ep with
    | (none, ep1) => some (.CCI_ENOBUFS, ep1)
    | (some t, ep1) =>
      match ep1.txs[t]? with
      | none => none
      | some tx =>
        let tx1 := { tx with
          msg_type := VERBS_MSG_RMA_REMOTE_REPLY,
          evt := { event := { cci_event.zero with type := .CCI_EVENT_NONE }, conn := some vc } }
        some (.CCI_SUCCESS, { ep1 with txs := ep1.txs.set t tx1 })

/-- The function `verbs_handle_recv`. -/
def verbs_handle_recv (ep : cci__ep_t) (wc : ibv_wc) : Option (cci_status × cci__ep_t) :=
  let header := ntohl ep.little_endian wc.imm_data
  let type := header &&& 0xF
  if type = VERBS_MSG_CONN_PAYLOAD then verbs_handle_conn_payload ep wc
  else if type = VERBS_MSG_CONN_REPLY then verbs_handle_conn_reply ep wc
  else if type = VERBS_MSG_SEND then verbs_handle_msg ep wc
  else if type = VERBS_MSG_RMA_REMOTE_REQUEST then verbs_handle_remote_request ep wc
  else some (.CCI_SUCCESS, ep)

/-! ## Verbs transport: send completions -/

/-- The status `verbs_complete_send_msg` stores for a failed completion. -/
def verbs_send_status (status : ibv_wc_status) : cci_status :=
  match status with
  | .IBV_WC_RETRY_EXC_ERR => .CCI_ETIMEDOUT
  | .IBV_WC_RNR_RETRY_EXC_ERR => .CCI_ERR_RNR
  | _ => .CCI_ERROR

/-- The function `verbs_complete_send_msg`; `none` when `wc.wr_id` is not the
address of a Tx of the endpoint. -/
def verbs_complete_send_msg (ep : cci__ep_t) (wc : ibv_wc) : Option (cci_status × cci__ep_t) :=
  match wc.wr_id with
  | .tx t =>
    match ep.txs[t]? with
    | none => none
    | some tx =>
      let tx1 :=
        if wc.status ≠ .IBV_WC_SUCCESS then
          { tx with evt := { tx.evt with event :=
              { tx.evt.event with send_status := verbs_send_status wc.status } } }
        else tx
      some (.CCI_SUCCESS, { ep with txs := ep.txs.set t tx1, evts := ep.evts ++ [.tx t] })
  | _ => none

/-- Reads `tx->msg_type` through `wc.wr_id` cast to `verbs_tx_t *`:
`some none` for a null pointer, `none` when the pointer is not a Tx. -/
def verbs_wc_tx_type (ep : cci__ep_t) (wc : ibv_wc) : Option (Option Nat) :=
  match wc.wr_id with
  | .null => some none
  | .tx t =>
    match ep.txs[t]? with
    | none => none
    | some tx => some (some tx.msg_type)
  | _ => none

/-- The function `verbs_complete_send`. -/
def verbs_complete_send (ep : cci__ep_t) (wc : ibv_wc) : Option (cci_status × cci__ep_t) :=
  match verbs_wc_tx_type ep wc with
  | none => none
  | some ty =>
    let type := match ty with
      | some m => m
      | none => VERBS_MSG_INVALID
    let r : Option (cci_status × cci__ep_t) :=
      if type = VERBS_MSG_SEND then verbs_complete_send_msg ep wc
      else some (.CCI_SUCCESS, ep)
    match r with
    | none => none
    | some (ret, ep1) =>
      if ret.nonzero then
        match wc.wr_id with
        | .tx t => some (ret, { ep1 with idle_txs := t :: ep1.idle_txs })
        | _ => none
      else some (ret, ep1)

/-- The function `verbs_handle_send_completion`. -/
def verbs_handle_send_completion (ep : cci__ep_t) (wc : ibv_wc) :
    Option (cci_status × cci__ep_t) :=
  let header := ntohl ep.little_endian wc.imm_data
  match verbs_wc_tx_type ep wc with
  | none => none
  | some ty =>
    let type := match ty with
      | some m => m
      | none => header &&& 0xF
    if type = VERBS_MSG_SEND then verbs_complete_send ep wc
    else some (.CCI_SUCCESS, ep)

/-- What `ibv_poll_cq` does to the fabric queues when it hands out a
completion: the completed request leaves its queue. -/
def fabric_complete (ep : cci__ep_t) (wc : ibv_wc) : cci__ep_t :=
  if wc.opcode &&& IBV_WC_RECV ≠ 0 then
    match wc.wr_id with
    | .rx i => { ep with srq := ep.srq.erase i }
    | _ => ep
  else
    match ep.sq.find? (fun wr => wr.wr_id == wc.wr_id) with
    | some wr => { ep with sq := ep.sq.erase wr }
    | none => ep

/-- The body of the `for` loop of `verbs_get_cq_event` over the polled
completions; `ret` is the value of `ret` before the iteration. -/
def verbs_get_cq_event_loop (ep : cci__ep_t) (ret : cci_status) :
    List ibv_wc → Option (cci_status × cci__ep_t)
  | [] => some (ret, ep)
  | wc :: rest =>
    let ep0 := fabric_complete ep wc
    let r : Option (cci_status × cci__ep_t) :=
      if wc.opcode &&& IBV_WC_RECV ≠ 0 then verbs_handle_recv ep0 wc
      else if wc.opcode = IBV_WC_SEND then verbs_handle_send_completion ep0 wc
      else some (ret, ep0)
    match r with
    | none => none
    | some (ret1, ep1) => verbs_get_cq_event_loop ep1 ret1 rest

/-- The function `verbs_get_cq_event`; `polled` is the outcome of
`ibv_poll_cq`: an `errno` value, or the completions it returns (at most
`VERBS_WC_CNT`).  Before the loop `ret` holds their number. -/
def verbs_get_cq_event (ep : cci__ep_t) (polled : Except Nat (List ibv_wc)) :
    Option (cci_status × cci__ep_t) :=
  match polled with
  | .error e => some (.errno e, ep)
  | .ok wcs =>
    verbs_get_cq_event_loop ep (if wcs.length = 0 then .CCI_SUCCESS else .errno wcs.length) wcs

/-! ## Verbs transport: event delivery -/

/-- The loop of `verbs_get_event` over the event list from `e` on.
`some (some e)`: the loop stopped with `ev = e`; `some none`: it reached the
end with `ev` null; `none`: an event of type Send was not embedded in a Tx
(`container_of` yields no Tx) or the element is dangling. -/
def verbs_get_event_scan (ep : cci__ep_t) : List evt_ref → Option (Option evt_ref)
  | [] => some none
  | e :: rest =>
    match e with
    | .tx i =>
      match ep.txs[i]? with
      | none => none
      | some tx =>
        if tx.evt.event.type = .CCI_EVENT_SEND then
          if tx.flags &&& CCI_FLAG_BLOCKING ≠ 0 then verbs_get_event_scan ep rest
          else some (some e)
        else some (some e)
    | .rx i =>
      match ep.rxs[i]? with
      | none => none
      | some rx =>
        if rx.evt.event.type = .CCI_EVENT_SEND then none
        else some (some e)

/-- The function `verbs_get_event`.  `progress` is the effect on the endpoint
of the call `verbs_progress_ep(ep)`, which depends on what the fabric has
ready.  The result holds the return code, the event stored through `event`
and the endpoint afterwards. -/
def verbs_get_event (progress : cci__ep_t → cci__ep_t) (ep : cci__ep_t) :
    Option (cci_status × Option evt_ref × cci__ep_t) :=
  let ep1 := progress ep
  match verbs_get_event_scan ep1 ep1.evts with
  | none => none
  | some (some ev) => some (.CCI_SUCCESS, some ev, { ep1 with evts := ep1.evts.erase ev })
  | some none => some (.CCI_EAGAIN, none, ep1)

/-- The event type read through an event pointer. -/
def evt_type (ep : cci__ep_t) : evt_ref → Option cci_event_type
  | .tx i => (ep.txs[i]?).map (fun tx => tx.evt.event.type)
  | .rx i => (ep.rxs[i]?).map (fun rx => rx.evt.event.type)

/-- The function `verbs_return_conn_request`. -/
def verbs_return_conn_request (ep : cci__ep_t) (e : evt_ref) (post : cci_status) :
    Option (cci_status × cci__ep_t) :=
  match e with
  | .rx i =>
    match ep.rxs[i]? with
    | none => none
    | some rx =>
      match rx.evt.conn with
      | none => none
      | some vc =>
        match ep.vconns[vc]? with
        | none => none
        | some _ =>
          let ep1 := ep.modify_conn vc (fun c => { c with conn_req := none })
          some (verbs_post_rx ep1 i post)
  | _ => none

/-- The function `verbs_return_event`; `post` is the outcome of the posting of
the Rx and `errno` the value of `errno` read after a failed posting. -/
def verbs_return_event (ep : cci__ep_t) (e : evt_ref) (post : cci_status) (errno : Nat) :
    Option (cci_status × cci__ep_t) :=
  match evt_type ep e with
  | none => none
  | some .CCI_EVENT_CONNECT_REQUEST => verbs_return_conn_request ep e post
  | some .CCI_EVENT_CONNECT_ACCEPTED | some .CCI_EVENT_RECV =>
    match e with
    | .rx i =>
      let (ret, ep1) := verbs_post_rx ep i post
      if ret.nonzero then some (.errno errno, ep1) else some (ret, ep1)
    | _ => none
  | some .CCI_EVENT_SEND =>
    match e with
    | .tx t => some (.CCI_SUCCESS, { ep with idle_txs := t :: ep.idle_txs })
    | _ => none
  | some _ => some (.CCI_SUCCESS, ep)

/-! ## Verbs transport: sending -/

/-- The first loop of `verbs_send_common`: the `uint32_t` sum of the lengths
cast to `uint32_t`. -/
def verbs_iov_len (iov : List iovec) : Nat :=
  iov.foldl (fun len v => (len + v.iov_len % 2 ^ 32) % 2 ^ 32) 0

/-- One pass of the `TAILQ_FOREACH` of the blocking branch of
`verbs_send_common`: `some` with the event status and the list without the
event when the event of Tx `t` is on the list. -/
def verbs_send_common_scan (ep : cci__ep_t) (t : Nat) : Option (cci_status × cci__ep_t) :=
  if evt_ref.tx t ∈ ep.evts then
    match ep.txs[t]? with
    | none => none
    | some tx =>
      some (tx.evt.event.send_status, { ep with evts := ep.evts.filter (fun e => e != .tx t) })
  else none

/-- The `do ... while (evt == NULL)` loop of `verbs_send_common`.  Between
two passes the other threads act on the endpoint; `others` lists their
effects.  `none` when the event has not shown up after all of them: the loop
is still spinning. -/
def verbs_send_common_wait (t : Nat) : cci__ep_t → List (cci__ep_t → cci__ep_t) →
    Option (cci_status × cci__ep_t)
  | ep, [] => verbs_send_common_scan ep t
  | ep, o :: os =>
    match verbs_send_common_scan ep t with
    | some r => some r
    | none => verbs_send_common_wait t (o ep) os

/-- The part of `verbs_send_common` (with `rma_op` null) up to and including
the call of `verbs_post_send`.  `vglobals` tells whether the global `vglobals`
is set and `post` is the outcome of `ibv_post_send`.  The result holds the
value of `ret`, the Tx taken (`none` when the function has returned before
taking one) and the endpoint. -/
def verbs_send_common_post (vglobals : Bool) (ep : cci__ep_t) (conn : Nat) (iov : List iovec)
    (context : Nat) (flags : Nat) (post : cci_status) :
    Option (cci_status × Option Nat × cci__ep_t) :=
  match ep.vconns[conn]? with
  | none => none
  | some c =>
    if !vglobals then some (.CCI_ENODEV, none, ep)
    else
      let len := verbs_iov_len iov
      if len > c.max_send_size then some (.CCI_EMSGSIZE, none, ep)
      else
        match verbs_get_tx ep with
        | (none, ep1) => some (.CCI_ENOBUFS, none, ep1)
        | (some t, ep1) =>
          match ep1.txs[t]? with
          | none => none
          | some tx =>
            let tx1 : verbs_tx_t :=
              { tx with
                msg_type := VERBS_MSG_SEND, flags := flags, rma_op := none, len := len,
                evt := { conn := some conn,
                         event := { tx.evt.event with
                           type := .CCI_EVENT_SEND,
                           send_connection := some conn,
                           send_context := context,
                           send_status := .CCI_SUCCESS } } }
            let ep2 := { ep1 with txs := ep1.txs.set t tx1 }
            let (ret, ep3) := verbs_post_send ep2 conn (.tx t) true len VERBS_MSG_SEND post
            some (ret, some t, ep3)

/-- The function `verbs_send_common` (with `rma_op` null): the part up to the
posting, then the blocking branch and the clean-up at `out`.  `others` lists
the effects of the other threads while the blocking branch waits.  The test
`ret == CCI_SUCCESS` of the blocking branch is the test that `ret` is zero. -/
def verbs_send_common (vglobals : Bool) (ep : cci__ep_t) (conn : Nat) (iov : List iovec)
    (context : Nat) (flags : Nat) (post : cci_status) (others : List (cci__ep_t → cci__ep_t)) :
    Option (cci_status × cci__ep_t) :=
  match verbs_send_common_post vglobals ep conn iov context flags post with
  | none => none
  | some (ret, none, ep1) => some (ret, ep1)
  | some (ret, some t, ep3) =>
    let is_reliable :=
      match ep.vconns[conn]? with
      | some c => cci_conn_is_reliable c.conn_attribute
      | none => false
    if ret.nonzero then some (ret, { ep3 with idle_txs := t :: ep3.idle_txs })
    else if flags &&& CCI_FLAG_BLOCKING ≠ 0 ∧ is_reliable = true then
      match verbs_send_common_wait t ep3 others with
      | none => none
      | some (ret, ep4) =>
        let ep5 := if ret.nonzero
          then ep4 else { ep4 with idle_txs := t :: ep4.idle_txs }
        let ep6 := if ret.nonzero
          then { ep5 with idle_txs := t :: ep5.idle_txs } else ep5
        some (ret, ep6)
    else some (ret, ep3)

/-- The function `verbs_send`; `msg_ptr` is `none` for a null pointer. -/
def verbs_send (vglobals : Bool) (ep : cci__ep_t) (conn : Nat) (msg_ptr : Option Nat)
    (msg_len : Nat) (context : Nat) (flags : Nat) (post : cci_status)
    (others : List (cci__ep_t → cci__ep_t)) : Option (cci_status × cci__ep_t) :=
  let iov : List iovec :=
    match msg_ptr with
    | some p => if msg_len > 0 then [{ iov_base := p, iov_len := msg_len }] else []
    | none => []
  verbs_send_common vglobals ep conn iov context flags post others

/-- The function `verbs_sendv`; `data` holds the `iovcnt` segments. -/
def verbs_sendv (vglobals : Bool) (ep : cci__ep_t) (conn : Nat) (data : List iovec)
    (context : Nat) (flags : Nat) (post : cci_status)
    (others : List (cci__ep_t → cci__ep_t)) : Option (cci_status × cci__ep_t) :=
  verbs_send_common vglobals ep conn data context flags post others

/-! ## Verbs transport: where a Tx descriptor is -/

/-- The Tx `t` is on the idle list. -/
def tx_idle (ep : cci__ep_t) (t : Nat) : Bool :=
  decide (t ∈ ep.idle_txs)

/-- The Tx `t` is posted to the fabric: a work request carrying it is in the
send queue. -/
def tx_posted (ep : cci__ep_t) (t : Nat) : Bool :=
  ep.sq.any (fun wr => wr.wr_id == wr_ptr.tx t)

/-- The event embedded in Tx `t` is pending: on the event list of the
endpoint, or among the events `delivered` to the application and not yet
returned. -/
def tx_pending (ep : cci__ep_t) (delivered : List evt_ref) (t : Nat) : Bool :=
  decide (evt_ref.tx t ∈ ep.evts) || decide (evt_ref.tx t ∈ delivered)

/-- Number of places among idle list, fabric and pending events that hold
Tx `t`. -/
def tx_places (ep : cci__ep_t) (delivered : List evt_ref) (t : Nat) : Nat :=
  (if tx_idle ep t then 1 else 0) + (if tx_posted ep t then 1 else 0)
    + (if tx_pending ep delivered t then 1 else 0)

/-! ## Verbs transport: reading the event list -/

/-- The Recv completion of a ConnPayload with attribute 0 and no payload,
received in Rx `rx` from queue pair `qp_num` by a little-endian host. -/
def conn_payload_wc (rx qp_num : Nat) : ibv_wc :=
  { wr_id := .rx rx, status := .IBV_WC_SUCCESS, opcode := IBV_WC_RECV,
    imm_data := htonl true
      (verbs_conn_payload_header { context := 0, attr := 0, len := 0, ptr := [] }),
    byte_len := 0, qp_num := qp_num }

/-- The Recv completion of a message of kind `kind` and `byte_len` bytes,
received in Rx `rx` from queue pair `qp_num` by a little-endian host. -/
def msg_wc (kind rx qp_num byte_len : Nat) : ibv_wc :=
  { wr_id := .rx rx, status := .IBV_WC_SUCCESS, opcode := IBV_WC_RECV,
    imm_data := htonl true kind, byte_len := byte_len, qp_num := qp_num }

/-- Passive side of one connection establishment on endpoint `ep`: the
connection request of a peer with queue pair `qp_num` is handled, its
ConnPayload is polled in Rx `rx`, the application gets the ConnectRequest
event and accepts it over a path MTU of 2048.  Every library call succeeds. -/
def passive_establish (ep : cci__ep_t) (qp_num rx : Nat) : Option cci__ep_t :=
  match verbs_handle_conn_request ep qp_num VERBS_MSG_CONN_REQUEST .CCI_SUCCESS true
      .CCI_SUCCESS with
  | none => none
  | some (_, ep1) =>
    match verbs_get_cq_event ep1 (.ok [conn_payload_wc rx qp_num]) with
    | none => none
    | some (_, ep2) =>
      match verbs_get_event id ep2 with
      | some (_, some (.rx r), ep3) =>
        match verbs_accept ep3 r (.ok .IBV_MTU_2048) .CCI_SUCCESS with
        | none => none
        | some (_, ep4) => some ep4
      | _ => none

/-- A little-endian endpoint with 2 Tx and 4 Rx descriptors that has
accepted one connection, from queue pair 10. -/
def ep_one_established : Option cci__ep_t :=
  passive_establish (verbs_create_endpoint true 2 4 1024 4096) 10 0

/-- The endpoint `ep_one_established` after it has accepted a second
connection, from queue pair 11. -/
def ep_two_established : Option cci__ep_t :=
  match ep_one_established with
  | none => none
  | some ep => passive_establish ep 11 1

/-- The endpoint of `ep_one_established` as a plain state (the scenario does
not fail, so the alternative is never taken). -/
def ep_sample : cci__ep_t :=
  ep_one_established.getD (verbs_create_endpoint true 2 4 1024 4096)

/-- The connection 0 of `ep_sample`, as `verbs_accept` left it. -/
def conn_sample : verbs_conn_t :=
  { qp_num := 10, state := .VERBS_CONN_PASSIVE, mss := 2048, max_send_size := 2048,
    conn_attribute := 0, conn_req := none,
    entry := { tqe_next := none, tqe_prev := .head .conns },
    temp := { tqe_next := none, tqe_prev := .head .passive } }

/-- A connect request record: context 7, attribute 1, the five bytes of
"hello". -/
def cr_sample : verbs_conn_request_t :=
  { context := 7, attr := 1, len := 5, ptr := [104, 101, 108, 108, 111] }

/-- The Recv completion, on `ep_sample`, of the ConnPayload a little-endian
initiator builds from `cr_sample`. -/
def conn_payload_wc_sample : ibv_wc :=
  { wr_id := .rx 2, status := .IBV_WC_SUCCESS, opcode := IBV_WC_RECV,
    imm_data := imm_on_receiver true true (htonl true (verbs_conn_payload_header cr_sample)),
    byte_len := 5, qp_num := 12 }

/-- The endpoint `ep_sample` after `verbs_send_common` has posted 5 bytes on
connection 0 with context 170 and no flag. -/
def ep_sent_sample : cci__ep_t :=
  ((verbs_send_common_post true ep_sample 0 [{ iov_base := 0, iov_len := 5 }] 170 0
      .CCI_SUCCESS).map (fun r => r.2.2)).getD ep_sample

/-- A Send completion of Tx `t` on queue pair 10 with fabric status `status`. -/
def send_wc (t : Nat) (status : ibv_wc_status) : ibv_wc :=
  { wr_id := .tx t, status := status, opcode := IBV_WC_SEND, imm_data := 0, byte_len := 0,
    qp_num := 10 }

/-- The endpoint `ep_sample` after a blocking send (Tx 0) and a plain send
(Tx 1) on connection 0 have been posted and one poll has brought the Send
completion of Tx 0, a 5-byte message from the peer in Rx 2 and the Send
completion of Tx 1: its event list is Tx 0, Rx 2, Tx 1. -/
def ep_events_sample : cci__ep_t :=
  match verbs_send_common_post true ep_sample 0 [{ iov_base := 0, iov_len := 5 }] 170
      CCI_FLAG_BLOCKING .CCI_SUCCESS with
  | some (_, _, ep1) =>
    match verbs_send_common_post true ep1 0 [{ iov_base := 8, iov_len := 3 }] 171 0
        .CCI_SUCCESS with
    | some (_, _, ep2) =>
      match verbs_get_cq_event ep2
          (.ok [send_wc 0 .IBV_WC_SUCCESS, msg_wc VERBS_MSG_SEND 2 10 5,
                send_wc 1 .IBV_WC_SUCCESS]) with
      | some (_, ep3) => ep3
      | none => ep_sample
    | none => ep_sample
  | none => ep_sample

/-! ## Verbs transport: connecting -/

/-- Modelled from the spec: `core_verbs.h`, which defines `VERBS_URI`, is
missing; the URI format of the spec is `verbs://<host>:<port>`. -/
def VERBS_URI : List Char := "verbs://".toList

/-- The test `0 == strncmp(pat, s, strlen(pat))`: the string `s` begins with
the characters of `pat`. -/
def strncmp_eq : List Char → List Char → Bool
  | [], _ => true
  | _ :: _, [] => false
  | p :: ps, c :: cs => p == c && strncmp_eq ps cs

/-- The calls `strchr(ip, ':')` and `*colon = 0` of `verbs_parse_uri`: the
text before the first colon and the text after it, `none` when there is no
colon. -/
def split_colon : List Char → Option (List Char × List Char)
  | [] => none
  | c :: rest =>
    if c = ':' then some ([], rest)
    else
      match split_colon rest with
      | none => none
      | some (a, b) => some (c :: a, b)

/-- The function `verbs_parse_uri`: the return code and, on success, the
strings stored through `node` and `service`. -/
def verbs_parse_uri (uri : List Char) : cci_status × Option (List Char × List Char) :=
  if strncmp_eq VERBS_URI uri then
    match split_colon (uri.drop VERBS_URI.length) with
    | some (node, service) => (.CCI_SUCCESS, some (node, service))
    | none => (.CCI_EINVAL, none)
  else (.CCI_EINVAL, none)

/-- Outcomes of the library calls of `verbs_connect`: whether each of the
four `calloc` calls succeeds, and for `rdma_getaddrinfo`, `rdma_create_ep`
(which makes the queue pair `qp_num`), `rdma_migrate_id` and `rdma_connect`
the value of `errno` when the call returns -1, `none` when it returns 0. -/
structure verbs_connect_env where
  alloc_conn : Bool
  alloc_priv : Bool
  alloc_cr : Bool
  alloc_ptr : Bool
  getaddrinfo : Option Nat
  create_ep : Option Nat
  qp_num : Nat
  migrate_id : Option Nat
  connect : Option Nat
  deriving DecidableEq

/-- The connect request record `verbs_connect` allocates when
`context || data_len`; `data` is the memory at `data_ptr`. -/
def verbs_connect_request (data : List Nat) (data_len attr context : Nat) :
    Option verbs_conn_request_t :=
  if context ≠ 0 ∨ data_len ≠ 0 then
    some { context := context, attr := attr, len := data_len,
           ptr := if data_len ≠ 0 then data.take data_len else [] }
  else none

/-- The function `verbs_connect` (the arguments `flags` and `timeout` are not
read by the code).  `context` is 0 for a null pointer.  A connection that is
allocated and then given up on an error path stays out of the store. -/
def verbs_connect (ep : cci__ep_t) (server_uri : List Char) (data : List Nat)
    (data_len attr context : Nat) (env : verbs_connect_env) :
    Option (cci_status × cci__ep_t) :=
  if !env.alloc_conn then some (.CCI_ENOMEM, ep)
  else if !env.alloc_priv then some (.CCI_ENOMEM, ep)
  else if (context ≠ 0 ∨ data_len ≠ 0) ∧ env.alloc_cr = false then some (.CCI_ENOMEM, ep)
  else if data_len ≠ 0 ∧ env.alloc_ptr = false then some (.CCI_ENOMEM, ep)
  else
    let ret := (verbs_parse_uri server_uri).1
    if ret.nonzero then some (ret, ep)
    else
      match env.getaddrinfo, env.create_ep, env.migrate_id with
      | some e, _, _ => some (.errno e, ep)
      | none, some e, _ => some (.errno e, ep)
      | none, none, some e => some (.errno e, ep)
      | none, none, none =>
        let vc := ep.vconns.length
        let c : verbs_conn_t :=
          { qp_num := env.qp_num, state := .VERBS_CONN_ACTIVE, mss := 0, max_send_size := 0,
            conn_attribute := attr,
            conn_req := verbs_connect_request data data_len attr context,
            entry := { tqe_next := none, tqe_prev := .null },
            temp := { tqe_next := none, tqe_prev := .null } }
        let ep1 := { ep with vconns := ep.vconns ++ [c] }
        match TAILQ_INSERT_TAIL ep1 .active vc .temp with
        | none => none
        | some ep2 =>
          match env.connect with
          | some e =>
            match TAILQ_REMOVE ep2 .active vc .temp with
            | none => none
            | some ep3 => some (.errno e, ep3)
          | none => some (.CCI_SUCCESS, ep2)

/-! ## Framework: `cci_create_endpoint` -/

/-- The fields of `cci__dev_t` that `cci_create_endpoint` uses; `eps` lists
the endpoints bound to the device, in order. -/
structure cci__dev_t where
  is_default : Nat
  is_up : Nat
  eps : List Nat
  deriving DecidableEq

/-- The global state: the ordered device list `globals->devs` and the number
of endpoint records allocated so far (the next record gets that number). -/
structure cci_globals where
  devs : List cci__dev_t
  n_eps : Nat
  deriving DecidableEq

/-- The loop over `globals->devs` of `cci_create_endpoint`: the index of the
first device with `is_default` set, counting from `i`. -/
def find_default_dev : List cci__dev_t → Nat → Option Nat
  | [], _ => none
  | d :: rest, i => if d.is_default ≠ 0 then some i else find_default_dev rest (i + 1)

/-- What `cci_create_endpoint` leaves: the return code, the global state, the
endpoint stored through `endpoint` (`none` when no record was allocated) and
the device whose transport was called. -/
structure create_endpoint_result where
  ret : cci_status
  globals : cci_globals
  endpoint : Option Nat
  dev : Option Nat
  deriving DecidableEq

/-- The function `cci_create_endpoint`; `device` is `none` for a null
pointer, `calloc` tells whether the allocation succeeds and `plugin_ret` is
what the `create_endpoint` operation of the transport returns.  `none` when
`device` is not a device of the list. -/
def cci_create_endpoint (g : cci_globals) (device : Option Nat) (calloc : Bool)
    (plugin_ret : cci_status) : Option create_endpoint_result :=
  let sel : Option Nat :=
    match device with
    | none =>
      match find_default_dev g.devs 0 with
      | some i => some i
      | none => if g.devs.isEmpty then none else some 0
    | some d => some d
  match sel with
  | none => some { ret := .CCI_ENODEV, globals := g, endpoint := none, dev := none }
  | some d =>
    match g.devs[d]? with
    | none => none
    | some dev =>
      if dev.is_up = 0 then
        some { ret := .CCI_ENODEV, globals := g, endpoint := none, dev := none }
      else if !calloc then
        some { ret := .CCI_ENOMEM, globals := g, endpoint := none, dev := none }
      else
        some { ret := plugin_ret,
               globals := { devs := g.devs.set d { dev with eps := dev.eps ++ [g.n_eps] },
                            n_eps := g.n_eps + 1 },
               endpoint := some g.n_eps, dev := some d }

/-! ## Kernel-assisted transport: the shared event ring -/

/-- Modelled from the spec: the file of the ccieth driver that implements the
event ring is missing (`ccieth_main.c` holds the endpoint struct and the
description of the algorithm).  A slot holds `next_busy_offset`,
`next_free_offset` (terminator -1) and the event payload. -/
structure ring_slot where
  next_busy_offset : Int
  next_free_offset : Int
  event : Nat
  deriving DecidableEq

/-- Modelled from the spec: the event ring with the offsets the endpoint
tracks, `last_busy`, `first_free` and `last_free`; the ring code is missing.
A slot offset is the index of the slot. -/
structure event_ring where
  slots : List ring_slot
  last_busy : Int
  first_free : Int
  last_free : Int
  deriving DecidableEq

/-- Modelled from the spec: reads `slot[off]` of the event ring (the ring code
is missing); `none` for a negative or outside offset. -/
def event_ring.slot (r : event_ring) (off : Int) : Option ring_slot :=
  if off < 0 then none else r.slots[off.toNat]?

/-- Modelled from the spec: updates `slot[off]` of the event ring (the ring
code is missing). -/
def event_ring.set_slot (r : event_ring) (off : Int) (f : ring_slot → ring_slot) : event_ring :=
  if off < 0 then r else { r with slots := list_modify r.slots off.toNat f }

/-- Modelled from the spec: initialisation of a ring of `n` slots (the ring
code is missing): the busy list is seeded with one synthetic event `ok` in
slot 0, every other slot is threaded into the free list in order. -/
def ring_init (n ok : Nat) : event_ring :=
  { slots := (List.range n).map (fun i =>
      if i = 0 then { next_busy_offset := -1, next_free_offset := -1, event := ok }
      else { next_busy_offset := -1,
             next_free_offset := if i + 1 < n then ((i + 1 : Nat) : Int) else -1,
             event := 0 }),
    last_busy := 0,
    first_free := if 1 < n then 1 else -1,
    last_free := ((n - 1 : Nat) : Int) }

/-- Modelled from the spec: outcome of a produce on the event ring. -/
inductive ring_status where
  | Ok
  | NoSpace
  deriving DecidableEq

/-- Modelled from the spec: produce of event `ev` on the kernel side (the ring
code is missing).  (1) `first_free == -1`: fail with `NoSpace`; (2) take
`s = first_free`, set `first_free = slot[s].next_free`; (3) write the payload
and set `slot[s].next_busy = -1`; (4) set `slot[last_busy].next_busy = s` and
`last_busy = s`. -/
def ring_produce (r : event_ring) (ev : Nat) : ring_status × event_ring :=
  if r.first_free = -1 then (.NoSpace, r)
  else
    let s := r.first_free
    let next := match r.slot s with
      | some sl => sl.next_free_offset
      | none => -1
    let r1 := { r with first_free := next }
    let r2 := r1.set_slot s (fun sl => { sl with event := ev, next_busy_offset := -1 })
    let r3 := r2.set_slot r2.last_busy (fun sl => { sl with next_busy_offset := s })
    (.Ok, { r3 with last_busy := s })

/-- Modelled from the spec: return of slot `s` on the user side (the ring code
is missing).  (1) `slot[s].next_free = -1`; (2) if `first_free == -1` then
`first_free = s` else `slot[last_free].next_free = s`; (3) `last_free = s`. -/
def ring_return (r : event_ring) (s : Int) : event_ring :=
  let r1 := r.set_slot s (fun sl => { sl with next_free_offset := -1 })
  let r2 := if r1.first_free = -1 then { r1 with first_free := s }
    else r1.set_slot r1.last_free (fun sl => { sl with next_free_offset := s })
  { r2 with last_free := s }

/-- Modelled from the spec: the consumer on the user side (the ring code is
missing) remembers `last_observed_busy`, polls
`slot[last_observed_busy].next_busy` and advances while it is not negative,
at most `fuel` times.  The result holds the events seen, in order, and the
slot reached. -/
def ring_consume (r : event_ring) : Nat → Int → List Nat × Int
  | 0, last => ([], last)
  | fuel + 1, last =>
    match r.slot last with
    | none => ([], last)
    | some sl =>
      if sl.next_busy_offset < 0 then ([], last)
      else
        match r.slot sl.next_busy_offset with
        | none => ([], last)
        | some nx =>
          let (evs, reached) := ring_consume r fuel sl.next_busy_offset
          (nx.event :: evs, reached)

/-- Runs produces of the given events in order; returns the outcome of each
and the ring afterwards. -/
def ring_produce_all (r : event_ring) : List Nat → List ring_status × event_ring
  | [] => ([], r)
  | ev :: evs =>
    let (st, r1) := ring_produce r ev
    let (sts, r2) := ring_produce_all r1 evs
    (st :: sts, r2)
/-! ## Verbs transport: an initiator scenario -/

/-- Library outcomes of a `verbs_connect` in which every call succeeds and
the new queue pair has number `qp_num`. -/
def connect_env_ok (qp_num : Nat) : verbs_connect_env :=
  { alloc_conn := true, alloc_priv := true, alloc_cr := true, alloc_ptr := true,
    getaddrinfo := none, create_ep := none, qp_num := qp_num, migrate_id := none,
    connect := none }

/-- The Recv completion, in Rx `rx` of a little-endian host, of a ConnReply
whose outcome subfield is `outcome`, sent on queue pair `qp_num` by a
little-endian peer. -/
def conn_reply_wc (rx qp_num outcome : Nat) : ibv_wc :=
  { wr_id := .rx rx, status := .IBV_WC_SUCCESS, opcode := IBV_WC_RECV,
    imm_data := htonl true (VERBS_MSG_CONN_REPLY ||| (outcome <<< 4)),
    byte_len := 0, qp_num := qp_num }

/-- A little-endian endpoint with 2 Tx and 4 Rx descriptors on a device whose
`max_send_size` is 1024, after `verbs_connect` to `verbs://10.0.0.1:5000` with
the payload "hello", attribute 1 and context 7 (queue pair 20), and after the
fabric has reported the connection established over a path MTU of 2048:
`verbs_conn_est_active` has posted the ConnPayload in Tx 0. -/
def ep_initiator : Option cci__ep_t :=
  match verbs_connect (verbs_create_endpoint true 2 4 1024 4096)
      "verbs://10.0.0.1:5000".toList [104, 101, 108, 108, 111] 5 1 7 (connect_env_ok 20) with
  | some (_, ep1) =>
    match verbs_conn_est_active ep1 0 (.ok .IBV_MTU_2048) .CCI_SUCCESS with
    | some (_, ep2) => some ep2
    | none => none
  | none => none

/-- The endpoint `ep_initiator` after it has polled the ConnReply of its peer
with outcome subfield `outcome` in Rx 0 and the application has taken the
resulting event with `verbs_get_event`. -/
def ep_initiator_replied (outcome : Nat) : Option cci__ep_t :=
  match ep_initiator with
  | none => none
  | some ep =>
    match verbs_get_cq_event ep (.ok [conn_reply_wc 0 20 outcome]) with
    | none => none
    | some (_, ep1) =>
      match verbs_get_event id ep1 with
      | some (_, some (.rx 0), ep2) => some ep2
      | _ => none

/-- The connect request record held by connection `vc`. -/
def conn_req_of (ep : cci__ep_t) (vc : Nat) : Option verbs_conn_request_t :=
  match ep.vconns[vc]? with
  | some c => c.conn_req
  | none => none

/-- A little-endian endpoint with 2 Tx and 4 Rx descriptors on which the
connection request of a peer with queue pair 10 was handled and its ConnPayload
polled in Rx 0, and whose application has taken the ConnectRequest event of
Rx 0 (the steps of `passive_establish` before `verbs_accept`). -/
def ep_conn_requested : Option cci__ep_t :=
  match verbs_handle_conn_request (verbs_create_endpoint true 2 4 1024 4096) 10
      VERBS_MSG_CONN_REQUEST .CCI_SUCCESS true .CCI_SUCCESS with
  | none => none
  | some (_, ep1) =>
    match verbs_get_cq_event ep1 (.ok [conn_payload_wc 0 10]) with
    | none => none
    | some (_, ep2) =>
      match verbs_get_event id ep2 with
      | some (_, some (.rx 0), ep3) => some ep3
      | _ => none

/-- The endpoint of `ep_conn_requested` as a plain state (the scenario does
not fail, so the alternative is never taken). -/
def ep_conn_requested_sample : cci__ep_t :=
  ep_conn_requested.getD (verbs_create_endpoint true 2 4 1024 4096)

/-- The endpoint of `ep_initiator` as a plain state (the scenario does not
fail, so the alternative is never taken). -/
def ep_initiator_sample : cci__ep_t :=
  ep_initiator.getD (verbs_create_endpoint true 2 4 1024 4096)

/-- A device list of three devices: the first is up and not flagged, the
second is flagged as default and up, the third is flagged and down; no
endpoint exists yet. -/
def globals_sample : cci_globals :=
  { devs := [{ is_default := 0, is_up := 1, eps := [] },
             { is_default := 1, is_up := 1, eps := [] },
             { is_default := 1, is_up := 0, eps := [] }],
    n_eps := 0 }
/-! ## Verbs transport: what a connection list holds -/

/-- The fields of a connection other than its two link fields. -/
def conn_data (c : verbs_conn_t) :
    Nat × verbs_conn_state_t × Nat × Nat × Nat × Option verbs_conn_request_t :=
  (c.qp_num, c.state, c.mss, c.max_send_size, c.conn_attribute, c.conn_req)

/-- The link words of the connections `xs`, in the store `V`, form a chain
through the field `f`: `first` points to the first of them, the `tqe_prev` of
each is the address of the word that points to it (`prev` for the first), the
`tqe_next` of each points to the following one, the last `tqe_next` is null,
and `last` is the address of that last word (`prev` when `xs` is empty). -/
def tailq_links (V : List verbs_conn_t) (f : conn_link) :
    link_ptr → List Nat → Option Nat → link_ptr → Bool
  | prev, [], first, last => first == none && last == prev
  | prev, x :: xs, first, last =>
    first == some x &&
      match V[x]? with
      | none => false
      | some c =>
        (c.link f).tqe_prev == prev
          && tailq_links V f (.next x f) xs (c.link f).tqe_next last

/-- The list `l` of the endpoint, threaded through the link field `f`, is a
well-formed `TAILQ` that holds exactly the connections `xs`, in this order,
each once. -/
def tailq_is (ep : cci__ep_t) (l : conn_list) (f : conn_link) (xs : List Nat) : Bool :=
  tailq_links ep.vconns f (.head l) xs (ep.head l).tqh_first (ep.head l).tqh_last
    && decide xs.Nodup

/-- The address of the last `tqe_next` word of a chain that starts after
`prev`. -/
def last_ptr (prev : link_ptr) (xs : List Nat) (f : conn_link) : link_ptr :=
  match xs.getLast? with
  | none => prev
  | some z => .next z f

/-- The link field `f` of connection `j` of the store `V`. -/
def link_of (V : List verbs_conn_t) (j : Nat) (f : conn_link) : Option tailq_entry :=
  (V[j]?).map (fun c => c.link f)

/-- What the link operations leave alone: every field of the endpoint other
than the connection store and the three list heads, and in the store the
fields of the connections other than the links. -/
def same_but_links (ep ep' : cci__ep_t) : Prop :=
  ep' = { ep with vconns := ep'.vconns, conns := ep'.conns, active := ep'.active,
                  passive := ep'.passive } ∧
    ep'.vconns.map conn_data = ep.vconns.map conn_data

/-- A `verbs_conn_t **` that can be stored through: the address of a list
head, or of a link word of a connection of the store `V`. -/
def ptr_ok (V : List verbs_conn_t) : link_ptr → Bool
  | .null => false
  | .head _ => true
  | .next z _ => decide (z < V.length)

/-! ## Verbs transport: the copy loop of a send -/

/-- The second loop of `verbs_send_common`, `memcpy(tx->buffer + offset,
iov[i].iov_base, iov[i].iov_len); offset += iov[i].iov_len;` with `offset` a
`uint32_t`: the offset and the length of each `memcpy`, in order. -/
def verbs_send_common_copy_loop : List iovec → Nat → List (Nat × Nat)
  | [], _ => []
  | v :: rest, offset =>
    (offset, v.iov_len) :: verbs_send_common_copy_loop rest ((offset + v.iov_len) % 2 ^ 32)

/-- The copies `verbs_send_common` makes into the buffer of the Tx: the loop
is inside `if (len)`, `len` being the `uint32_t` sum. -/
def verbs_send_common_copies (iov : List iovec) : List (Nat × Nat) :=
  if verbs_iov_len iov ≠ 0 then verbs_send_common_copy_loop iov 0 else []

/-- The number of bytes `verbs_send_common` copies into the buffer of the
Tx. -/
def verbs_send_common_copied (iov : List iovec) : Nat :=
  ((verbs_send_common_copies iov).map (fun c => c.2)).sum

/-! ## Verbs transport: remote memory access -/

/-- Modelled from the spec: `cci.h` is missing; `WRITE` is one bit of the
`flags` argument of `rma`, apart from `BLOCKING` and `FENCE`.  The code only
tests `flags & CCI_FLAG_WRITE`. -/
def CCI_FLAG_WRITE : Nat := 32

/-- Modelled from the spec: `cci.h` is missing; `FENCE` is one bit of the
`flags` argument of `rma`, apart from `BLOCKING` and `WRITE`.  The code only
tests `flags & CCI_FLAG_FENCE`. -/
def CCI_FLAG_FENCE : Nat := 64

/-- The struct `verbs_rma_remote_t`: an entry of the cache of remote handles
of a connection. -/
structure verbs_rma_remote_t where
  remote_handle : Nat
  remote_addr : Nat
  rkey : Nat
  deriving DecidableEq

/-- The loop `TAILQ_FOREACH(tmp, &vconn->remotes, entry)` of
`verbs_conn_get_remote`.  The list `vconn->remotes` is threaded through the
one link field `entry` of its elements and is modelled as a list; `seen` holds
the entries the loop has passed, `TAILQ_FIRST(&vconn->remotes) != rem` is the
test that some entry was passed.  The result holds `rem` and the list
afterwards. -/
def verbs_conn_get_remote_loop (remote_handle : Nat) :
    List verbs_rma_remote_t → List verbs_rma_remote_t →
      Option verbs_rma_remote_t × List verbs_rma_remote_t
  | seen, [] => (none, seen)
  | seen, tmp :: rest =>
    if tmp.remote_handle = remote_handle then
      if seen ≠ [] then (some tmp, tmp :: (seen ++ rest))
      else (some tmp, tmp :: rest)
    else verbs_conn_get_remote_loop remote_handle (seen ++ [tmp]) rest

/-- The function `verbs_conn_get_remote` on the cache `vconn->remotes` of the
connection. -/
def verbs_conn_get_remote (remotes : List verbs_rma_remote_t) (remote_handle : Nat) :
    Option verbs_rma_remote_t × List verbs_rma_remote_t :=
  verbs_conn_get_remote_loop remote_handle [] remotes

/-- The fields of a local `verbs_rma_handle_t` that `verbs_post_rma` reads:
`mr->addr` and `mr->lkey`. -/
structure verbs_rma_handle_t where
  mr_addr : Nat
  lkey : Nat
  deriving DecidableEq

/-- The fields of `verbs_rma_op_t` that `verbs_post_rma` and `verbs_rma`
access; `local_handle` and `remote` are `none` for a null pointer. -/
structure verbs_rma_op_t where
  local_handle : Option verbs_rma_handle_t
  local_offset : Nat
  remote_handle : Nat
  remote_offset : Nat
  len : Nat
  flags : Nat
  remote : Option verbs_rma_remote_t
  deriving DecidableEq

/-- The two values of `enum ibv_wr_opcode` that `verbs_post_rma` uses. -/
inductive ibv_wr_opcode where
  | IBV_WR_RDMA_WRITE
  | IBV_WR_RDMA_READ
  deriving DecidableEq

/-- The RDMA work request `verbs_post_rma` hands to `ibv_post_send`: the one
scatter-gather element (`uint64_t addr`, `uint32_t length`, `lkey`), the
opcode, the send flags `IBV_SEND_SIGNALED` and `IBV_SEND_FENCE`, and the
remote address and key. -/
structure ibv_rdma_wr where
  sge_addr : Nat
  sge_length : Nat
  sge_lkey : Nat
  num_sge : Nat
  opcode : ibv_wr_opcode
  signaled : Bool
  fence : Bool
  remote_addr : Nat
  rkey : Nat
  deriving DecidableEq

/-- The function `verbs_post_rma`; `post` is what `ibv_post_send` gives.  The
result holds the return code and the work request built; `none` when `local`
or `rma_op->remote` is null. -/
def verbs_post_rma (rma_op : verbs_rma_op_t) (post : cci_status) :
    Option (cci_status × ibv_rdma_wr) :=
  match rma_op.local_handle, rma_op.remote with
  | some loc, some remote =>
    some (post,
      { sge_addr := (loc.mr_addr + rma_op.local_offset) % 2 ^ 64,
        sge_length := rma_op.len % 2 ^ 32,
        sge_lkey := loc.lkey,
        num_sge := 1,
        opcode := if rma_op.flags &&& CCI_FLAG_WRITE ≠ 0 then .IBV_WR_RDMA_WRITE
          else .IBV_WR_RDMA_READ,
        signaled := true,
        fence := rma_op.flags &&& CCI_FLAG_FENCE ≠ 0,
        remote_addr := remote.remote_addr,
        rkey := remote.rkey })
  | _, _ => none

/-- The record `verbs_rma` fills in for its arguments, with the cache entry
`verbs_conn_get_remote` finds for `remote_handle`. -/
def verbs_rma_op (remotes : List verbs_rma_remote_t) (loc : verbs_rma_handle_t)
    (local_offset remote_handle remote_offset data_len flags : Nat) : verbs_rma_op_t :=
  { local_handle := some loc, local_offset := local_offset, remote_handle := remote_handle,
    remote_offset := remote_offset, len := data_len, flags := flags,
    remote := (verbs_conn_get_remote remotes remote_handle).1 }

/-! ## The ccieth driver: the `GET_INFO` control operation -/

/-- The kernel constant `ARPHRD_ETHER`. -/
def ARPHRD_ETHER : Nat := 1

/-- The kernel constant `ARPHRD_LOOPBACK`. -/
def ARPHRD_LOOPBACK : Nat := 772

/-- The kernel constant `EFAULT`. -/
def EFAULT : Int := 14

/-- The kernel constant `ENODEV`. -/
def ENODEV : Int := 19

/-- The fields of a `struct net_device` that the `GET_INFO` operation reads:
hardware type and address, `mtu`, the PCI position of the parent device
(domain, bus number and `devfn`; `none` when the parent is null or not on the
PCI bus) and what `ethtool_ops->get_settings` gives (`none` when the operation
is absent, `some none` when it fails, `some (some speed)` otherwise). -/
structure net_device where
  type : Nat
  dev_addr : List Nat
  mtu : Nat
  pci : Option (Nat × Nat × Nat)
  get_settings : Option (Option Nat)
  deriving DecidableEq

/-- Modelled from the spec: `ccieth_io.h`, which declares
`struct ccieth_ioctl_get_info`, is missing; the fields are those the code
assigns (hardware address, `max_send_size`, PCI domain, bus, device and
function, link rate), the first five results signed since the code stores -1
in them. -/
structure ccieth_ioctl_get_info where
  addr : List Nat
  max_send_size : Int
  pci_domain : Int
  pci_bus : Int
  pci_dev : Int
  pci_func : Int
  rate : Nat
  deriving DecidableEq

/-- The kernel function `dev_getbyhwaddr_rcu` on the interfaces `devs` of the
namespace: the first interface of hardware type `type` whose address is
`ha`. -/
def dev_getbyhwaddr_rcu (devs : List net_device) (type : Nat) (ha : List Nat) :
    Option net_device :=
  devs.find? (fun d => d.type == type && d.dev_addr == ha)

/-- The case `CCIETH_IOCTL_GET_INFO` of `ccieth_miscdev_ioctl`.
`copy_from_user` is the argument read from user space (`none` when the copy
fails, otherwise `ret` is 0), `copy_to_user` is what the copy back returns,
the number of bytes it could not copy.  The result holds the return value and
the record written to user space.  The pair `state` holds the variables `ret`
and `gi_arg`: `ret` is assigned `-ENODEV` when no interface is found, and
then assigned the result of `copy_to_user`. -/
def ccieth_ioctl_get_info_op (devs : List net_device)
    (copy_from_user : Option ccieth_ioctl_get_info) (copy_to_user : Nat) :
    Int × Option ccieth_ioctl_get_info :=
  match copy_from_user with
  | none => (-EFAULT, none)
  | some arg =>
    let gi : ccieth_ioctl_get_info :=
      { arg with max_send_size := -1, pci_domain := -1, pci_bus := -1, pci_dev := -1,
                 pci_func := -1, rate := 0 }
    let state : Int × ccieth_ioctl_get_info :=
      match dev_getbyhwaddr_rcu devs ARPHRD_ETHER gi.addr with
      | some ifp =>
        let gi1 :=
          if ifp.mtu = 9000 then { gi with max_send_size := 8192 }
          else if ifp.mtu = 1500 then { gi with max_send_size := 1024 }
          else gi
        let gi2 :=
          match ifp.pci with
          | some (domain, bus, devfn) =>
            { gi1 with pci_domain := domain, pci_bus := bus,
                       pci_dev := ((devfn >>> 3) &&& 0x1f : Nat),
                       pci_func := ((devfn &&& 0x07 : Nat) : Int) }
          | none => gi1
        let gi3 :=
          match ifp.get_settings with
          | some (some speed) =>
            if speed % 2 ^ 32 ≠ 2 ^ 32 - 1 then { gi2 with rate := (speed % 2 ^ 32) * 1000000 }
            else gi2
          | _ => gi2
        (0, gi3)
      | none => (-ENODEV, gi)
    let state : Int × ccieth_ioctl_get_info := ((copy_to_user : Int), state.2)
    if state.1 ≠ 0 then (-EFAULT, none) else (0, some state.2)

/-- The initiator of `ep_initiator_replied 0` (the accepting ConnReply for its
first connection was handled and the event taken) after a second
`verbs_connect`, to the same server with the payload "hello", attribute 1 and
context 8 (queue pair 21), and after `verbs_conn_est_active` has posted the
ConnPayload of that second connection, connection 1. -/
def ep_initiator_second : Option cci__ep_t :=
  match ep_initiator_replied 0 with
  | none => none
  | some ep =>
    match verbs_connect ep "verbs://10.0.0.1:5000".toList [104, 101, 108, 108, 111] 5 1 8
        (connect_env_ok 21) with
    | some (_, ep1) =>
      match verbs_conn_est_active ep1 1 (.ok .IBV_MTU_2048) .CCI_SUCCESS with
      | some (_, ep2) => some ep2
      | none => none
    | none => none

theorem ffsl_scan_spec (x : Nat) : ∀ (fuel pos k : Nat), pos ≤ k → k < pos + fuel →
    x.testBit k = true →
    ∃ j, ffsl_scan x fuel pos = j + 1 ∧ pos ≤ j ∧ j ≤ k ∧ x.testBit j = true ∧
      ∀ m, pos ≤ m → m < j → x.testBit m = false := by
  intro fuel
  induction fuel with
  | zero => intro pos k h1 h2 _; omega
  | succ n ih =>
    intro pos k h1 h2 hk
    unfold ffsl_scan
    by_cases hp : x.testBit pos = true
    · refine ⟨pos, by simp [hp], le_refl _, h1, hp, ?_⟩
      intro m hm1 hm2; omega
    · have hne : pos ≠ k := by
        intro h; rw [h] at hp; exact hp hk
      obtain ⟨j, hj, hj1, hj2, hj3, hj4⟩ := ih (pos + 1) k (by omega) (by omega) hk
      refine ⟨j, by simp [hp, hj], by omega, hj2, hj3, ?_⟩
      intro m hm1 hm2
      by_cases hmp : m = pos
      · subst hmp; simpa using hp
      · exact hj4 m (by omega) hm2

theorem inverted_testBit (b k : Nat) :
    (UINT64_MAX ^^^ b).testBit k = (decide (k < 64) ^^ b.testBit k) := by
  rw [UINT64_MAX, Nat.testBit_xor, Nat.testBit_two_pow_sub_one]

theorem testBit_high_of_lt (b k : Nat) (hb : b < 2 ^ 64) (hk : 64 ≤ k) : b.testBit k = false := by
  apply Nat.testBit_lt_two_pow
  exact lt_of_lt_of_le hb (Nat.pow_le_pow_right (by decide) hk)

theorem exists_clear_bit (b : Nat) (hb : b < 2 ^ 64) (hne : b ≠ UINT64_MAX) :
    ∃ k, k < 64 ∧ b.testBit k = false := by
  by_contra hcon
  apply hne
  apply Nat.eq_of_testBit_eq
  intro i
  rw [UINT64_MAX, Nat.testBit_two_pow_sub_one]
  by_cases hi : i < 64
  · have : b.testBit i = true := by
      by_contra h
      exact hcon ⟨i, hi, by simpa using h⟩
    simp [this, hi]
  · simp [hi, testBit_high_of_lt b i hb (by omega)]

theorem and_two_pow_of_clear (b j : Nat) (h : b.testBit j = false) : b &&& 2 ^ j = 0 := by
  apply Nat.eq_of_testBit_eq
  intro i
  rw [Nat.testBit_and, Nat.testBit_two_pow, Nat.zero_testBit]
  by_cases hij : j = i
  · subst hij; simp [h]
  · simp [hij]

theorem sm_scan_blocks_head (b : Nat) (rest : List Nat) (hb : b < 2 ^ 64)
    (hne : b ≠ UINT64_MAX) :
    ∃ j, j < 64 ∧ b.testBit j = false ∧ (∀ m, m < j → b.testBit m = true) ∧
      sm_scan_blocks (b :: rest) = some (some ((b ||| 2 ^ j) :: rest, j)) := by
  obtain ⟨k, hk, hkb⟩ := exists_clear_bit b hb hne
  have hinv : (UINT64_MAX ^^^ b).testBit k = true := by
    rw [inverted_testBit]; simp [hk, hkb]
  obtain ⟨j, hj, _, hjk, hjt, hjm⟩ :=
    ffsl_scan_spec (UINT64_MAX ^^^ b) 64 0 k (Nat.zero_le _) (by omega) hinv
  have hj64 : j < 64 := by omega
  have hbj : b.testBit j = false := by
    rw [inverted_testBit] at hjt
    simpa [hj64] using hjt
  refine ⟨j, hj64, hbj, ?_, ?_⟩
  · intro m hm
    have := hjm m (Nat.zero_le _) hm
    rw [inverted_testBit] at this
    have hm64 : m < 64 := by omega
    simpa [hm64] using this
  · have hffsl : ffsl (UINT64_MAX ^^^ b) = j + 1 := hj
    have hand : b &&& 2 ^ j = 0 := and_two_pow_of_clear b j hbj
    simp [sm_scan_blocks, hne, hffsl, Nat.one_shiftLeft, hand]

theorem sm_scan_blocks_spec : ∀ (ids : List Nat), (∀ b ∈ ids, b < 2 ^ 64) →
    (∃ b ∈ ids, b ≠ UINT64_MAX) →
    ∃ i j b, ids[i]? = some b ∧ b ≠ UINT64_MAX ∧ (∀ k, k < i → ids[k]? = some UINT64_MAX) ∧
      j < 64 ∧ b.testBit j = false ∧ (∀ m, m < j → b.testBit m = true) ∧
      sm_scan_blocks ids = some (some (ids.set i (b ||| 2 ^ j), j)) := by
  intro ids
  induction ids with
  | nil => intro _ h; obtain ⟨b, hb, _⟩ := h; simp at hb
  | cons a rest ih =>
    intro hw hfree
    by_cases ha : a = UINT64_MAX
    · have hw' : ∀ b ∈ rest, b < 2 ^ 64 := fun b hb => hw b (List.mem_cons_of_mem _ hb)
      have hfree' : ∃ b ∈ rest, b ≠ UINT64_MAX := by
        obtain ⟨b, hb, hbne⟩ := hfree
        rcases List.mem_cons.mp hb with h | h
        · exact absurd (h ▸ ha) hbne
        · exact ⟨b, h, hbne⟩
      obtain ⟨i, j, b, h1, h2, h3, h4, h5, h6, h7⟩ := ih hw' hfree'
      refine ⟨i + 1, j, b, by simpa using h1, h2, ?_, h4, h5, h6, ?_⟩
      · intro k hk
        cases k with
        | zero => simp [ha]
        | succ k => simpa using h3 k (by omega)
      · simp [sm_scan_blocks, ha, h7]
    · obtain ⟨j, h4, h5, h6, h7⟩ :=
        sm_scan_blocks_head a rest (hw a (List.mem_cons_self _ _)) ha
      refine ⟨0, j, a, by simp, ha, ?_, h4, h5, h6, ?_⟩
      · intro k hk; omega
      · simpa using h7

/-- C8: when some block of the bitmap is not saturated (all blocks being
64-bit words), `sm_get_ep_id` succeeds on the lowest-index non-saturated block
`i`, sets there the lowest clear bit `j` (clear before the call, every lower
bit set), and the new bitmap is the old one with block `i` replaced by the old
block with bit `j` added: no other bit of the block, no other block and not
the number of blocks change. -/
theorem sm_get_ep_id_lowest_clear_bit (sdev : sm_dev_t) (realloc : Option Nat)
    (hw : ∀ b ∈ sdev.ids, b < 2 ^ 64) (hfree : ∃ b ∈ sdev.ids, b ≠ UINT64_MAX) :
    ∃ i j b, sdev.ids[i]? = some b ∧ b ≠ UINT64_MAX ∧
      (∀ k, k < i → sdev.ids[k]? = some UINT64_MAX) ∧
      j < 64 ∧ b.testBit j = false ∧ (∀ m, m < j → b.testBit m = true) ∧
      (∀ m, (b ||| 2 ^ j).testBit m = (b.testBit m || decide (m = j))) ∧
      (sdev.ids.set i (b ||| 2 ^ j)).length = sdev.num_blocks ∧
      (∀ k, k ≠ i → (sdev.ids.set i (b ||| 2 ^ j))[k]? = sdev.ids[k]?) ∧
      sm_get_ep_id sdev realloc =
        some { ret := .CCI_SUCCESS, id := some ((j + sdev.id) % 2 ^ 32),
               sdev := { sdev with ids := sdev.ids.set i (b ||| 2 ^ j) } } := by
  obtain ⟨i, j, b, h1, h2, h3, h4, h5, h6, h7⟩ := sm_scan_blocks_spec sdev.ids hw hfree
  refine ⟨i, j, b, h1, h2, h3, h4, h5, h6, ?_, ?_, ?_, ?_⟩
  · intro m
    rw [Nat.testBit_or, Nat.testBit_two_pow]
    by_cases hm : m = j
    · subst hm; simp
    · have : ¬ j = m := fun h => hm h.symm
      simp [hm, this]
  · simp [sm_dev_t.num_blocks]
  · intro k hk
    simp [List.getElem?_set, Ne.symm hk]
  · simp [sm_get_ep_id, h7]

/-- Witness of C8 on the bitmap with a saturated block 0 and block 1 holding
bits 0 and 2, base id 3. -/
theorem sm_get_ep_id_lowest_clear_bit_witness :
    ∃ i j b, ([UINT64_MAX, 5] : List Nat)[i]? = some b ∧ b ≠ UINT64_MAX ∧
      (∀ k, k < i → ([UINT64_MAX, 5] : List Nat)[k]? = some UINT64_MAX) ∧
      j < 64 ∧ b.testBit j = false ∧ (∀ m, m < j → b.testBit m = true) ∧
      (∀ m, (b ||| 2 ^ j).testBit m = (b.testBit m || decide (m = j))) ∧
      (([UINT64_MAX, 5] : List Nat).set i (b ||| 2 ^ j)).length
        = sm_dev_t.num_blocks { id := 3, ids := [UINT64_MAX, 5] } ∧
      (∀ k, k ≠ i → (([UINT64_MAX, 5] : List Nat).set i (b ||| 2 ^ j))[k]?
        = ([UINT64_MAX, 5] : List Nat)[k]?) ∧
      sm_get_ep_id { id := 3, ids := [UINT64_MAX, 5] } none =
        some { ret := .CCI_SUCCESS, id := some ((j + 3) % 2 ^ 32),
               sdev := { id := 3, ids := ([UINT64_MAX, 5] : List Nat).set i (b ||| 2 ^ j) } } :=
  sm_get_ep_id_lowest_clear_bit { id := 3, ids := [UINT64_MAX, 5] } none
    (by decide) (by decide)
/-- C7: evaluation of `sm_get_ep_id` at the failing input.  From the empty
one-block bitmap with base id 0, 64 allocations return 0, ..., 63 and saturate
block 0; the 65th allocation then grows the bitmap to a second block and,
whatever the content of the new word, returns id 0 and not 64: the id is
`shift + sdev->id`, without `64 * i`. -/
theorem sm_get_ep_id_65th_returns_zero :
    sm_get_n 64 { id := 0, ids := [0] } 0
        = some (List.range 64, { id := 0, ids := [UINT64_MAX] }) ∧
      (∀ w : Nat, sm_get_ep_id { id := 0, ids := [UINT64_MAX] } (some w)
        = some { ret := .CCI_SUCCESS, id := some 0,
                 sdev := { id := 0, ids := [UINT64_MAX, w ||| 1] } }) ∧
      sm_get_ep_id { id := 0, ids := [UINT64_MAX, 0] } none
        = some { ret := .CCI_SUCCESS, id := some 0,
                 sdev := { id := 0, ids := [UINT64_MAX, 1] } } := by
  refine ⟨by decide, ?_, by decide⟩
  intro w
  simp [sm_get_ep_id, sm_scan_blocks]

/-- C9: evaluation of `sm_get_ep_id` then `sm_put_ep_id` at the failing input
(two blocks, block 0 saturated, block 1 holding bit 0, base id 0): the get
marks bit 1 of block 1 and returns id 1; the put of id 1 clears bit 1 of
block 0, so neither block has its prior value. -/
theorem sm_put_after_get_changes_bitmap :
    sm_get_ep_id { id := 0, ids := [UINT64_MAX, 1] } none
        = some { ret := .CCI_SUCCESS, id := some 1,
                 sdev := { id := 0, ids := [UINT64_MAX, 3] } } ∧
      sm_put_ep_id { id := 0, ids := [UINT64_MAX, 3] } 1
        = some { id := 0, ids := [UINT64_MAX - 2, 3] } ∧
      ({ id := 0, ids := [UINT64_MAX - 2, 3] } : sm_dev_t)
        ≠ { id := 0, ids := [UINT64_MAX, 1] } := by
  decide

/-- C10: evaluation of a call sequence at the failing input.  65 successive
calls of `sm_get_ep_id` on the empty one-block bitmap with base id 0, no id
being released, leave id 0 outstanding twice: the outstanding ids are not
pairwise distinct. -/
theorem sm_get_ep_id_hands_out_outstanding_id :
    sm_run { sdev := { id := 0, ids := [0] }, outstanding := [] }
        (List.replicate 65 (sm_call.get (some 0)))
      = some { sdev := { id := 0, ids := [UINT64_MAX, 1] },
               outstanding := 0 :: (List.range 64).reverse } ∧
      ¬ (0 :: (List.range 64).reverse).Nodup := by
  decide
/-! ## Lemmas on the header word -/

theorem verbs_conn_payload_header_val (cr : verbs_conn_request_t) (ha : cr.attr < 16)
    (hn : cr.len < 4096) :
    verbs_conn_payload_header cr = 2 + 16 * cr.attr + 256 * cr.len := by
  have h15 : cr.attr &&& 0xF = cr.attr := by
    have := Nat.and_pow_two_sub_one_eq_mod cr.attr 4
    norm_num at this
    rw [this]; omega
  have h4095 : cr.len &&& 0xFFF = cr.len := by
    have := Nat.and_pow_two_sub_one_eq_mod cr.len 12
    norm_num at this
    rw [this]; omega
  have h1 : VERBS_MSG_CONN_PAYLOAD ||| (cr.attr <<< 4) = 2 + 16 * cr.attr := by
    have := Nat.mul_add_lt_is_or (show 2 < 2 ^ 4 by norm_num) cr.attr
    rw [Nat.or_comm, Nat.shiftLeft_eq, Nat.mul_comm cr.attr, VERBS_MSG_CONN_PAYLOAD, ← this]
    omega
  have h2 : (2 + 16 * cr.attr) ||| (cr.len <<< 8) = 2 + 16 * cr.attr + 256 * cr.len := by
    have := Nat.mul_add_lt_is_or (show 2 + 16 * cr.attr < 2 ^ 8 by omega) cr.len
    rw [Nat.or_comm, Nat.shiftLeft_eq, Nat.mul_comm cr.len, ← this]
    omega
  unfold verbs_conn_payload_header
  simp only [h15, h4095, h1]
  by_cases h0 : cr.len = 0
  · simp [h0]
  · simp [h0, h2]

theorem word_of_bytes_extract (b0 b1 b2 b3 : Nat) (h0 : b0 < 256) (h1 : b1 < 256)
    (h2 : b2 < 256) (h3 : b3 < 256) :
    word_of_bytes b0 b1 b2 b3 % 256 = b0 ∧ word_of_bytes b0 b1 b2 b3 / 2 ^ 8 % 256 = b1 ∧
      word_of_bytes b0 b1 b2 b3 / 2 ^ 16 % 256 = b2 ∧
      word_of_bytes b0 b1 b2 b3 / 2 ^ 24 % 256 = b3 ∧
      word_of_bytes b0 b1 b2 b3 % 2 ^ 32 = word_of_bytes b0 b1 b2 b3 := by
  unfold word_of_bytes
  norm_num
  refine ⟨?_, ?_, ?_, ?_, ?_⟩ <;> omega

theorem word_of_bytes_decomp (h : Nat) (hh : h < 2 ^ 32) :
    ∃ b0 b1 b2 b3, b0 < 256 ∧ b1 < 256 ∧ b2 < 256 ∧ b3 < 256 ∧ h = word_of_bytes b0 b1 b2 b3 := by
  refine ⟨h % 256, h / 256 % 256, h / 65536 % 256, h / 16777216, ?_, ?_, ?_, ?_, ?_⟩
  · omega
  · omega
  · omega
  · norm_num at hh; omega
  · unfold word_of_bytes; omega

theorem bswap32_word_of_bytes (b0 b1 b2 b3 : Nat) (h0 : b0 < 256) (h1 : b1 < 256)
    (h2 : b2 < 256) (h3 : b3 < 256) :
    bswap32 (word_of_bytes b0 b1 b2 b3) = word_of_bytes b3 b2 b1 b0 := by
  obtain ⟨e0, e1, e2, e3, _⟩ := word_of_bytes_extract b0 b1 b2 b3 h0 h1 h2 h3
  unfold bswap32
  rw [e0, e1, e2, e3]
  unfold word_of_bytes
  norm_num
  omega

theorem word_bytes_word_of_bytes (le : Bool) (b0 b1 b2 b3 : Nat) (h0 : b0 < 256)
    (h1 : b1 < 256) (h2 : b2 < 256) (h3 : b3 < 256) :
    word_bytes le (word_of_bytes b0 b1 b2 b3)
      = if le then [b0, b1, b2, b3] else [b3, b2, b1, b0] := by
  obtain ⟨e0, e1, e2, e3, _⟩ := word_of_bytes_extract b0 b1 b2 b3 h0 h1 h2 h3
  unfold word_bytes
  rw [e0, e1, e2, e3]

theorem bytes_word_eq (le : Bool) (c0 c1 c2 c3 : Nat) :
    bytes_word le [c0, c1, c2, c3]
      = if le then word_of_bytes c0 c1 c2 c3 else word_of_bytes c3 c2 c1 c0 := by
  cases le <;> simp only [bytes_word, word_of_bytes, if_true, if_false, Bool.false_eq_true] <;>
    norm_num <;> omega

theorem imm_wire_roundtrip (sender_le receiver_le : Bool) (h : Nat) (hh : h < 2 ^ 32) :
    ntohl receiver_le (imm_on_receiver sender_le receiver_le (htonl sender_le h)) = h := by
  obtain ⟨b0, b1, b2, b3, h0, h1, h2, h3, rfl⟩ := word_of_bytes_decomp h hh
  have m1 : word_of_bytes b0 b1 b2 b3 % 4294967296 = word_of_bytes b0 b1 b2 b3 := by
    simpa using (word_of_bytes_extract b0 b1 b2 b3 h0 h1 h2 h3).2.2.2.2
  have m2 : word_of_bytes b3 b2 b1 b0 % 4294967296 = word_of_bytes b3 b2 b1 b0 := by
    simpa using (word_of_bytes_extract b3 b2 b1 b0 h3 h2 h1 h0).2.2.2.2
  cases sender_le <;> cases receiver_le <;>
    simp [ntohl, htonl, imm_on_receiver, bswap32_word_of_bytes, word_bytes_word_of_bytes,
      bytes_word_eq, h0, h1, h2, h3, m1, m2]

theorem conn_payload_decode (a n : Nat) (ha : a < 16) (hn : n < 4096) :
    (2 + 16 * a + 256 * n) &&& 0xF = 2 ∧ ((2 + 16 * a + 256 * n) >>> 4) &&& 0xF = a ∧
      ((2 + 16 * a + 256 * n) >>> 8) &&& 0xFFF = n := by
  have e4 := fun x => Nat.and_pow_two_sub_one_eq_mod x 4
  have e12 := fun x => Nat.and_pow_two_sub_one_eq_mod x 12
  norm_num at e4 e12
  simp only [e4, e12, Nat.shiftRight_eq_div_pow]
  norm_num
  omega
theorem verbs_conn_payload_header_decode (sender_le receiver_le : Bool)
    (cr : verbs_conn_request_t) (ha : cr.attr < 16) (hn : cr.len < 4096) :
    ntohl receiver_le
        (imm_on_receiver sender_le receiver_le (htonl sender_le (verbs_conn_payload_header cr)))
      = 2 + 16 * cr.attr + 256 * cr.len := by
  rw [verbs_conn_payload_header_val cr ha hn]
  apply imm_wire_roundtrip
  norm_num
  omega

/-- C1: for every attribute below 16 and payload length below 4096 held in the
connect request record `cr`, and every byte order of the two hosts:
(1) `verbs_conn_est_active`, when it posts, posts one work request whose
immediate word is `htonl` of the header `kind | (attr & 0xF) << 4 | (len &
0xFFF) << 8`; (2) the receiver, whose completion carries the four bytes of
that word, reads after `ntohl` a header whose low 4 bits are
`VERBS_MSG_CONN_PAYLOAD`, whose bits 4..7 are the attribute and whose bits
8..19 are the length; (3) `verbs_handle_recv` hands the completion to
`verbs_handle_conn_payload`; (4) when that function finds the passive
connection `vc` and the completion names the Rx `i`, it succeeds and appends
the event of Rx `i`, a ConnectRequest event of connection `vc` with that
attribute and that length. -/
theorem verbs_conn_payload_roundtrip (sender_le : Bool) (cr : verbs_conn_request_t)
    (ep : cci__ep_t) (wc : ibv_wc) (ha : cr.attr < 16) (hn : cr.len < 4096)
    (himm : wc.imm_data = imm_on_receiver sender_le ep.little_endian
      (htonl sender_le (verbs_conn_payload_header cr))) :
    (∀ (s s1 : cci__ep_t) (vc : Nat) (c : verbs_conn_t) (query : Except Nat ibv_mtu),
      s.little_endian = sender_le → s.vconns[vc]? = some c → c.conn_req = some cr →
      verbs_conn_est_active s vc query .CCI_SUCCESS = some (.CCI_SUCCESS, s1) →
      ∃ wr, s1.sq = s.sq ++ [wr] ∧ wr.with_imm = true ∧
        wr.imm_data = htonl sender_le (verbs_conn_payload_header cr)) ∧
    ntohl ep.little_endian wc.imm_data &&& 0xF = VERBS_MSG_CONN_PAYLOAD ∧
    (ntohl ep.little_endian wc.imm_data >>> 4) &&& 0xF = cr.attr ∧
    (ntohl ep.little_endian wc.imm_data >>> 8) &&& 0xFFF = cr.len ∧
    verbs_handle_recv ep wc = verbs_handle_conn_payload ep wc ∧
    (∀ (vc i : Nat) (ep1 : cci__ep_t) (rx : verbs_rx_t),
      verbs_find_conn ep .temp wc.qp_num (ep.vconns.length + 1) ep.passive.tqh_first
        = some (some vc) →
      TAILQ_REMOVE ep .passive vc .temp = some ep1 →
      wc.wr_id = .rx i → ep1.rxs[i]? = some rx →
      ∃ ep2, verbs_handle_recv ep wc = some (.CCI_SUCCESS, ep2) ∧
        ep2.evts = ep1.evts ++ [.rx i] ∧
        (ep2.rxs[i]?).map (fun r => (r.evt.conn, r.evt.event.type,
            r.evt.event.request_attribute, r.evt.event.request_data_len))
          = some (some vc, .CCI_EVENT_CONNECT_REQUEST, cr.attr, cr.len)) := by
  have hdec := verbs_conn_payload_header_decode sender_le ep.little_endian cr ha hn
  rw [← himm] at hdec
  obtain ⟨d1, d2, d3⟩ := conn_payload_decode cr.attr cr.len ha hn
  rw [← hdec] at d1 d2 d3
  have hrecv : verbs_handle_recv ep wc = verbs_handle_conn_payload ep wc := by
    unfold verbs_handle_recv
    simp only [d1, VERBS_MSG_CONN_PAYLOAD, if_true]
  refine ⟨?_, d1, d2, d3, hrecv, ?_⟩
  · intro s s1 vc c query hle hc hcr hest
    unfold verbs_conn_est_active at hest
    simp only [hc, hcr, verbs_get_tx, verbs_get_tx_locked, cci__ep_t.modify_conn] at hest
    cases hi : s.idle_txs with
    | nil => simp [hi] at hest
    | cons t rest =>
      simp only [hi] at hest
      cases ht : s.txs[t]? with
      | none => simp [ht] at hest
      | some tx =>
        simp only [ht, verbs_post_send, cci_status.nonzero, Bool.false_eq_true, if_false,
          Option.some.injEq, Prod.mk.injEq, true_and] at hest
        subst hest
        have hne : verbs_conn_payload_header cr ≠ 0 := by
          rw [verbs_conn_payload_header_val cr ha hn]; omega
        refine ⟨_, rfl, ?_, ?_⟩
        · simp [hne]
        · simp [hne, hle]
  · intro vc i ep1 rx hfind hrem hid hrx
    rw [hrecv]
    unfold verbs_handle_conn_payload
    have hrx2 : (ep1.modify_conn vc (fun c =>
        { c with conn_attribute := (ntohl ep.little_endian wc.imm_data >>> 4) &&& 0xF })).rxs[i]?
        = some rx := by
      simpa [cci__ep_t.modify_conn] using hrx
    have hlt : i < ep1.rxs.length := by
      rcases List.getElem?_eq_some_iff.mp hrx with ⟨hlt, _⟩
      exact hlt
    simp only [hfind, hrem, hid, hrx2]
    refine ⟨_, rfl, ?_, ?_⟩
    · simp [cci__ep_t.modify_conn]
    · simp only [cci__ep_t.modify_conn]
      rw [List.getElem?_set_self (by simpa using hlt)]
      simp only [Option.map_some', d2, d3]

/-- Witness of C1 for the connect request `cr_sample` received on `ep_sample`,
both hosts little-endian. -/
theorem verbs_conn_payload_roundtrip_witness :
    ntohl ep_sample.little_endian conn_payload_wc_sample.imm_data &&& 0xF
        = VERBS_MSG_CONN_PAYLOAD ∧
      (ntohl ep_sample.little_endian conn_payload_wc_sample.imm_data >>> 4) &&& 0xF
        = cr_sample.attr ∧
      (ntohl ep_sample.little_endian conn_payload_wc_sample.imm_data >>> 8) &&& 0xFFF
        = cr_sample.len ∧
      verbs_handle_recv ep_sample conn_payload_wc_sample
        = verbs_handle_conn_payload ep_sample conn_payload_wc_sample :=
  ((verbs_conn_payload_roundtrip true cr_sample ep_sample conn_payload_wc_sample
    (by decide) (by decide) (by decide)).2).imp id
      (fun h => ⟨h.1, h.2.1, h.2.2.1⟩)
/-! ## Lemmas on event delivery -/

/-- C5: evaluation of `verbs_handle_recv` at the failing input.  The endpoint
has accepted two connections, from queue pairs 10 and 11; both are on the
established list, which `verbs_accept` threads through the link field `entry`.
A successful Recv completion of kind Send from queue pair 11 is handled with
return code `CCI_SUCCESS` and leaves the endpoint as it was: no Recv event is
appended, because `verbs_handle_msg` walks the list through the link field
`temp`.  The same completion from queue pair 10, the first connection of the
list, appends the event of its Rx. -/
theorem verbs_handle_msg_misses_second_connection :
    ep_two_established.isSome = true ∧
    ep_two_established.bind
        (fun ep => verbs_find_conn ep .entry 11 (ep.vconns.length + 1) ep.conns.tqh_first)
      = some (some 1) ∧
    ep_two_established.bind (fun ep => verbs_handle_recv ep (msg_wc VERBS_MSG_SEND 2 11 5))
      = ep_two_established.map (fun ep => (cci_status.CCI_SUCCESS, ep)) ∧
    (ep_two_established.bind (fun ep => verbs_handle_recv ep (msg_wc VERBS_MSG_SEND 2 10 5))).map
        (fun r => r.2.evts)
      = ep_two_established.map (fun ep => ep.evts ++ [evt_ref.rx 2]) := by
  decide

/-- C3: evaluation of the completion path at the failing input.  The endpoint
has accepted one connection, from queue pair 10, and its two Tx descriptors
are idle.  After the Recv completion of an RmaRemoteRequest from that queue
pair has been polled, Tx 0 is in none of the three places: it is not on the
idle list, no work request carries it and its event is not pending.  Before,
it was in exactly one. -/
theorem verbs_handle_remote_request_loses_tx :
    ep_one_established.map (fun ep => tx_places ep [] 0) = some 1 ∧
    (ep_one_established.bind
        (fun ep => verbs_get_cq_event ep (.ok [msg_wc VERBS_MSG_RMA_REMOTE_REQUEST 2 10 8]))).map
        (fun r => (r.1, tx_idle r.2 0, tx_posted r.2 0, tx_pending r.2 [] 0, tx_places r.2 [] 0))
      = some (cci_status.CCI_SUCCESS, false, false, false, 0) := by
  decide
/-! ## Lemmas on sending -/

theorem verbs_iov_len_fold (iov : List iovec) : ∀ acc : Nat, acc < 2 ^ 32 →
    iov.foldl (fun len v => (len + v.iov_len % 2 ^ 32) % 2 ^ 32) acc
      = (acc + (iov.map iovec.iov_len).sum) % 2 ^ 32 := by
  induction iov with
  | nil =>
    intro acc h
    simp only [List.foldl_nil, List.map_nil, List.sum_nil, Nat.add_zero]
    exact (Nat.mod_eq_of_lt h).symm
  | cons v rest ih =>
    intro acc _
    simp only [List.foldl_cons, List.map_cons, List.sum_cons]
    rw [ih _ (Nat.mod_lt _ (by norm_num))]
    norm_num
    omega

theorem verbs_iov_len_eq_sum (iov : List iovec) (h : (iov.map iovec.iov_len).sum < 2 ^ 32) :
    verbs_iov_len iov = (iov.map iovec.iov_len).sum := by
  unfold verbs_iov_len
  rw [verbs_iov_len_fold iov 0 (by norm_num), Nat.zero_add]
  exact Nat.mod_eq_of_lt h

/-- C6: evaluation of `verbs_sendv` and `verbs_send` at the failing input,
with the transport initialised.  Connection 0 of `ep_sample` has
`max_send_size` 2048 and both Tx are idle.  For three segments of 2^31, 2^31
and 1 bytes, 2^32 + 1 bytes in all, `verbs_sendv` returns `CCI_SUCCESS`, not
`CCI_EMSGSIZE`: Tx 0 has left the idle list and a work request of length 1
that carries it has been posted.  `verbs_send` with a null `msg_ptr` and
`msg_len` 5000 returns `CCI_SUCCESS` as well and posts Tx 0 with length 0. -/
theorem verbs_sendv_wrapped_total_not_rejected :
    (ep_sample.vconns[0]?).map (fun c => c.max_send_size) = some 2048 ∧
    (ep_sample.idle_txs, ep_sample.sq.map (fun w => (w.wr_id, w.length)), ep_sample.evts)
      = ([0, 1], [(.null, 0)], []) ∧
    (([{ iov_base := 0, iov_len := 2 ^ 31 }, { iov_base := 0, iov_len := 2 ^ 31 },
       { iov_base := 0, iov_len := 1 }] : List iovec).map iovec.iov_len).sum = 2 ^ 32 + 1 ∧
    (verbs_sendv true ep_sample 0
        [{ iov_base := 0, iov_len := 2 ^ 31 }, { iov_base := 0, iov_len := 2 ^ 31 },
         { iov_base := 0, iov_len := 1 }] 170 0 .CCI_SUCCESS []).map
        (fun r => (r.1, r.2.idle_txs, r.2.sq.map (fun w => (w.wr_id, w.length)), r.2.evts))
      = some (.CCI_SUCCESS, [1], [(.null, 0), (.tx 0, 1)], []) ∧
    (verbs_send true ep_sample 0 none 5000 170 0 .CCI_SUCCESS []).map
        (fun r => (r.1, r.2.idle_txs, r.2.sq.map (fun w => (w.wr_id, w.length)), r.2.evts))
      = some (.CCI_SUCCESS, [1], [(.null, 0), (.tx 0, 0)], []) :=
  ⟨by decide, by decide, by decide, by decide, by decide⟩

/-- While the sum does not wrap, an oversized send is rejected: with the
global `vglobals` set, `verbs_sendv` with segments
whose lengths sum to less than `2 ^ 32` and to more than the `max_send_size`
of the connection, and `verbs_send` with a non-null `msg_ptr` and a 32-bit
`msg_len` above `max_send_size`, return `CCI_EMSGSIZE` and leave the whole
endpoint unchanged (idle list, fabric queues and event list included),
whatever `ibv_post_send` would have answered; with `vglobals` not set both
return `CCI_ENODEV`, the endpoint unchanged as well. -/
theorem verbs_send_too_large (ep : cci__ep_t) (conn : Nat) (c : verbs_conn_t)
    (data : List iovec) (msg_ptr msg_len context flags : Nat) (post : cci_status)
    (others : List (cci__ep_t → cci__ep_t))
    (hc : ep.vconns[conn]? = some c)
    (hsum : (data.map iovec.iov_len).sum < 2 ^ 32)
    (hbig : c.max_send_size < (data.map iovec.iov_len).sum)
    (hlen : msg_len < 2 ^ 32) (hmsg : c.max_send_size < msg_len) :
    verbs_sendv true ep conn data context flags post others = some (.CCI_EMSGSIZE, ep) ∧
    verbs_send true ep conn (some msg_ptr) msg_len context flags post others
      = some (.CCI_EMSGSIZE, ep) ∧
    verbs_sendv false ep conn data context flags post others = some (.CCI_ENODEV, ep) ∧
    verbs_send false ep conn (some msg_ptr) msg_len context flags post others
      = some (.CCI_ENODEV, ep) := by
  have h1 : verbs_iov_len data = (data.map iovec.iov_len).sum := verbs_iov_len_eq_sum data hsum
  have hpos : 0 < msg_len := by omega
  have h2 : verbs_iov_len [{ iov_base := msg_ptr, iov_len := msg_len }] = msg_len := by
    have hs : (([{ iov_base := msg_ptr, iov_len := msg_len }] : List iovec).map
        iovec.iov_len).sum = msg_len := by simp
    rw [verbs_iov_len_eq_sum _ (by rw [hs]; exact hlen), hs]
  refine ⟨?_, ?_, ?_, ?_⟩
  · simp [verbs_sendv, verbs_send_common, verbs_send_common_post, hc, h1, hbig]
  · simp [verbs_send, verbs_send_common, verbs_send_common_post, hc, hpos, h2, hmsg]
  · simp [verbs_sendv, verbs_send_common, verbs_send_common_post, hc]
  · simp [verbs_send, verbs_send_common, verbs_send_common_post, hc, hpos]

/-- The lemma `verbs_send_too_large` at two segments of 2000 bytes on connection 0 of
`ep_sample`, whose `max_send_size` is 2048. -/
theorem verbs_send_too_large_witness :
    verbs_sendv true ep_sample 0
        [{ iov_base := 0, iov_len := 2000 }, { iov_base := 4000, iov_len := 2000 }] 9 0
        .CCI_SUCCESS []
      = some (.CCI_EMSGSIZE, ep_sample) :=
  (verbs_send_too_large ep_sample 0 conn_sample
    [{ iov_base := 0, iov_len := 2000 }, { iov_base := 4000, iov_len := 2000 }]
    5 3000 9 0 .CCI_SUCCESS [] (by decide) (by decide) (by decide) (by decide) (by decide)).1
theorem verbs_send_common_post_tx (vglobals : Bool) (ep ep1 : cci__ep_t) (conn : Nat)
    (iov : List iovec) (context flags t : Nat) (post ret : cci_status)
    (h : verbs_send_common_post vglobals ep conn iov context flags post = some (ret, some t, ep1)) :
    ∃ tx, ep1.txs[t]? = some tx ∧ tx.msg_type = VERBS_MSG_SEND ∧ tx.flags = flags ∧
      tx.evt.conn = some conn ∧ tx.evt.event.type = .CCI_EVENT_SEND ∧
      tx.evt.event.send_connection = some conn ∧ tx.evt.event.send_context = context ∧
      tx.evt.event.send_status = .CCI_SUCCESS := by
  unfold verbs_send_common_post at h
  cases hc : ep.vconns[conn]? with
  | none => simp [hc] at h
  | some c =>
    simp only [hc] at h
    by_cases hv : vglobals = true
    · simp only [hv, Bool.not_true, Bool.false_eq_true, if_false] at h
      by_cases hl : verbs_iov_len iov > c.max_send_size
      · simp [hl] at h
      · simp only [hl, if_false] at h
        unfold verbs_get_tx verbs_get_tx_locked at h
        cases hi : ep.idle_txs with
        | nil => simp [hi] at h
        | cons t0 rest =>
          simp only [hi] at h
          cases ht : ep.txs[t0]? with
          | none => simp [ht] at h
          | some tx =>
            simp only [ht, verbs_post_send] at h
            have hlt : t0 < ep.txs.length := by
              rcases List.getElem?_eq_some_iff.mp ht with ⟨hlt, _⟩
              exact hlt
            by_cases hp : post.nonzero = true
            · simp only [hp, if_true, Option.some.injEq, Prod.mk.injEq] at h
              obtain ⟨_, h2, h3⟩ := h
              subst h2; subst h3
              simp [hlt]
            · simp only [hp, if_false, Option.some.injEq, Prod.mk.injEq] at h
              obtain ⟨_, h2, h3⟩ := h
              subst h2; subst h3
              simp [hlt]
    · simp [hv] at h

theorem fabric_complete_send (ep : cci__ep_t) (wc : ibv_wc) (hop : wc.opcode = IBV_WC_SEND) :
    (fabric_complete ep wc).txs = ep.txs ∧ (fabric_complete ep wc).evts = ep.evts ∧
      (fabric_complete ep wc).little_endian = ep.little_endian := by
  unfold fabric_complete
  simp only [hop, IBV_WC_SEND, IBV_WC_RECV, Nat.zero_and, ne_eq, not_true_eq_false, if_false]
  cases ep.sq.find? (fun wr => wr.wr_id == wc.wr_id) <;> simp

/-- C4: let `verbs_send_common` have taken Tx `t` for a send of `iov` on
connection `conn` with context `context` and have posted it (`ret` is
`CCI_SUCCESS` after `verbs_post_send`), and let `ep2` be any later state of
the endpoint in which the descriptor of `t` is as the posting left it.  Then
polling the Send completion `wc` of `t`, whatever its fabric status, succeeds
and appends exactly the event of `t` to the event list; that event is a Send
event on connection `conn` with context `context`, and its status is
`CCI_SUCCESS` for a successful completion, `CCI_ETIMEDOUT` for
retry-exceeded, `CCI_ERR_RNR` for RNR-retry-exceeded and `CCI_ERROR` for every
other failure.  Nothing else of the endpoint changes but the send queue, which
the completed request leaves. -/
theorem verbs_send_completion_event (vglobals : Bool) (ep ep1 ep2 : cci__ep_t) (conn : Nat)
    (iov : List iovec) (context flags t : Nat) (post : cci_status) (wc : ibv_wc)
    (hpost : verbs_send_common_post vglobals ep conn iov context flags post
      = some (.CCI_SUCCESS, some t, ep1))
    (hsame : ep2.txs[t]? = ep1.txs[t]?)
    (hid : wc.wr_id = .tx t) (hop : wc.opcode = IBV_WC_SEND) :
    ∃ tx, verbs_get_cq_event ep2 (.ok [wc])
        = some (.CCI_SUCCESS,
            { fabric_complete ep2 wc with txs := ep2.txs.set t tx, evts := ep2.evts ++ [.tx t] }) ∧
      tx.evt.event.type = .CCI_EVENT_SEND ∧
      tx.evt.conn = some conn ∧
      tx.evt.event.send_connection = some conn ∧
      tx.evt.event.send_context = context ∧
      (wc.status = .IBV_WC_SUCCESS → tx.evt.event.send_status = .CCI_SUCCESS) ∧
      (wc.status = .IBV_WC_RETRY_EXC_ERR → tx.evt.event.send_status = .CCI_ETIMEDOUT) ∧
      (wc.status = .IBV_WC_RNR_RETRY_EXC_ERR → tx.evt.event.send_status = .CCI_ERR_RNR) ∧
      (∀ code, wc.status = .other code → tx.evt.event.send_status = .CCI_ERROR) := by
  obtain ⟨tx, h1, h2, _, h4, h5, h6, h7, h8⟩ :=
    verbs_send_common_post_tx vglobals ep ep1 conn iov context flags t post _ hpost
  rw [← hsame] at h1
  obtain ⟨e1, e2, _⟩ := fabric_complete_send ep2 wc hop
  by_cases hs : wc.status = .IBV_WC_SUCCESS
  · refine ⟨tx, ?_, h5, h4, h6, h7, fun _ => h8, ?_, ?_, ?_⟩
    · simp [verbs_get_cq_event, verbs_get_cq_event_loop, verbs_handle_send_completion,
        verbs_wc_tx_type, verbs_complete_send, verbs_complete_send_msg, e1, e2, h1, h2, hs,
        hid, hop, IBV_WC_SEND, IBV_WC_RECV, cci_status.nonzero]
    · intro h; rw [hs] at h; cases h
    · intro h; rw [hs] at h; cases h
    · intro code h; rw [hs] at h; cases h
  · refine ⟨{ tx with evt := { tx.evt with event :=
        { tx.evt.event with send_status := verbs_send_status wc.status } } },
      ?_, h5, h4, h6, h7, fun h => absurd h hs, ?_, ?_, ?_⟩
    · simp [verbs_get_cq_event, verbs_get_cq_event_loop, verbs_handle_send_completion,
        verbs_wc_tx_type, verbs_complete_send, verbs_complete_send_msg, e1, e2, h1, h2, hs,
        hid, hop, IBV_WC_SEND, IBV_WC_RECV, cci_status.nonzero]
    · intro h; simp [h, verbs_send_status]
    · intro h; simp [h, verbs_send_status]
    · intro code h; simp [h, verbs_send_status]

/-- Witness of C4: the send posted in `ep_sent_sample` completes with
retry-exceeded. -/
theorem verbs_send_completion_event_witness :
    ∃ tx, verbs_get_cq_event ep_sent_sample (.ok [send_wc 0 .IBV_WC_RETRY_EXC_ERR])
        = some (.CCI_SUCCESS,
            { fabric_complete ep_sent_sample (send_wc 0 .IBV_WC_RETRY_EXC_ERR) with
              txs := ep_sent_sample.txs.set 0 tx,
              evts := ep_sent_sample.evts ++ [.tx 0] }) ∧
      tx.evt.event.type = .CCI_EVENT_SEND ∧
      tx.evt.conn = some 0 ∧
      tx.evt.event.send_connection = some 0 ∧
      tx.evt.event.send_context = 170 ∧
      ((send_wc 0 .IBV_WC_RETRY_EXC_ERR).status = .IBV_WC_SUCCESS →
        tx.evt.event.send_status = .CCI_SUCCESS) ∧
      ((send_wc 0 .IBV_WC_RETRY_EXC_ERR).status = .IBV_WC_RETRY_EXC_ERR →
        tx.evt.event.send_status = .CCI_ETIMEDOUT) ∧
      ((send_wc 0 .IBV_WC_RETRY_EXC_ERR).status = .IBV_WC_RNR_RETRY_EXC_ERR →
        tx.evt.event.send_status = .CCI_ERR_RNR) ∧
      (∀ code, (send_wc 0 .IBV_WC_RETRY_EXC_ERR).status = .other code →
        tx.evt.event.send_status = .CCI_ERROR) :=
  verbs_send_completion_event true ep_sample ep_sent_sample ep_sent_sample 0
    [{ iov_base := 0, iov_len := 5 }] 170 0 0 .CCI_SUCCESS (send_wc 0 .IBV_WC_RETRY_EXC_ERR)
    (by decide) rfl rfl rfl

/-! # Theorems on connections, returned events, devices and the event ring -/

/-! ## Lemmas on the connection lists -/

theorem getElem?_list_modify {α : Type} (V : List α) (i j : Nat) (g : α → α) :
    (list_modify V i g)[j]? = if i = j then (V[j]?).map g else V[j]? := by
  unfold list_modify
  cases h : V[i]? with
  | none =>
    by_cases hij : i = j
    · subst hij; simp [h]
    · simp [hij]
  | some x =>
    by_cases hij : i = j
    · subst hij
      have hlt : i < V.length := (List.getElem?_eq_some_iff.mp h).1
      simp [h, List.getElem?_set_self hlt]
    · simp [hij, List.getElem?_set_ne hij]

theorem length_list_modify {α : Type} (V : List α) (i : Nat) (g : α → α) :
    (list_modify V i g).length = V.length := by
  unfold list_modify
  cases V[i]? <;> simp

theorem map_list_modify {α β : Type} (V : List α) (i : Nat) (g : α → α) (p : α → β)
    (h : ∀ c, p (g c) = p c) : (list_modify V i g).map p = V.map p := by
  apply List.ext_getElem?
  intro n
  rw [List.getElem?_map, List.getElem?_map, getElem?_list_modify]
  by_cases hin : i = n
  · simp only [hin, if_true]
    cases V[n]? <;> simp [h]
  · simp [hin]

theorem conn_data_set_link (c : verbs_conn_t) (f : conn_link) (e : tailq_entry) :
    conn_data (c.set_link f e) = conn_data c := by
  cases f <;> rfl

theorem link_set_link (c : verbs_conn_t) (f f' : conn_link) (e : tailq_entry) :
    (c.set_link f e).link f' = if f' = f then e else c.link f' := by
  cases f <;> cases f' <;> rfl

theorem same_but_links_refl (ep : cci__ep_t) : same_but_links ep ep :=
  ⟨rfl, rfl⟩

theorem same_but_links_trans {a b c : cci__ep_t} (h1 : same_but_links a b)
    (h2 : same_but_links b c) : same_but_links a c := by
  obtain ⟨e1, m1⟩ := h1
  obtain ⟨e2, m2⟩ := h2
  refine ⟨?_, m2.trans m1⟩
  rw [e2, e1]

theorem set_head_same (ep : cci__ep_t) (l : conn_list) (h : tailq_head) :
    same_but_links ep (ep.set_head l h) := by
  cases l <;> exact ⟨rfl, rfl⟩

theorem modify_conn_same (ep : cci__ep_t) (z : Nat) (g : verbs_conn_t → verbs_conn_t)
    (hg : ∀ c, conn_data (g c) = conn_data c) : same_but_links ep (ep.modify_conn z g) :=
  ⟨rfl, map_list_modify ep.vconns z g conn_data hg⟩

theorem store_ptr_same (ep ep' : cci__ep_t) (p : link_ptr) (v : Option Nat)
    (h : store_ptr ep p v = some ep') : same_but_links ep ep' := by
  cases p with
  | null => simp [store_ptr] at h
  | head l =>
    simp only [store_ptr, Option.some.injEq] at h
    subst h
    exact set_head_same ep l _
  | next z f =>
    simp only [store_ptr] at h
    cases hz : ep.vconns[z]? with
    | none => simp [hz] at h
    | some c =>
      simp only [hz, Option.some.injEq] at h
      subst h
      exact modify_conn_same ep z _ (fun c => conn_data_set_link c f _)

theorem TAILQ_INSERT_TAIL_same (ep ep' : cci__ep_t) (l : conn_list) (elm : Nat) (f : conn_link)
    (h : TAILQ_INSERT_TAIL ep l elm f = some ep') : same_but_links ep ep' := by
  unfold TAILQ_INSERT_TAIL at h
  cases he : ep.vconns[elm]? with
  | none => simp [he] at h
  | some c =>
    simp only [he] at h
    cases hs : store_ptr (ep.modify_conn elm (fun c =>
        c.set_link f { tqe_next := none, tqe_prev := (ep.head l).tqh_last }))
        (ep.head l).tqh_last (some elm) with
    | none => simp [hs] at h
    | some ep2 =>
      simp only [hs, Option.some.injEq] at h
      subst h
      exact same_but_links_trans
        (same_but_links_trans (modify_conn_same ep elm _ (fun c => conn_data_set_link c f _))
          (store_ptr_same _ _ _ _ hs))
        (set_head_same ep2 l _)

theorem TAILQ_REMOVE_same (ep ep' : cci__ep_t) (l : conn_list) (elm : Nat) (f : conn_link)
    (h : TAILQ_REMOVE ep l elm f = some ep') : same_but_links ep ep' := by
  unfold TAILQ_REMOVE at h
  cases he : ep.vconns[elm]? with
  | none => simp [he] at h
  | some c =>
    simp only [he] at h
    cases hn : (c.link f).tqe_next with
    | none =>
      simp only [hn] at h
      exact same_but_links_trans (set_head_same ep l _) (store_ptr_same _ _ _ _ h)
    | some n =>
      simp only [hn] at h
      cases hnn : ep.vconns[n]? with
      | none => simp [hnn] at h
      | some d =>
        simp only [hnn] at h
        exact same_but_links_trans
          (modify_conn_same ep n _ (fun c => conn_data_set_link c f _))
          (store_ptr_same _ _ _ _ h)

theorem tailq_links_nil (V : List verbs_conn_t) (f : conn_link) (prev last : link_ptr)
    (first : Option Nat) :
    tailq_links V f prev [] first last = true ↔ first = none ∧ last = prev := by
  simp [tailq_links]

theorem tailq_links_cons (V : List verbs_conn_t) (f : conn_link) (prev last : link_ptr)
    (first : Option Nat) (x : Nat) (xs : List Nat) :
    tailq_links V f prev (x :: xs) first last = true ↔
      first = some x ∧ ∃ e, link_of V x f = some e ∧ e.tqe_prev = prev ∧
        tailq_links V f (.next x f) xs e.tqe_next last = true := by
  unfold link_of
  cases h : V[x]? with
  | none => simp [tailq_links, h]
  | some c => simp [tailq_links, h]

theorem last_ptr_cons (prev : link_ptr) (x : Nat) (xs : List Nat) (f : conn_link) :
    last_ptr prev (x :: xs) f = last_ptr (.next x f) xs f := by
  cases xs with
  | nil => simp [last_ptr]
  | cons y ys =>
    simp only [last_ptr, List.getLast?_cons_cons]
    cases h : (y :: ys).getLast? with
    | none => simp [List.getLast?_eq_none_iff] at h
    | some z => rfl

theorem tailq_links_last (V : List verbs_conn_t) (f : conn_link) :
    ∀ (xs : List Nat) (prev last : link_ptr) (first : Option Nat),
      tailq_links V f prev xs first last = true → last = last_ptr prev xs f := by
  intro xs
  induction xs with
  | nil =>
    intro prev last first h
    rw [tailq_links_nil] at h
    simpa [last_ptr] using h.2
  | cons x xs ih =>
    intro prev last first h
    rw [tailq_links_cons] at h
    obtain ⟨_, e, _, _, h4⟩ := h
    rw [last_ptr_cons]
    exact ih _ _ _ h4

theorem last_ptr_of_mem (prev : link_ptr) (xs : List Nat) (f : conn_link) (hne : xs ≠ []) :
    ∃ z, z ∈ xs ∧ last_ptr prev xs f = .next z f := by
  cases hl : xs.getLast? with
  | none => simp [List.getLast?_eq_none_iff] at hl; exact absurd hl hne
  | some z =>
    refine ⟨z, List.mem_of_getLast?_eq_some hl, ?_⟩
    simp [last_ptr, hl]

theorem tailq_links_valid (V : List verbs_conn_t) (f : conn_link) :
    ∀ (xs : List Nat) (prev last : link_ptr) (first : Option Nat),
      tailq_links V f prev xs first last = true → ∀ x ∈ xs, x < V.length := by
  intro xs
  induction xs with
  | nil => intro _ _ _ _ x hx; simp at hx
  | cons y ys ih =>
    intro prev last first h x hx
    rw [tailq_links_cons] at h
    obtain ⟨_, e, h2, _, h4⟩ := h
    rcases List.mem_cons.mp hx with hxy | hxy
    · subst hxy
      unfold link_of at h2
      cases hv : V[x]? with
      | none => simp [hv] at h2
      | some c => exact (List.getElem?_eq_some_iff.mp hv).1
    · exact ih _ _ _ h4 x hxy

theorem tailq_links_congr (V V' : List verbs_conn_t) (f : conn_link) :
    ∀ (xs : List Nat) (prev last : link_ptr) (first : Option Nat),
      (∀ j ∈ xs, link_of V' j f = link_of V j f) →
      tailq_links V' f prev xs first last = tailq_links V f prev xs first last := by
  intro xs
  induction xs with
  | nil => intro _ _ _ _; simp [tailq_links]
  | cons x xs ih =>
    intro prev last first h
    have hx := h x (List.mem_cons_self _ _)
    have hrest := fun e => ih (.next x f) last e (fun j hj => h j (List.mem_cons_of_mem _ hj))
    rw [Bool.eq_iff_iff, tailq_links_cons, tailq_links_cons, hx]
    constructor
    · rintro ⟨h1, e, h2, h3, h4⟩
      exact ⟨h1, e, h2, h3, by rw [← hrest]; exact h4⟩
    · rintro ⟨h1, e, h2, h3, h4⟩
      exact ⟨h1, e, h2, h3, by rw [hrest]; exact h4⟩

theorem tailq_links_snoc (V V' : List verbs_conn_t) (f : conn_link) (elm : Nat)
    (last : link_ptr)
    (hE : link_of V' elm f = some { tqe_next := none, tqe_prev := last }) :
    ∀ (xs : List Nat) (prev : link_ptr) (first : Option Nat),
      tailq_links V f prev xs first last = true → xs.Nodup → elm ∉ xs →
      (∀ j ∈ xs, link_of V' j f = (link_of V j f).map
        (fun e => if last = .next j f then { e with tqe_next := some elm } else e)) →
      tailq_links V' f prev (xs ++ [elm]) (if xs = [] then some elm else first)
        (.next elm f) = true := by
  intro xs
  induction xs with
  | nil =>
    intro prev first h _ _ _
    rw [tailq_links_nil] at h
    simp only [List.nil_append, if_true]
    rw [tailq_links_cons]
    refine ⟨rfl, _, hE, h.2, ?_⟩
    rw [tailq_links_nil]
    exact ⟨rfl, rfl⟩
  | cons x xs ih =>
    intro prev first h hnd hn hO
    rw [tailq_links_cons] at h
    obtain ⟨h1, e, h2, h3, h4⟩ := h
    have hx := hO x (List.mem_cons_self _ _)
    rw [h2] at hx
    have hnd' := List.nodup_cons.mp hnd
    have hih := ih (.next x f) e.tqe_next h4 hnd'.2
      (fun hm => hn (List.mem_cons_of_mem _ hm))
      (fun j hj => hO j (List.mem_cons_of_mem _ hj))
    simp only [List.cons_append, List.cons_ne_nil, if_false]
    rw [tailq_links_cons]
    refine ⟨h1, _, hx, ?_, ?_⟩
    · by_cases hl : last = .next x f <;> simp [hl, h3]
    · have hlast := tailq_links_last V f xs _ _ _ h4
      by_cases hxs : xs = []
      · subst hxs
        have : last = .next x f := by simpa [last_ptr] using hlast
        simpa [this] using hih
      · obtain ⟨z, hz, hzl⟩ := last_ptr_of_mem (.next x f) xs f hxs
        have hne : last ≠ .next x f := by
          rw [hlast, hzl]
          intro heq
          injection heq with h5 _
          exact hnd'.1 (h5 ▸ hz)
        simpa [hne, hxs] using hih

theorem head_set_head (ep : cci__ep_t) (l l' : conn_list) (h : tailq_head) :
    (ep.set_head l h).head l' = if l' = l then h else ep.head l' := by
  cases l <;> cases l' <;> rfl

theorem vconns_set_head (ep : cci__ep_t) (l : conn_list) (h : tailq_head) :
    (ep.set_head l h).vconns = ep.vconns := by
  cases l <;> rfl

theorem head_modify_conn (ep : cci__ep_t) (z : Nat) (g : verbs_conn_t → verbs_conn_t)
    (l : conn_list) : (ep.modify_conn z g).head l = ep.head l := by
  cases l <;> rfl

theorem vconns_modify_conn (ep : cci__ep_t) (z : Nat) (g : verbs_conn_t → verbs_conn_t) :
    (ep.modify_conn z g).vconns = list_modify ep.vconns z g := rfl

theorem link_of_list_modify (V : List verbs_conn_t) (i j : Nat)
    (g : verbs_conn_t → verbs_conn_t) (f : conn_link) :
    link_of (list_modify V i g) j f =
      if i = j then (V[j]?).map (fun c => (g c).link f) else link_of V j f := by
  unfold link_of
  rw [getElem?_list_modify]
  by_cases h : i = j
  · simp only [h, if_true]
    cases V[j]? <;> rfl
  · simp only [h, if_false]

theorem link_of_some_of_lt (V : List verbs_conn_t) (j : Nat) (f : conn_link)
    (h : j < V.length) : ∃ e, link_of V j f = some e := by
  unfold link_of
  rw [List.getElem?_eq_getElem h]
  exact ⟨_, rfl⟩

theorem lt_of_link_of (V : List verbs_conn_t) (j : Nat) (f : conn_link) (e : tailq_entry)
    (h : link_of V j f = some e) : j < V.length := by
  unfold link_of at h
  cases hv : V[j]? with
  | none => simp [hv] at h
  | some c => exact (List.getElem?_eq_some_iff.mp hv).1

/-- What `store_ptr` does to the link words and to the heads. -/
theorem store_ptr_spec (ep : cci__ep_t) (p : link_ptr) (v : Option Nat)
    (hp : ptr_ok ep.vconns p = true) :
    ∃ ep', store_ptr ep p v = some ep' ∧
      (∀ j f, link_of ep'.vconns j f = (link_of ep.vconns j f).map
        (fun e => if p = .next j f then { e with tqe_next := v } else e)) ∧
      (∀ l, ep'.head l = if p = .head l then { ep.head l with tqh_first := v }
        else ep.head l) := by
  cases p with
  | null => simp [ptr_ok] at hp
  | head l0 =>
    refine ⟨_, rfl, ?_, ?_⟩
    · intro j f
      rw [vconns_set_head]
      cases link_of ep.vconns j f <;> simp
    · intro l
      rw [head_set_head]
      by_cases h : l = l0
      · subst h; simp
      · have : l0 ≠ l := fun h' => h h'.symm
        simp [h, this]
  | next z f0 =>
    have hz : z < ep.vconns.length := by simpa [ptr_ok] using hp
    obtain ⟨c, hc⟩ : ∃ c, ep.vconns[z]? = some c := ⟨_, List.getElem?_eq_getElem hz⟩
    refine ⟨ep.modify_conn z (fun c => c.set_link f0 { c.link f0 with tqe_next := v }),
      by simp [store_ptr, hc], ?_, ?_⟩
    · intro j f
      rw [vconns_modify_conn, link_of_list_modify]
      by_cases hzj : z = j
      · subst hzj
        simp only [if_true, hc, Option.map_some', link_of, link_set_link]
        by_cases hf : f = f0
        · subst hf; simp
        · have : f0 ≠ f := fun h' => hf h'.symm
          simp [hf, this]
      · simp only [hzj, if_false]
        cases link_of ep.vconns j f <;> simp [hzj]
    · intro l
      rw [head_modify_conn]
      simp

theorem ptr_ok_of_length (V V' : List verbs_conn_t) (p : link_ptr) (h : V'.length = V.length) :
    ptr_ok V' p = ptr_ok V p := by
  cases p <;> simp [ptr_ok, h]

/-- What `TAILQ_INSERT_TAIL` does to the link words and to the heads, when the
element is in the store and the `tqh_last` of the head can be stored through. -/
theorem TAILQ_INSERT_TAIL_words (ep : cci__ep_t) (l : conn_list) (elm : Nat) (f : conn_link)
    (helm : elm < ep.vconns.length) (hp : ptr_ok ep.vconns (ep.head l).tqh_last = true) :
    ∃ ep', TAILQ_INSERT_TAIL ep l elm f = some ep' ∧
      (∀ j f', link_of ep'.vconns j f' = (link_of ep.vconns j f').map
        (fun e0 =>
          if (ep.head l).tqh_last = .next j f' then
            { (if j = elm ∧ f' = f then
                { tqe_next := none, tqe_prev := (ep.head l).tqh_last } else e0)
              with tqe_next := some elm }
          else if j = elm ∧ f' = f then
            { tqe_next := none, tqe_prev := (ep.head l).tqh_last } else e0)) ∧
      (∀ l', ep'.head l' =
        if l' = l then
          { tqh_first := if (ep.head l).tqh_last = .head l then some elm
              else (ep.head l).tqh_first,
            tqh_last := .next elm f }
        else if (ep.head l).tqh_last = .head l' then
          { ep.head l' with tqh_first := some elm }
        else ep.head l') := by
  obtain ⟨c, hc⟩ : ∃ c, ep.vconns[elm]? = some c := ⟨_, List.getElem?_eq_getElem helm⟩
  have hp1 : ptr_ok (ep.modify_conn elm (fun c =>
      c.set_link f { tqe_next := none, tqe_prev := (ep.head l).tqh_last })).vconns
      (ep.head l).tqh_last = true := by
    rw [ptr_ok_of_length ep.vconns _ _ (by rw [vconns_modify_conn, length_list_modify])]
    exact hp
  obtain ⟨ep2, h2, hl2, hh2⟩ := store_ptr_spec _ _ (some elm) hp1
  refine ⟨ep2.set_head l { ep2.head l with tqh_last := .next elm f }, ?_, ?_, ?_⟩
  · simp only [TAILQ_INSERT_TAIL, hc, h2]
  · intro j f'
    rw [vconns_set_head, hl2, vconns_modify_conn, link_of_list_modify]
    by_cases hj : elm = j
    · subst hj
      simp only [if_true, hc, Option.map_some', link_of, link_set_link, Option.map_map,
        true_and]
    · have hj' : j ≠ elm := fun h => hj h.symm
      simp only [hj, hj', if_false, false_and]
  · intro l'
    rw [head_set_head, hh2, head_modify_conn]
    by_cases hl : l' = l
    · subst hl
      simp only [if_true]
      by_cases hq : (ep.head l').tqh_last = .head l' <;> simp [hq]
    · simp only [hl, if_false]
      rw [hh2, head_modify_conn]

/-- What `TAILQ_REMOVE` does to the link words and to the heads, when the
words it reads and writes are in the store. -/
theorem TAILQ_REMOVE_words (ep : cci__ep_t) (l : conn_list) (elm : Nat) (f : conn_link)
    (e : tailq_entry) (hE : link_of ep.vconns elm f = some e)
    (hn : ∀ n, e.tqe_next = some n → n < ep.vconns.length)
    (hp : ptr_ok ep.vconns e.tqe_prev = true) :
    ∃ ep', TAILQ_REMOVE ep l elm f = some ep' ∧
      (∀ j f', link_of ep'.vconns j f' = (link_of ep.vconns j f').map
        (fun e0 =>
          if e.tqe_prev = .next j f' then
            { (if e.tqe_next = some j ∧ f' = f then { e0 with tqe_prev := e.tqe_prev } else e0)
              with tqe_next := e.tqe_next }
          else if e.tqe_next = some j ∧ f' = f then { e0 with tqe_prev := e.tqe_prev }
          else e0)) ∧
      (∀ l', ep'.head l' =
        if e.tqe_prev = .head l' then
          { (if l' = l ∧ e.tqe_next = none then { ep.head l' with tqh_last := e.tqe_prev }
              else ep.head l')
            with tqh_first := e.tqe_next }
        else if l' = l ∧ e.tqe_next = none then { ep.head l' with tqh_last := e.tqe_prev }
        else ep.head l') := by
  have helm := lt_of_link_of _ _ _ _ hE
  obtain ⟨c, hc⟩ : ∃ c, ep.vconns[elm]? = some c := ⟨_, List.getElem?_eq_getElem helm⟩
  have hce : c.link f = e := by
    simpa [link_of, hc] using hE
  cases hnx : e.tqe_next with
  | none =>
    have hp1 : ptr_ok (ep.set_head l { ep.head l with tqh_last := e.tqe_prev }).vconns
        e.tqe_prev = true := by
      rw [vconns_set_head]; exact hp
    obtain ⟨ep2, h2, hl2, hh2⟩ := store_ptr_spec _ _ none hp1
    refine ⟨ep2, ?_, ?_, ?_⟩
    · simp only [TAILQ_REMOVE, hc, hce, hnx, h2]
    · intro j f'
      rw [hl2, vconns_set_head]
      simp
    · intro l'
      rw [hh2, head_set_head]
      by_cases hl : l' = l <;> simp [hl]
  | some n =>
    have hnlt := hn n hnx
    obtain ⟨d, hd⟩ : ∃ d, ep.vconns[n]? = some d := ⟨_, List.getElem?_eq_getElem hnlt⟩
    have hp1 : ptr_ok (ep.modify_conn n (fun d =>
        d.set_link f { d.link f with tqe_prev := e.tqe_prev })).vconns e.tqe_prev = true := by
      rw [ptr_ok_of_length ep.vconns _ _ (by rw [vconns_modify_conn, length_list_modify])]
      exact hp
    obtain ⟨ep2, h2, hl2, hh2⟩ := store_ptr_spec _ _ (some n) hp1
    refine ⟨ep2, ?_, ?_, ?_⟩
    · simp only [TAILQ_REMOVE, hc, hce, hnx, hd, h2]
    · intro j f'
      rw [hl2, vconns_modify_conn, link_of_list_modify]
      by_cases hj : n = j
      · subst hj
        simp only [if_true, hd, Option.map_some', link_of, link_set_link, true_and]
        by_cases hf : f' = f
        · subst hf; simp
        · simp [hf]
      · have hj' : ¬ (some n = some j) := by simpa using hj
        simp only [hj, hj', if_false, false_and]
    · intro l'
      rw [hh2, head_modify_conn]
      simp

theorem last_ptr_cases (prev : link_ptr) (xs : List Nat) (f : conn_link) :
    (xs = [] ∧ last_ptr prev xs f = prev) ∨ ∃ z, z ∈ xs ∧ last_ptr prev xs f = .next z f := by
  by_cases h : xs = []
  · left; subst h; exact ⟨rfl, rfl⟩
  · right; exact last_ptr_of_mem prev xs f h

/-- The link words of an element in the middle of a chain. -/
theorem tailq_links_at (V : List verbs_conn_t) (f : conn_link) (elm : Nat) (bs : List Nat)
    (last : link_ptr) :
    ∀ (as : List Nat) (prev : link_ptr) (first : Option Nat),
      tailq_links V f prev (as ++ elm :: bs) first last = true →
      ∃ e, link_of V elm f = some e ∧ e.tqe_prev = last_ptr prev as f ∧
        e.tqe_next = bs.head? := by
  intro as
  induction as with
  | nil =>
    intro prev first h
    rw [List.nil_append, tailq_links_cons] at h
    obtain ⟨_, e, h2, h3, h4⟩ := h
    refine ⟨e, h2, by simpa [last_ptr] using h3, ?_⟩
    cases bs with
    | nil => rw [tailq_links_nil] at h4; simpa using h4.1
    | cons b bs' => rw [tailq_links_cons] at h4; simpa using h4.1
  | cons x as ih =>
    intro prev first h
    rw [List.cons_append, tailq_links_cons] at h
    obtain ⟨_, ex, _, _, h4⟩ := h
    obtain ⟨e, h5, h6, h7⟩ := ih _ _ h4
    exact ⟨e, h5, by rw [last_ptr_cons]; exact h6, h7⟩

/-- Unlinking one element of a chain: the words of the other elements change
as `TAILQ_REMOVE` changes them, and the chain then holds the other elements. -/
theorem tailq_links_remove (V V' : List verbs_conn_t) (f : conn_link) (elm : Nat)
    (e : tailq_entry) (bs : List Nat) (last : link_ptr)
    (hE : link_of V elm f = some e)
    (hO : ∀ j, j ≠ elm → link_of V' j f = (link_of V j f).map
      (fun e0 =>
        if e.tqe_prev = .next j f then
          { (if e.tqe_next = some j then { e0 with tqe_prev := e.tqe_prev } else e0)
            with tqe_next := e.tqe_next }
        else if e.tqe_next = some j then { e0 with tqe_prev := e.tqe_prev }
        else e0)) :
    ∀ (as : List Nat) (prev : link_ptr) (first : Option Nat),
      tailq_links V f prev (as ++ elm :: bs) first last = true →
      (as ++ elm :: bs).Nodup →
      (∀ j ∈ as ++ elm :: bs, prev ≠ .next j f) →
      tailq_links V' f prev (as ++ bs) (if e.tqe_prev = prev then e.tqe_next else first)
        (if e.tqe_next = none then e.tqe_prev else last) = true := by
  intro as
  induction as with
  | nil =>
    intro prev first h hnd hprev
    rw [List.nil_append] at h hnd hprev ⊢
    rw [tailq_links_cons] at h
    obtain ⟨_, e', h2, h3, h4⟩ := h
    rw [hE] at h2
    injection h2 with h2
    subst h2
    have hnd' := List.nodup_cons.mp hnd
    simp only [h3, if_true]
    cases bs with
    | nil =>
      rw [tailq_links_nil] at h4
      rw [tailq_links_nil]
      simp [h4.1]
    | cons b bs' =>
      rw [tailq_links_cons] at h4
      obtain ⟨h5, eb, h6, h7, h8⟩ := h4
      have hbe : b ≠ elm := fun hb => hnd'.1 (hb ▸ List.mem_cons_self _ _)
      have hpb : prev ≠ .next b f :=
        hprev b (List.mem_cons_of_mem _ (List.mem_cons_self _ _))
      have hb := hO b hbe
      rw [h6, h3, h5] at hb
      simp only [hpb, if_false, if_true, Option.map_some'] at hb
      have hnd'' := List.nodup_cons.mp hnd'.2
      rw [h5, tailq_links_cons]
      refine ⟨rfl, _, hb, rfl, ?_⟩
      simp only [if_false]
      rw [tailq_links_congr V V' f bs']
      · exact h8
      · intro j hj
        have hje : j ≠ elm := fun hb => hnd'.1 (hb ▸ List.mem_cons_of_mem _ hj)
        have hpj : prev ≠ .next j f :=
          hprev j (List.mem_cons_of_mem _ (List.mem_cons_of_mem _ hj))
        have hbj : ¬ (some b = some j) := by
          intro hbj
          injection hbj with hbj
          exact hnd''.1 (hbj ▸ hj)
        rw [hO j hje, h3, h5]
        simp only [hpj, hbj, if_false]
        cases link_of V j f <;> rfl
  | cons x as ih =>
    intro prev first h hnd hprev
    have hat := tailq_links_at V f elm bs last (x :: as) prev first h
    obtain ⟨e', ha1, ha2, ha3⟩ := hat
    rw [hE] at ha1
    injection ha1 with ha1
    subst ha1
    rw [List.cons_append] at h hnd hprev ⊢
    rw [tailq_links_cons] at h
    obtain ⟨h1, ex, h2, h3, h4⟩ := h
    have hnd' := List.nodup_cons.mp hnd
    have hxe : x ≠ elm := fun hb => hnd'.1 (hb ▸ by simp)
    have hih := ih (.next x f) ex.tqe_next h4 hnd'.2 (by
      intro j hj heq
      injection heq with heq _
      exact hnd'.1 (heq ▸ hj))
    have hne : e.tqe_prev ≠ prev := by
      rw [ha2, last_ptr_cons]
      rcases last_ptr_cases (.next x f) as f with ⟨_, hl⟩ | ⟨z, hz, hl⟩
      · rw [hl]; exact fun hh => hprev x (List.mem_cons_self _ _) hh.symm
      · rw [hl]
        exact fun hh => hprev z (List.mem_cons_of_mem _ (List.mem_append_left _ hz)) hh.symm
    have hnx : ¬ (e.tqe_next = some x) := by
      rw [ha3]
      intro hh
      have : x ∈ bs := List.mem_of_mem_head? hh
      exact hnd'.1 (List.mem_append_right _ (List.mem_cons_of_mem _ this))
    have hx := hO x hxe
    rw [h2] at hx
    simp only [hnx, if_false, Option.map_some'] at hx
    simp only [hne, if_false]
    rw [tailq_links_cons]
    refine ⟨h1, _, hx, ?_, ?_⟩
    · by_cases hq : e.tqe_prev = .next x f <;> simp [hq, h3]
    · by_cases hq : e.tqe_prev = .next x f
      · simpa [hq] using hih
      · simpa [hq] using hih

theorem tailq_is_iff (ep : cci__ep_t) (l : conn_list) (f : conn_link) (xs : List Nat) :
    tailq_is ep l f xs = true ↔
      tailq_links ep.vconns f (.head l) xs (ep.head l).tqh_first (ep.head l).tqh_last = true ∧
        xs.Nodup := by
  simp [tailq_is]

theorem tailq_is_valid (ep : cci__ep_t) (l : conn_list) (f : conn_link) (xs : List Nat)
    (h : tailq_is ep l f xs = true) : ∀ x ∈ xs, x < ep.vconns.length :=
  tailq_links_valid _ _ _ _ _ _ ((tailq_is_iff ep l f xs).mp h).1

theorem tailq_is_last (ep : cci__ep_t) (l : conn_list) (f : conn_link) (xs : List Nat)
    (h : tailq_is ep l f xs = true) :
    (ep.head l).tqh_last = last_ptr (.head l) xs f ∧
      ptr_ok ep.vconns (ep.head l).tqh_last = true := by
  have hl := tailq_links_last _ _ _ _ _ _ ((tailq_is_iff ep l f xs).mp h).1
  refine ⟨hl, ?_⟩
  rw [hl]
  rcases last_ptr_cases (.head l) xs f with ⟨_, h1⟩ | ⟨z, hz, h1⟩
  · rw [h1]; rfl
  · rw [h1]
    simpa [ptr_ok] using tailq_is_valid ep l f xs h z hz

/-- The words of a member of a well-formed list. -/
theorem tailq_is_member (ep : cci__ep_t) (l : conn_list) (f : conn_link)
    (as bs : List Nat) (elm : Nat) (h : tailq_is ep l f (as ++ elm :: bs) = true) :
    ∃ e, link_of ep.vconns elm f = some e ∧ e.tqe_prev = last_ptr (.head l) as f ∧
      e.tqe_next = bs.head? ∧ ptr_ok ep.vconns e.tqe_prev = true ∧
      ∀ n, e.tqe_next = some n → n < ep.vconns.length := by
  have hv := tailq_is_valid ep l f _ h
  obtain ⟨e, h1, h2, h3⟩ := tailq_links_at _ _ _ _ _ _ _ _ ((tailq_is_iff ep l f _).mp h).1
  refine ⟨e, h1, h2, h3, ?_, ?_⟩
  · rw [h2]
    rcases last_ptr_cases (.head l) as f with ⟨_, h4⟩ | ⟨z, hz, h4⟩
    · rw [h4]; rfl
    · rw [h4]
      simpa [ptr_ok] using hv z (List.mem_append_left _ hz)
  · intro n hn
    rw [h3] at hn
    exact hv n (List.mem_append_right _ (List.mem_cons_of_mem _ (List.mem_of_mem_head? hn)))

/-- The macro `TAILQ_INSERT_TAIL` on a well-formed list, for an element of the
store that is not on it: it does not fault, the list then holds the old
elements followed by the new one, and nothing but link words has changed. -/
theorem TAILQ_INSERT_TAIL_spec (ep : cci__ep_t) (l : conn_list) (elm : Nat) (f : conn_link)
    (xs : List Nat) (h : tailq_is ep l f xs = true) (helm : elm < ep.vconns.length)
    (hn : elm ∉ xs) :
    ∃ ep', TAILQ_INSERT_TAIL ep l elm f = some ep' ∧ tailq_is ep' l f (xs ++ [elm]) = true ∧
      same_but_links ep ep' := by
  obtain ⟨hl, hnd⟩ := (tailq_is_iff ep l f xs).mp h
  obtain ⟨hlast, hok⟩ := tailq_is_last ep l f xs h
  obtain ⟨ep', hins, hlinks, hheads⟩ := TAILQ_INSERT_TAIL_words ep l elm f helm hok
  refine ⟨ep', hins, ?_, TAILQ_INSERT_TAIL_same ep ep' l elm f hins⟩
  have hnot : ∀ j ∈ elm :: xs, (ep.head l).tqh_last = .next j f → j ∈ xs := by
    intro j _ hj
    rcases last_ptr_cases (.head l) xs f with ⟨_, h1⟩ | ⟨z, hz, h1⟩
    · rw [hlast, h1] at hj; cases hj
    · rw [hlast, h1] at hj
      injection hj with hj _
      exact hj ▸ hz
  have hlastelm : (ep.head l).tqh_last ≠ .next elm f :=
    fun hh => hn (hnot elm (List.mem_cons_self _ _) hh)
  obtain ⟨e0, he0⟩ := link_of_some_of_lt ep.vconns elm f helm
  have hE : link_of ep'.vconns elm f
      = some { tqe_next := none, tqe_prev := (ep.head l).tqh_last } := by
    rw [hlinks, he0]
    simp [hlastelm]
  have hO : ∀ j ∈ xs, link_of ep'.vconns j f = (link_of ep.vconns j f).map
      (fun e => if (ep.head l).tqh_last = .next j f then { e with tqe_next := some elm }
        else e) := by
    intro j hj
    have hje : j ≠ elm := fun hh => hn (hh ▸ hj)
    rw [hlinks]
    simp only [hje, false_and, if_false]
  have hs := tailq_links_snoc ep.vconns ep'.vconns f elm _ hE xs (.head l) _ hl hnd hn hO
  rw [tailq_is_iff]
  refine ⟨?_, ?_⟩
  · rw [hheads l]
    simp only [if_true]
    have hfirst : (if (ep.head l).tqh_last = .head l then some elm else (ep.head l).tqh_first)
        = (if xs = [] then some elm else (ep.head l).tqh_first) := by
      rcases last_ptr_cases (.head l) xs f with ⟨h0, h1⟩ | ⟨z, hz, h1⟩
      · rw [hlast, h1]; simp [h0]
      · have hxs : xs ≠ [] := List.ne_nil_of_mem hz
        rw [hlast, h1]; simp [hxs]
    rw [hfirst]
    exact hs
  · rw [List.nodup_append]
    refine ⟨hnd, List.nodup_singleton _, ?_⟩
    intro a ha hb
    simp only [List.mem_singleton] at hb
    exact hn (hb ▸ ha)

/-- The macro `TAILQ_REMOVE` on a well-formed list, for one of its elements:
it does not fault, the list then holds the other elements in their order, and
nothing but link words has changed. -/
theorem TAILQ_REMOVE_spec (ep : cci__ep_t) (l : conn_list) (elm : Nat) (f : conn_link)
    (as bs : List Nat) (h : tailq_is ep l f (as ++ elm :: bs) = true) :
    ∃ ep', TAILQ_REMOVE ep l elm f = some ep' ∧ tailq_is ep' l f (as ++ bs) = true ∧
      same_but_links ep ep' := by
  obtain ⟨hl, hnd⟩ := (tailq_is_iff ep l f _).mp h
  obtain ⟨e, hE, hprev, hnext, hok, hnv⟩ := tailq_is_member ep l f as bs elm h
  obtain ⟨hlast, _⟩ := tailq_is_last ep l f _ h
  obtain ⟨ep', hrem, hlinks, hheads⟩ := TAILQ_REMOVE_words ep l elm f e hE hnv hok
  refine ⟨ep', hrem, ?_, TAILQ_REMOVE_same ep ep' l elm f hrem⟩
  have hO : ∀ j, j ≠ elm → link_of ep'.vconns j f = (link_of ep.vconns j f).map
      (fun e0 =>
        if e.tqe_prev = .next j f then
          { (if e.tqe_next = some j then { e0 with tqe_prev := e.tqe_prev } else e0)
            with tqe_next := e.tqe_next }
        else if e.tqe_next = some j then { e0 with tqe_prev := e.tqe_prev }
        else e0) := by
    intro j _
    rw [hlinks]
    simp only [and_true]
  have hr := tailq_links_remove ep.vconns ep'.vconns f elm e bs _ hE hO as (.head l) _ hl hnd
    (by intro j _ hh; cases hh)
  rw [tailq_is_iff]
  refine ⟨?_, ?_⟩
  · rw [hheads l]
    simp only [true_and]
    by_cases hp : e.tqe_prev = .head l
    · by_cases hq : e.tqe_next = none
      · simpa [hp, hq] using hr
      · simpa [hp, hq] using hr
    · by_cases hq : e.tqe_next = none
      · simpa [hp, hq] using hr
      · simpa [hp, hq] using hr
  · have := List.nodup_append.mp hnd
    rw [List.nodup_append]
    refine ⟨this.1, (List.nodup_cons.mp this.2.1).2, ?_⟩
    intro a ha hb
    exact this.2.2 ha (List.mem_cons_of_mem _ hb)

theorem tailq_is_congr (ep ep' : cci__ep_t) (l : conn_list) (f : conn_link) (xs : List Nat)
    (hh : ep'.head l = ep.head l)
    (hl : ∀ j ∈ xs, link_of ep'.vconns j f = link_of ep.vconns j f) :
    tailq_is ep' l f xs = tailq_is ep l f xs := by
  unfold tailq_is
  rw [hh, tailq_links_congr ep.vconns ep'.vconns f xs _ _ _ hl]

theorem link_of_modify_same (V : List verbs_conn_t) (i j : Nat)
    (g : verbs_conn_t → verbs_conn_t) (f : conn_link)
    (hg : ∀ c, V[i]? = some c → (g c).link f = c.link f) :
    link_of (list_modify V i g) j f = link_of V j f := by
  rw [link_of_list_modify]
  by_cases h : i = j
  · subst h
    simp only [if_true, link_of]
    cases hc : V[i]? with
    | none => rfl
    | some c => simp [hg c hc]
  · simp only [h, if_false]

theorem tailq_is_modify_conn (ep : cci__ep_t) (z : Nat) (g : verbs_conn_t → verbs_conn_t)
    (l : conn_list) (f : conn_link) (xs : List Nat)
    (hg : ∀ c, ep.vconns[z]? = some c → (g c).link f = c.link f) :
    tailq_is (ep.modify_conn z g) l f xs = tailq_is ep l f xs :=
  tailq_is_congr ep _ l f xs (head_modify_conn ep z g l)
    (fun j _ => link_of_modify_same ep.vconns z j g f hg)

/-- The loop of `verbs_find_conn` over a chain stops at the first element
whose queue pair number is the one looked for. -/
theorem verbs_find_conn_found (ep : cci__ep_t) (f : conn_link) (qp_num : Nat) (vc : Nat)
    (c : verbs_conn_t) (bs : List Nat) (last : link_ptr)
    (hc : ep.vconns[vc]? = some c) (hq : c.qp_num = qp_num) :
    ∀ (as : List Nat) (prev : link_ptr) (first : Option Nat) (fuel : Nat),
      tailq_links ep.vconns f prev (as ++ vc :: bs) first last = true →
      (∀ a ∈ as, ∀ d, ep.vconns[a]? = some d → d.qp_num ≠ qp_num) →
      as.length < fuel →
      verbs_find_conn ep f qp_num fuel first = some (some vc) := by
  intro as
  induction as with
  | nil =>
    intro prev first fuel h _ hf
    rw [List.nil_append, tailq_links_cons] at h
    obtain ⟨h1, _⟩ := h
    obtain ⟨k, rfl⟩ : ∃ k, fuel = k + 1 := ⟨fuel - 1, by simp at hf; omega⟩
    rw [h1]
    simp [verbs_find_conn, hc, hq]
  | cons x as ih =>
    intro prev first fuel h hno hf
    rw [List.cons_append, tailq_links_cons] at h
    obtain ⟨h1, e, h2, _, h4⟩ := h
    obtain ⟨k, rfl⟩ : ∃ k, fuel = k + 1 := ⟨fuel - 1, by simp at hf; omega⟩
    rw [h1]
    unfold link_of at h2
    cases hx : ep.vconns[x]? with
    | none => simp [hx] at h2
    | some d =>
      have hd := hno x (List.mem_cons_self _ _) d hx
      simp only [hx, Option.map_some', Option.some.injEq] at h2
      simp only [verbs_find_conn, hx, hd, if_false, h2]
      exact ih _ _ k h4 (fun a ha => hno a (List.mem_cons_of_mem _ ha))
        (by simp at hf; omega)

theorem nodup_length_le (xs : List Nat) (n : Nat) (hnd : xs.Nodup) (hv : ∀ x ∈ xs, x < n) :
    xs.length ≤ n := by
  have hsub : xs ⊆ List.range n := fun x hx => List.mem_range.mpr (hv x hx)
  have := (List.Nodup.subperm hnd hsub).length_le
  simpa using this

theorem tailq_is_length (ep : cci__ep_t) (l : conn_list) (f : conn_link) (xs : List Nat)
    (h : tailq_is ep l f xs = true) : xs.length ≤ ep.vconns.length :=
  nodup_length_le xs _ ((tailq_is_iff ep l f xs).mp h).2 (tailq_is_valid ep l f xs h)

/-! ## Accepting a connection and receiving the reply -/

theorem same_but_links_fields {a b : cci__ep_t} (h : same_but_links a b) :
    b.evts = a.evts ∧ b.rxs = a.rxs ∧ b.txs = a.txs ∧ b.sq = a.sq ∧ b.srq = a.srq ∧
      b.idle_txs = a.idle_txs ∧ b.little_endian = a.little_endian ∧
      b.vconns.length = a.vconns.length ∧
      ∀ j : Nat, (b.vconns[j]?).map conn_data = (a.vconns[j]?).map conn_data := by
  obtain ⟨h1, h2⟩ := h
  have e1 := congrArg cci__ep_t.evts h1
  have e2 := congrArg cci__ep_t.rxs h1
  have e3 := congrArg cci__ep_t.txs h1
  have e4 := congrArg cci__ep_t.sq h1
  have e5 := congrArg cci__ep_t.srq h1
  have e6 := congrArg cci__ep_t.idle_txs h1
  have e7 := congrArg cci__ep_t.little_endian h1
  refine ⟨e1, e2, e3, e4, e5, e6, e7, ?_, ?_⟩
  · simpa using congrArg List.length h2
  · intro j
    rw [← List.getElem?_map, ← List.getElem?_map, h2]

theorem verbs_accept_spec (ep : cci__ep_t) (rx vc : Nat) (r : verbs_rx_t)
    (c : verbs_conn_t) (mtu : ibv_mtu) (post : cci_status) (xs : List Nat)
    (hr : ep.rxs[rx]? = some r) (hvc : r.evt.conn = some vc) (hc : ep.vconns[vc]? = some c)
    (hl : tailq_is ep .conns .entry xs = true) (hn : vc ∉ xs) :
    ∃ ep', verbs_accept ep rx (.ok mtu) post = some (post, ep') ∧
      (ep'.vconns[vc]?).map conn_data
        = some (c.qp_num, c.state, verbs_mtu_val mtu, verbs_mtu_val mtu, c.conn_attribute,
            c.conn_req) ∧
      tailq_is ep' .conns .entry (if post.nonzero then xs else xs ++ [vc]) = true ∧
      ep'.sq = (if post.nonzero then ep.sq else ep.sq ++
        [{ conn := vc, wr_id := .null, length := 0, num_sge := 0, with_imm := true,
           imm_data := htonl ep.little_endian (VERBS_MSG_CONN_REPLY
             ||| (cci_event_type.code .CCI_EVENT_CONNECT_ACCEPTED <<< 4)) }]) ∧
      (VERBS_MSG_CONN_REPLY ||| (cci_event_type.code .CCI_EVENT_CONNECT_ACCEPTED <<< 4))
          &&& 0xF = VERBS_MSG_CONN_REPLY ∧
      ((VERBS_MSG_CONN_REPLY ||| (cci_event_type.code .CCI_EVENT_CONNECT_ACCEPTED <<< 4))
          >>> 4) &&& 0xF = cci_event_type.code .CCI_EVENT_CONNECT_ACCEPTED := by
  have hlt : vc < ep.vconns.length := (List.getElem?_eq_some_iff.mp hc).1
  let ep1 := ep.modify_conn vc (fun _ => { c with mss := verbs_mtu_val mtu })
  let ep2 := ep1.modify_conn vc (fun d => { d with max_send_size := d.mss })
  have hv1 : ep1.vconns[vc]? = some { c with mss := verbs_mtu_val mtu } := by
    show (list_modify ep.vconns vc _)[vc]? = _
    rw [getElem?_list_modify]; simp [hc]
  have hv2 : ep2.vconns[vc]?
      = some { c with mss := verbs_mtu_val mtu, max_send_size := verbs_mtu_val mtu } := by
    show (list_modify ep1.vconns vc _)[vc]? = _
    rw [getElem?_list_modify]; simp [hv1]
  have hl1 : tailq_is ep1 .conns .entry xs = true := by
    rw [tailq_is_modify_conn]
    · exact hl
    · intro d hd
      rw [hc] at hd
      injection hd with hd
      subst hd
      rfl
  have hl2 : tailq_is ep2 .conns .entry xs = true := by
    rw [tailq_is_modify_conn]
    · exact hl1
    · intro d _; rfl
  have hlt2 : vc < ep2.vconns.length := (List.getElem?_eq_some_iff.mp hv2).1
  obtain ⟨ep3, hins, his, hsame⟩ := TAILQ_INSERT_TAIL_spec ep2 .conns vc .entry xs hl2 hlt2 hn
  obtain ⟨_, _, _, hsq, _, _, hle, _, hdata⟩ := same_but_links_fields hsame
  have hd3 : (ep3.vconns[vc]?).map conn_data
      = some (c.qp_num, c.state, verbs_mtu_val mtu, verbs_mtu_val mtu, c.conn_attribute,
          c.conn_req) := by
    rw [hdata vc, hv2]; rfl
  have hacc : verbs_accept ep rx (.ok mtu) post =
      (if post.nonzero then
        match TAILQ_REMOVE ep3 .conns vc .entry with
        | none => none
        | some ep5 => some (post, ep5)
      else some (post, { ep3 with sq := ep3.sq ++
        [{ conn := vc, wr_id := .null, length := 0, num_sge := 0, with_imm := true,
           imm_data := htonl ep.little_endian (VERBS_MSG_CONN_REPLY
             ||| (cci_event_type.code .CCI_EVENT_CONNECT_ACCEPTED <<< 4)) }] })) := by
    have hz : cci_status.nonzero .CCI_SUCCESS = false := rfl
    unfold verbs_accept
    simp only [hr, hvc, hc, verbs_vconn_set_mss, hz]
    show (match TAILQ_INSERT_TAIL ep2 .conns vc .entry with
      | none => none
      | some ep3 => _) = _
    rw [hins]
    simp only [verbs_post_send]
    have hne : ¬ (VERBS_MSG_CONN_REPLY
        ||| cci_event_type.code .CCI_EVENT_CONNECT_ACCEPTED <<< 4 = 0) := by decide
    have hle2 : ep2.little_endian = ep.little_endian := rfl
    by_cases hp : post.nonzero = true
    · simp [hp]
    · simp [hp, hle, hne, hle2]
  have hsq2 : ep2.sq = ep.sq := rfl
  by_cases hp : post.nonzero = true
  · have his' : tailq_is ep3 .conns .entry (xs ++ vc :: []) = true := his
    obtain ⟨ep5, hrem, hr5, hsame5⟩ := TAILQ_REMOVE_spec ep3 .conns vc .entry xs [] his'
    obtain ⟨_, _, _, hsq5, _, _, _, _, hdata5⟩ := same_but_links_fields hsame5
    refine ⟨ep5, ?_, ?_, ?_, ?_, by decide, by decide⟩
    · rw [hacc, hrem]; simp [hp]
    · rw [hdata5 vc, hd3]
    · simpa [hp] using hr5
    · simp only [hp, if_true]
      rw [hsq5, hsq, hsq2]
  · refine ⟨{ ep3 with sq := ep3.sq ++
        [{ conn := vc, wr_id := .null, length := 0, num_sge := 0, with_imm := true,
           imm_data := htonl ep.little_endian (VERBS_MSG_CONN_REPLY
             ||| (cci_event_type.code .CCI_EVENT_CONNECT_ACCEPTED <<< 4)) }] },
      ?_, ?_, ?_, ?_, by decide, by decide⟩
    · rw [hacc]; simp [hp]
    · exact hd3
    · simpa [hp] using his
    · show ep3.sq ++ _ = _
      rw [hsq, hsq2]
      simp [hp]

theorem conn_reply_header_decode (sender_le receiver_le : Bool) (outcome : cci_event_type)
    (hout : outcome = .CCI_EVENT_CONNECT_ACCEPTED ∨ outcome = .CCI_EVENT_CONNECT_REJECTED) :
    cci_event_type.ofCode
      ((ntohl receiver_le (imm_on_receiver sender_le receiver_le
        (htonl sender_le (VERBS_MSG_CONN_REPLY ||| (cci_event_type.code outcome <<< 4))))
          >>> 4) &&& 0xF) = outcome := by
  rcases hout with h | h <;> subst h <;> cases sender_le <;> cases receiver_le <;> decide

theorem verbs_handle_conn_reply_spec (ep : cci__ep_t) (wc : ibv_wc) (sender_le : Bool)
    (outcome : cci_event_type) (as bs ys : List Nat) (vc i : Nat) (c : verbs_conn_t)
    (context : Nat) (rx : verbs_rx_t)
    (hact : tailq_is ep .active .temp (as ++ vc :: bs) = true)
    (hno : ∀ a ∈ as, ∀ d, ep.vconns[a]? = some d → d.qp_num ≠ wc.qp_num)
    (hc : ep.vconns[vc]? = some c) (hq : c.qp_num = wc.qp_num)
    (hcr : (match c.conn_req with
      | some r => r.context
      | none => 0) = context)
    (hconns : tailq_is ep .conns .entry ys = true) (hny : vc ∉ ys)
    (hid : wc.wr_id = .rx i) (hrx : ep.rxs[i]? = some rx)
    (hout : outcome = .CCI_EVENT_CONNECT_ACCEPTED ∨ outcome = .CCI_EVENT_CONNECT_REJECTED)
    (himm : wc.imm_data = imm_on_receiver sender_le ep.little_endian
      (htonl sender_le (VERBS_MSG_CONN_REPLY ||| (cci_event_type.code outcome <<< 4)))) :
    ∃ ep', verbs_handle_conn_reply ep wc = some (.CCI_SUCCESS, ep') ∧
      ep'.evts = ep.evts ++ [.rx i] ∧
      (ep'.rxs[i]?).map (fun r => r.evt.event)
        = some (if outcome = .CCI_EVENT_CONNECT_ACCEPTED then
            { rx.evt.event with type := .CCI_EVENT_CONNECT_ACCEPTED,
                                accepted_context := context,
                                accepted_connection := some vc }
          else
            { rx.evt.event with type := .CCI_EVENT_CONNECT_REJECTED,
                                rejected_context := context }) ∧
      (outcome = .CCI_EVENT_CONNECT_ACCEPTED →
        tailq_is ep' .conns .entry (ys ++ [vc]) = true) := by
  have hlt : vc < ep.vconns.length := (List.getElem?_eq_some_iff.mp hc).1
  have hilt : i < ep.rxs.length := (List.getElem?_eq_some_iff.mp hrx).1
  obtain ⟨hlA, _⟩ := (tailq_is_iff ep .active .temp _).mp hact
  have hlen := tailq_is_length ep .active .temp _ hact
  have hfind : verbs_find_conn ep .temp wc.qp_num (ep.vconns.length + 1) ep.active.tqh_first
      = some (some vc) :=
    verbs_find_conn_found ep .temp wc.qp_num vc c bs _ hc hq as _ _ _ hlA hno
      (by simp at hlen; omega)
  obtain ⟨e, hE, hprev, _, hok, hnv⟩ := tailq_is_member ep .active .temp as bs vc hact
  obtain ⟨ep1, hrem, hlinks, hheads⟩ := TAILQ_REMOVE_words ep .passive vc .temp e hE hnv hok
  have hsame1 := TAILQ_REMOVE_same ep ep1 .passive vc .temp hrem
  obtain ⟨hev1, hrx1, _, _, _, _, _, hlen1, _⟩ := same_but_links_fields hsame1
  have hpe : ∀ j, e.tqe_prev ≠ .next j .entry := by
    intro j hh
    rw [hprev] at hh
    rcases last_ptr_cases (.head .active) as .temp with ⟨_, h1⟩ | ⟨z, _, h1⟩ <;>
      rw [h1] at hh <;> cases hh
  have hpc : e.tqe_prev ≠ .head .conns := by
    intro hh
    rw [hprev] at hh
    rcases last_ptr_cases (.head .active) as .temp with ⟨_, h1⟩ | ⟨z, _, h1⟩ <;>
      rw [h1] at hh <;> cases hh
  have hconns1 : tailq_is ep1 .conns .entry ys = true := by
    rw [tailq_is_congr ep ep1 .conns .entry ys]
    · exact hconns
    · rw [hheads]; simp [hpc]
    · intro j _
      rw [hlinks]
      simp only [hpe j, if_false]
      cases link_of ep.vconns j .entry <;> simp
  have htype := conn_reply_header_decode sender_le ep.little_endian outcome hout
  rw [← himm] at htype
  have hrx1' : ep1.rxs[i]? = some rx := by rw [hrx1]; exact hrx
  rcases hout with ho | ho
  · subst ho
    let ep2 : cci__ep_t := { ep1 with rxs := ep1.rxs.set i { rx with evt := { rx.evt with event :=
      { rx.evt.event with type := .CCI_EVENT_CONNECT_ACCEPTED,
                          accepted_context := context,
                          accepted_connection := some vc } } } }
    have hconns2 : tailq_is ep2 .conns .entry ys = true := hconns1
    have hlt2 : vc < ep2.vconns.length := by
      show vc < ep1.vconns.length
      rw [hlen1]; exact hlt
    obtain ⟨ep3, hins, his, hsame3⟩ :=
      TAILQ_INSERT_TAIL_spec ep2 .conns vc .entry ys hconns2 hlt2 hny
    obtain ⟨hev3, hrx3, _, _, _, _, _, _, _⟩ := same_but_links_fields hsame3
    refine ⟨{ ep3 with evts := ep3.evts ++ [.rx i] }, ?_, ?_, ?_, ?_⟩
    · unfold verbs_handle_conn_reply
      simp only [hfind, hrem, hc, hid, hrx1', htype, hcr, if_true]
      show (match TAILQ_INSERT_TAIL ep2 .conns vc .entry with
        | none => none
        | some ep3 => _) = _
      rw [hins]
    · show ep3.evts ++ _ = _
      rw [hev3]
      show ep1.evts ++ _ = _
      rw [hev1]
    · show (ep3.rxs[i]?).map _ = _
      rw [hrx3]
      show ((ep1.rxs.set i _)[i]?).map _ = _
      rw [List.getElem?_set_self (by rw [hrx1]; exact hilt)]
      simp
    · intro _
      exact his
  · subst ho
    refine ⟨{ ep1 with rxs := ep1.rxs.set i { rx with evt := { rx.evt with event :=
        { rx.evt.event with type := .CCI_EVENT_CONNECT_REJECTED,
                            rejected_context := context } } },
                       evts := ep1.evts ++ [.rx i] }, ?_, ?_, ?_, ?_⟩
    · unfold verbs_handle_conn_reply
      simp only [hfind, hrem, hc, hid, hrx1', htype, hcr]
      simp
    · show ep1.evts ++ _ = _
      rw [hev1]
    · show ((ep1.rxs.set i _)[i]?).map _ = _
      rw [List.getElem?_set_self (by rw [hrx1]; exact hilt)]
      simp
    · intro h; cases h

/-! ## Connecting: payload length and negotiated size -/

theorem tailq_is_append_store (ep : cci__ep_t) (c : verbs_conn_t) (l : conn_list)
    (f : conn_link) (xs : List Nat) (h : tailq_is ep l f xs = true) :
    tailq_is { ep with vconns := ep.vconns ++ [c] } l f xs = true := by
  rw [tailq_is_congr ep _ l f xs]
  · exact h
  · cases l <;> rfl
  · intro j hj
    have hlt := tailq_is_valid ep l f xs h j hj
    show link_of (ep.vconns ++ [c]) j f = _
    unfold link_of
    rw [List.getElem?_append_left hlt]

theorem verbs_connect_spec (ep : cci__ep_t) (uri : List Char) (data : List Nat)
    (data_len attr context qp_num : Nat) (xs : List Nat)
    (huri : (verbs_parse_uri uri).1 = .CCI_SUCCESS)
    (hact : tailq_is ep .active .temp xs = true) :
    ∃ ep', verbs_connect ep uri data data_len attr context (connect_env_ok qp_num)
        = some (.CCI_SUCCESS, ep') ∧
      (ep'.vconns[ep.vconns.length]?).map conn_data
        = some (qp_num, .VERBS_CONN_ACTIVE, 0, 0, attr,
            verbs_connect_request data data_len attr context) ∧
      tailq_is ep' .active .temp (xs ++ [ep.vconns.length]) = true := by
  let c : verbs_conn_t :=
    { qp_num := qp_num, state := .VERBS_CONN_ACTIVE, mss := 0, max_send_size := 0,
      conn_attribute := attr,
      conn_req := verbs_connect_request data data_len attr context,
      entry := { tqe_next := none, tqe_prev := .null },
      temp := { tqe_next := none, tqe_prev := .null } }
  let ep1 : cci__ep_t := { ep with vconns := ep.vconns ++ [c] }
  have h1 : tailq_is ep1 .active .temp xs = true := tailq_is_append_store ep c _ _ xs hact
  have hlt : ep.vconns.length < ep1.vconns.length := by
    show _ < (ep.vconns ++ [c]).length
    simp
  have hn : ep.vconns.length ∉ xs := fun hm =>
    Nat.lt_irrefl _ (tailq_is_valid ep .active .temp xs hact _ hm)
  obtain ⟨ep2, hins, his, hsame⟩ :=
    TAILQ_INSERT_TAIL_spec ep1 .active ep.vconns.length .temp xs h1 hlt hn
  obtain ⟨_, _, _, _, _, _, _, _, hdata⟩ := same_but_links_fields hsame
  refine ⟨ep2, ?_, ?_, his⟩
  · have hz : cci_status.nonzero .CCI_SUCCESS = false := rfl
    unfold verbs_connect
    simp only [connect_env_ok, huri, hz, Bool.not_true, Bool.false_eq_true, if_false,
      Bool.true_eq_false,
      and_false]
    show (match TAILQ_INSERT_TAIL ep1 .active ep.vconns.length .temp with
      | none => none
      | some ep2 => _) = _
    rw [hins]
  · rw [hdata]
    show ((ep.vconns ++ [c])[ep.vconns.length]?).map conn_data = _
    simp [conn_data, c]


theorem strncmp_eq_iff : ∀ (p s : List Char), strncmp_eq p s = true ↔ ∃ t, s = p ++ t := by
  intro p
  induction p with
  | nil => intro s; simp [strncmp_eq]
  | cons a p ih =>
    intro s
    cases s with
    | nil => simp [strncmp_eq]
    | cons b s =>
      simp only [strncmp_eq, Bool.and_eq_true, beq_iff_eq, ih, List.cons_append,
        List.cons.injEq]
      constructor
      · rintro ⟨h1, t, h2⟩
        exact ⟨t, h1.symm, h2⟩
      · rintro ⟨t, h1, h2⟩
        exact ⟨h1.symm, t, h2⟩

theorem split_colon_some : ∀ (s a b : List Char),
    split_colon s = some (a, b) ↔ s = a ++ ':' :: b ∧ ':' ∉ a := by
  intro s
  induction s with
  | nil => intro a b; simp [split_colon]
  | cons c s ih =>
    intro a b
    by_cases hc : c = ':'
    · subst hc
      simp only [split_colon, if_true, Option.some.injEq, Prod.mk.injEq]
      constructor
      · rintro ⟨h1, h2⟩
        subst h1; subst h2
        simp
      · rintro ⟨h1, h2⟩
        cases a with
        | nil => simp at h1; exact ⟨rfl, h1⟩
        | cons x a =>
          simp only [List.cons_append, List.cons.injEq] at h1
          exact absurd (List.mem_cons.mpr (Or.inl h1.1)) h2
    · simp only [split_colon, hc, if_false]
      cases hs : split_colon s with
      | none =>
        constructor
        · intro h; cases h
        · rintro ⟨h1, hn⟩
          cases a with
          | nil =>
            simp only [List.nil_append, List.cons.injEq] at h1
            exact absurd h1.1 hc
          | cons x a =>
            simp only [List.cons_append, List.cons.injEq] at h1
            have h3 := (ih a b).mpr ⟨h1.2, fun hm => hn (List.mem_cons_of_mem _ hm)⟩
            rw [hs] at h3
            cases h3
      | some ab =>
        obtain ⟨a0, b0⟩ := ab
        have h0 := (ih a0 b0).mp hs
        simp only [Option.some.injEq, Prod.mk.injEq]
        constructor
        · rintro ⟨h1, h2⟩
          subst h1; subst h2
          refine ⟨by rw [List.cons_append, ← h0.1], ?_⟩
          intro hm
          rcases List.mem_cons.mp hm with h | h
          · exact hc h.symm
          · exact h0.2 h
        · rintro ⟨h1, h2⟩
          cases a with
          | nil =>
            simp only [List.nil_append, List.cons.injEq] at h1
            exact absurd h1.1 hc
          | cons x a =>
            simp only [List.cons_append, List.cons.injEq] at h1
            have h3 := (ih a b).mpr ⟨h1.2, fun hm => h2 (List.mem_cons_of_mem _ hm)⟩
            rw [hs] at h3
            injection h3 with h3
            injection h3 with h4 h5
            exact ⟨by rw [h1.1, h4], h5⟩

theorem split_colon_none : ∀ (s : List Char), split_colon s = none ↔ ':' ∉ s := by
  intro s
  induction s with
  | nil => simp [split_colon]
  | cons c s ih =>
    by_cases hc : c = ':'
    · subst hc; simp [split_colon]
    · have hc' : ¬ (':' = c) := fun h => hc h.symm
      cases hs : split_colon s with
      | none => simp [split_colon, hc, hs, hc', ih.mp hs]
      | some ab =>
        have : ¬ (':' ∉ s) := fun h => by rw [ih.mpr h] at hs; cases hs
        simp only [not_not] at this
        simp [split_colon, hc, hs, this]

/-! ## Creating an endpoint: the device -/

theorem find_default_dev_none : ∀ (devs : List cci__dev_t) (i : Nat),
    (∀ d ∈ devs, d.is_default = 0) → find_default_dev devs i = none := by
  intro devs
  induction devs with
  | nil => intro i _; rfl
  | cons d rest ih =>
    intro i h
    have hd := h d (List.mem_cons_self _ _)
    simp only [find_default_dev, hd, ne_eq, not_true_eq_false, if_false]
    exact ih (i + 1) (fun x hx => h x (List.mem_cons_of_mem _ hx))

theorem find_default_dev_some : ∀ (devs : List cci__dev_t) (i k : Nat) (d : cci__dev_t),
    devs[k]? = some d → d.is_default ≠ 0 →
    (∀ k0 d0, k0 < k → devs[k0]? = some d0 → d0.is_default = 0) →
    find_default_dev devs i = some (i + k) := by
  intro devs
  induction devs with
  | nil => intro i k d h; simp at h
  | cons x rest ih =>
    intro i k d hk hd hbefore
    cases k with
    | zero =>
      simp only [List.getElem?_cons_zero, Option.some.injEq] at hk
      subst hk
      simp [find_default_dev, hd]
    | succ k =>
      have hx : x.is_default = 0 := hbefore 0 x (Nat.succ_pos k) (by simp)
      simp only [List.getElem?_cons_succ] at hk
      simp only [find_default_dev, hx, ne_eq, not_true_eq_false, if_false]
      rw [ih (i + 1) k d hk hd (fun k0 d0 h0 h1 => hbefore (k0 + 1) d0 (by omega) (by
        simpa using h1))]
      congr 1
      omega

theorem cci_create_endpoint_device_lemma (g : cci_globals) (calloc : Bool)
    (plugin_ret : cci_status) (d : Nat) (dev : cci__dev_t) (hd : g.devs[d]? = some dev)
    (hsel : (dev.is_default ≠ 0 ∧ ∀ k0 d0, k0 < d → g.devs[k0]? = some d0 → d0.is_default = 0) ∨
      (d = 0 ∧ ∀ d0 ∈ g.devs, d0.is_default = 0)) :
    cci_create_endpoint g none calloc plugin_ret
        = cci_create_endpoint g (some d) calloc plugin_ret ∧
      (dev.is_up = 0 → cci_create_endpoint g none calloc plugin_ret
        = some { ret := .CCI_ENODEV, globals := g, endpoint := none, dev := none }) ∧
      (dev.is_up ≠ 0 → calloc = true →
        cci_create_endpoint g none calloc plugin_ret
          = some { ret := plugin_ret,
                   globals := { devs := g.devs.set d { dev with eps := dev.eps ++ [g.n_eps] },
                                n_eps := g.n_eps + 1 },
                   endpoint := some g.n_eps, dev := some d }) ∧
      cci_create_endpoint { g with devs := [] } none calloc plugin_ret
        = some { ret := .CCI_ENODEV, globals := { g with devs := [] }, endpoint := none,
                 dev := none } := by
  have hne : g.devs ≠ [] := by
    intro h
    rw [h] at hd
    simp at hd
  have hfirst : cci_create_endpoint g none calloc plugin_ret
      = cci_create_endpoint g (some d) calloc plugin_ret := by
    rcases hsel with ⟨h1, h2⟩ | ⟨h1, h2⟩
    · have := find_default_dev_some g.devs 0 d dev hd h1 h2
      simp only [cci_create_endpoint, this, Nat.zero_add]
    · have := find_default_dev_none g.devs 0 h2
      subst h1
      simp [cci_create_endpoint, this, hne]
  refine ⟨hfirst, ?_, ?_, ?_⟩
  · intro hup
    rw [hfirst]
    simp [cci_create_endpoint, hd, hup]
  · intro hup hc
    rw [hfirst]
    simp [cci_create_endpoint, hd, hup, hc]
  · simp [cci_create_endpoint, find_default_dev]


/-! ## Claims on the endpoint id bitmap: release and reuse -/

/-- C11: evaluation of a call sequence at the failing input.  From the empty
one-block bitmap with base id 0, 66 successive calls of `sm_get_ep_id` hand
out 0, ..., 63, 0, 1; after `sm_put_ep_id(0)` the ids 0 and 1 are both still
outstanding (each was handed out twice).  Then `sm_put_ep_id(1)` clears bit 1
of block 0 and the next `sm_get_ep_id` returns 0, not 1.  The example of the
claim itself holds: after 65 allocations and `sm_put_ep_id(7)` the next
allocation returns 7. -/
theorem sm_put_then_get_returns_lower_id :
    (sm_run { sdev := { id := 0, ids := [0] }, outstanding := [] }
        (List.replicate 66 (sm_call.get (some 0)) ++ [sm_call.put 0])).map
      (fun t => (t.sdev, decide (0 ∈ t.outstanding), decide (1 ∈ t.outstanding)))
      = some ({ id := 0, ids := [UINT64_MAX - 1, 3] }, true, true) ∧
    sm_put_ep_id { id := 0, ids := [UINT64_MAX - 1, 3] } 1
      = some { id := 0, ids := [UINT64_MAX - 3, 3] } ∧
    sm_get_ep_id { id := 0, ids := [UINT64_MAX - 3, 3] } none
      = some { ret := .CCI_SUCCESS, id := some 0,
               sdev := { id := 0, ids := [UINT64_MAX - 2, 3] } } ∧
    ((sm_run { sdev := { id := 0, ids := [0] }, outstanding := [] }
        (List.replicate 65 (sm_call.get (some 0)) ++ [sm_call.put 7])).bind
      (fun t => sm_get_ep_id t.sdev none)).map (fun r => r.id) = some (some 7) := by
  decide

/-! ## Claims on connection establishment -/

/-- C12, counterexample: on the endpoint `ep_conn_requested` (the
ConnectRequest event of Rx 0 belongs to connection 0), `verbs_accept` over a
path MTU of 2048 with an accepted post returns `CCI_SUCCESS` and the state of
connection 0 is `VERBS_CONN_PASSIVE`, not `VERBS_CONN_ESTABLISHED`. -/
theorem verbs_accept_leaves_state_passive :
    (ep_conn_requested.bind
        (fun ep => verbs_accept ep 0 (.ok .IBV_MTU_2048) .CCI_SUCCESS)).map
      (fun r => (r.1, (r.2.vconns[0]?).map (fun c => c.state)))
    = some (.CCI_SUCCESS, some .VERBS_CONN_PASSIVE) := by
  decide

/-- C12, amended: for an event of Rx `rx` whose connection `vc` is in the
store and not on the well-formed list `conns` (which holds `xs`), and a path
MTU query that succeeds, `verbs_accept` returns what the posting of the reply
returns and leaves the state field of the connection as it was (it assigns no
state).  When the post is accepted the list `conns` holds `xs` followed by
`vc`, and one work request was added to the send queue, on connection `vc`,
without buffer, whose immediate word is `htonl` of a header with message kind
ConnReply and outcome subfield Accepted.  When the post fails the list `conns`
holds `xs` again and the send queue is unchanged. -/
theorem verbs_accept_joins_conns (ep : cci__ep_t) (rx vc : Nat) (mtu : ibv_mtu)
    (post : cci_status) (xs : List Nat)
    (hvc : (ep.rxs[rx]?).bind (fun r => r.evt.conn) = some vc)
    (hlt : vc < ep.vconns.length)
    (hl : tailq_is ep .conns .entry xs = true) (hn : vc ∉ xs) :
    ∃ ep', verbs_accept ep rx (.ok mtu) post = some (post, ep') ∧
      (ep'.vconns[vc]?).map (fun c => c.state) = (ep.vconns[vc]?).map (fun c => c.state) ∧
      tailq_is ep' .conns .entry (if post.nonzero then xs else xs ++ [vc]) = true ∧
      ep'.sq = (if post.nonzero then ep.sq else ep.sq ++
        [{ conn := vc, wr_id := .null, length := 0, num_sge := 0, with_imm := true,
           imm_data := htonl ep.little_endian (VERBS_MSG_CONN_REPLY
             ||| (cci_event_type.code .CCI_EVENT_CONNECT_ACCEPTED <<< 4)) }]) ∧
      (VERBS_MSG_CONN_REPLY ||| (cci_event_type.code .CCI_EVENT_CONNECT_ACCEPTED <<< 4))
          &&& 0xF = VERBS_MSG_CONN_REPLY ∧
      ((VERBS_MSG_CONN_REPLY ||| (cci_event_type.code .CCI_EVENT_CONNECT_ACCEPTED <<< 4))
          >>> 4) &&& 0xF = cci_event_type.code .CCI_EVENT_CONNECT_ACCEPTED := by
  cases hr : ep.rxs[rx]? with
  | none => simp [hr] at hvc
  | some r =>
    have hrc : r.evt.conn = some vc := by simpa [hr] using hvc
    obtain ⟨c, hc⟩ : ∃ c, ep.vconns[vc]? = some c := ⟨_, List.getElem?_eq_getElem hlt⟩
    obtain ⟨ep', h1, h2, h3, h4, h5, h6⟩ :=
      verbs_accept_spec ep rx vc r c mtu post xs hr hrc hc hl hn
    refine ⟨ep', h1, ?_, h3, h4, h5, h6⟩
    rw [hc]
    cases hv : ep'.vconns[vc]? with
    | none => simp [hv] at h2
    | some c' =>
      simp only [hv, Option.map_some', Option.some.injEq, conn_data, Prod.mk.injEq] at h2
      simp [h2.2.1]

/-- Witness of C12 on `ep_conn_requested_sample`: Rx 0, connection 0, empty
list `conns`, path MTU 2048, the post accepted. -/
theorem verbs_accept_joins_conns_witness :
    ∃ ep', verbs_accept ep_conn_requested_sample 0 (.ok .IBV_MTU_2048) .CCI_SUCCESS
        = some (.CCI_SUCCESS, ep') ∧
      tailq_is ep' .conns .entry [0] = true :=
  (verbs_accept_joins_conns ep_conn_requested_sample 0 0 .IBV_MTU_2048 .CCI_SUCCESS []
    (by decide) (by decide) (by decide) (by decide)).imp (fun _ h => ⟨h.1, h.2.2.1⟩)

/-- While the active list is well formed, a ConnReply yields one event: let
the active list of the endpoint be well formed and hold `vc` as
its first connection with the queue pair number of the completion `wc`, let
`vc` hold the connect request record `verbs_connect` makes for `context`
(none when the context is null and there is no payload), let the list `conns`
be well formed without `vc`, and let `wc` name the Rx `i` and carry the bytes
of a ConnReply word whose outcome subfield is `outcome`, Accepted or Rejected
(for Accepted this is the word `verbs_accept` posts).  Then
`verbs_handle_conn_reply` succeeds and appends exactly one event, the event of
Rx `i`, to the event list; that event is of type ConnectAccepted with
`context` and the connection `vc`, or of type ConnectRejected with `context`;
on Accepted the connection joins the list `conns`. -/
theorem verbs_handle_conn_reply_one_event (ep : cci__ep_t) (wc : ibv_wc) (sender_le : Bool)
    (outcome : cci_event_type) (as bs ys : List Nat) (vc i : Nat)
    (data : List Nat) (data_len attr context : Nat) (rx : verbs_rx_t)
    (hact : tailq_is ep .active .temp (as ++ vc :: bs) = true)
    (hno : ∀ a ∈ as, (ep.vconns[a]?).map (fun d => d.qp_num) ≠ some wc.qp_num)
    (hq : (ep.vconns[vc]?).map (fun d => d.qp_num) = some wc.qp_num)
    (hcr : conn_req_of ep vc = verbs_connect_request data data_len attr context)
    (hconns : tailq_is ep .conns .entry ys = true) (hny : vc ∉ ys)
    (hid : wc.wr_id = .rx i) (hrx : ep.rxs[i]? = some rx)
    (hout : outcome = .CCI_EVENT_CONNECT_ACCEPTED ∨ outcome = .CCI_EVENT_CONNECT_REJECTED)
    (himm : wc.imm_data = imm_on_receiver sender_le ep.little_endian
      (htonl sender_le (VERBS_MSG_CONN_REPLY ||| (cci_event_type.code outcome <<< 4)))) :
    ∃ ep', verbs_handle_conn_reply ep wc = some (.CCI_SUCCESS, ep') ∧
      ep'.evts = ep.evts ++ [.rx i] ∧
      (ep'.rxs[i]?).map (fun r => r.evt.event)
        = some (if outcome = .CCI_EVENT_CONNECT_ACCEPTED then
            { rx.evt.event with type := .CCI_EVENT_CONNECT_ACCEPTED,
                                accepted_context := context,
                                accepted_connection := some vc }
          else
            { rx.evt.event with type := .CCI_EVENT_CONNECT_REJECTED,
                                rejected_context := context }) ∧
      (outcome = .CCI_EVENT_CONNECT_ACCEPTED →
        tailq_is ep' .conns .entry (ys ++ [vc]) = true) := by
  cases hc : ep.vconns[vc]? with
  | none => simp [hc] at hq
  | some c =>
    have hq' : c.qp_num = wc.qp_num := by simpa [hc] using hq
    have hcr' : (match c.conn_req with
        | some r => r.context
        | none => 0) = context := by
      have h1 : c.conn_req = verbs_connect_request data data_len attr context := by
        simpa [conn_req_of, hc] using hcr
      rw [h1]
      unfold verbs_connect_request
      by_cases h0 : context ≠ 0 ∨ data_len ≠ 0
      · simp only [h0, if_true]
      · simp only [h0, if_false]
        push_neg at h0
        exact h0.1.symm
    have hno' : ∀ a ∈ as, ∀ d, ep.vconns[a]? = some d → d.qp_num ≠ wc.qp_num := by
      intro a ha d hd hh
      exact hno a ha (by simp [hd, hh])
    exact verbs_handle_conn_reply_spec ep wc sender_le outcome as bs ys vc i c context rx hact
      hno' hc hq' hcr' hconns hny hid hrx hout himm

/-- The lemma `verbs_handle_conn_reply_one_event` on `ep_initiator_sample`,
where the active list is still well formed: the accepting ConnReply of the
peer (queue pair 20) arrives in Rx 0; connection 0 is alone on the active
list and holds the record `verbs_connect` made for the payload "hello",
attribute 1 and context 7. -/
theorem verbs_handle_conn_reply_one_event_witness :
    ∃ ep', verbs_handle_conn_reply ep_initiator_sample (conn_reply_wc 0 20 0)
        = some (.CCI_SUCCESS, ep') ∧
      ep'.evts = ep_initiator_sample.evts ++ [.rx 0] ∧
      (ep'.rxs[0]?).map (fun r => (r.evt.event.type, r.evt.event.accepted_context))
        = some (.CCI_EVENT_CONNECT_ACCEPTED, 7) :=
  (verbs_handle_conn_reply_one_event ep_initiator_sample (conn_reply_wc 0 20 0) true
    .CCI_EVENT_CONNECT_ACCEPTED [] [] [] 0 0 [104, 101, 108, 108, 111] 5 1 7
    { evt := { event := cci_event.zero, conn := none }, offset := 0 }
    (by decide) (fun a ha => absurd ha (List.not_mem_nil a)) (by decide) (by decide)
    (by decide) (by decide) rfl (by decide) (Or.inl rfl) (by decide)).imp
    (fun ep' h => ⟨h.1, h.2.1, by
      have h3 := h.2.2.1
      cases hx : ep'.rxs[0]? with
      | none => simp [hx] at h3
      | some r =>
        simp only [hx, Option.map_some', Option.some.injEq, if_true] at h3
        simp [h3]⟩)

/-- C13: evaluation at the failing input.  On `ep_initiator_second` the reply
for the first connection has been handled, and a second `verbs_connect`
(queue pair 21, context 8) has made connection 1, state Active, whose
ConnPayload is posted; the head of the Active list is null, its tail pointer
is in connection 1, and no event is pending.  When `verbs_get_cq_event` polls
the accepting ConnReply for queue pair 21 in Rx 1 it returns `CCI_SUCCESS`
and the event list is still empty: no event is appended, and Rx 1 is not
posted again. -/
theorem verbs_handle_conn_reply_second_connection_no_event :
    ep_initiator_second.map (fun ep =>
        ((ep.vconns[1]?).map (fun c => (c.qp_num, c.state, conn_req_of ep 1 == none)),
          ep.active))
      = some (some (21, .VERBS_CONN_ACTIVE, false),
          { tqh_first := none, tqh_last := .next 1 .temp }) ∧
    ep_initiator_second.map (fun ep => (ep.evts, ep.srq)) = some ([], [1, 2, 3]) ∧
    (ep_initiator_second.bind (fun ep =>
        verbs_get_cq_event ep (.ok [conn_reply_wc 1 21 0]))).map
        (fun r => (r.1, r.2.evts, r.2.srq))
      = some (.CCI_SUCCESS, [], [2, 3]) := by
  decide

/-- C16: `verbs_return_event` routes by the kind of the event, each kind on
its own.  On a Recv event (of Rx `i`) and on a ConnectRequest event (of Rx
`j`, for a connection `vc` of the store) it posts the Rx again: when the post
is accepted the Rx joins the shared receive queue (on the ConnectRequest
event the connect request record of the connection is cleared first).  On a
Send event (of Tx `t`) it puts Tx `t` at the head of the idle list and
returns `CCI_SUCCESS`, and the next `verbs_get_tx` returns Tx `t` and leaves
the idle list as it was. -/
theorem verbs_return_event_routes (ep : cci__ep_t) (i j t vc : Nat) (post : cci_status)
    (errno : Nat) :
    (evt_type ep (.rx i) = some .CCI_EVENT_RECV →
      ∃ ep', verbs_return_event ep (.rx i) post errno
          = some (if post.nonzero then .errno errno else post, ep') ∧
        ep'.srq = (if post.nonzero then ep.srq else ep.srq ++ [i]) ∧
        ep'.idle_txs = ep.idle_txs ∧ ep'.evts = ep.evts) ∧
    (evt_type ep (.rx j) = some .CCI_EVENT_CONNECT_REQUEST →
      (ep.rxs[j]?).bind (fun r => r.evt.conn) = some vc → vc < ep.vconns.length →
      ∃ ep', verbs_return_event ep (.rx j) post errno = some (post, ep') ∧
        ep'.srq = (if post.nonzero then ep.srq else ep.srq ++ [j]) ∧
        conn_req_of ep' vc = none ∧
        ep'.idle_txs = ep.idle_txs ∧ ep'.evts = ep.evts) ∧
    (evt_type ep (.tx t) = some .CCI_EVENT_SEND →
      ∃ ep', verbs_return_event ep (.tx t) post errno = some (.CCI_SUCCESS, ep') ∧
        ep'.idle_txs = t :: ep.idle_txs ∧ ep'.srq = ep.srq ∧ ep'.evts = ep.evts ∧
        verbs_get_tx ep' = (some t, { ep' with idle_txs := ep.idle_txs })) := by
  refine ⟨fun hrecv => ?_, fun hreq hconn hvc => ?_, fun hsend => ?_⟩
  · unfold verbs_return_event
    rw [hrecv]
    by_cases hp : post.nonzero = true
    · exact ⟨ep, by simp [verbs_post_rx, hp], by simp [hp], rfl, rfl⟩
    · exact ⟨{ ep with srq := ep.srq ++ [i] }, by simp [verbs_post_rx, hp], by simp [hp],
        rfl, rfl⟩
  · unfold verbs_return_event
    rw [hreq]
    cases hr : ep.rxs[j]? with
    | none => simp [hr] at hconn
    | some r =>
      have hc : r.evt.conn = some vc := by simpa [hr] using hconn
      obtain ⟨c, hcv⟩ : ∃ c, ep.vconns[vc]? = some c := ⟨_, List.getElem?_eq_getElem hvc⟩
      have hq : conn_req_of (ep.modify_conn vc (fun c => { c with conn_req := none })) vc
          = none := by
        unfold conn_req_of
        rw [vconns_modify_conn, getElem?_list_modify]
        simp [hcv]
      by_cases hp : post.nonzero = true
      · refine ⟨ep.modify_conn vc (fun c => { c with conn_req := none }), ?_, ?_, hq, rfl, rfl⟩
        · simp [verbs_return_conn_request, hr, hc, hcv, verbs_post_rx, hp]
        · simp [hp]; rfl
      · refine ⟨{ ep.modify_conn vc (fun c => { c with conn_req := none }) with
            srq := ep.srq ++ [j] }, ?_, ?_, hq, rfl, rfl⟩
        · simp [verbs_return_conn_request, hr, hc, hcv, verbs_post_rx, hp]
          rfl
        · simp [hp]
  · unfold verbs_return_event
    rw [hsend]
    exact ⟨{ ep with idle_txs := t :: ep.idle_txs }, rfl, rfl, rfl, rfl, rfl⟩

/-- Witness of C16.  On `ep_events_sample` Rx 2 holds a Recv event, Rx 0 the
ConnectRequest event of connection 0 and Tx 0 a Send event; on
`ep_conn_requested_sample` the only event is the ConnectRequest event of
Rx 0.  The post is accepted. -/
theorem verbs_return_event_routes_witness :
    (∃ ep', verbs_return_event ep_events_sample (.rx 2) .CCI_SUCCESS 0
        = some (.CCI_SUCCESS, ep') ∧ ep'.srq = ep_events_sample.srq ++ [2]) ∧
    (∃ ep', verbs_return_event ep_events_sample (.rx 0) .CCI_SUCCESS 0
        = some (.CCI_SUCCESS, ep') ∧ ep'.srq = ep_events_sample.srq ++ [0]) ∧
    (∃ ep', verbs_return_event ep_events_sample (.tx 0) .CCI_SUCCESS 0
        = some (.CCI_SUCCESS, ep') ∧ ep'.idle_txs = 0 :: ep_events_sample.idle_txs) ∧
    (∃ ep', verbs_return_event ep_conn_requested_sample (.rx 0) .CCI_SUCCESS 0
        = some (.CCI_SUCCESS, ep') ∧ ep'.srq = ep_conn_requested_sample.srq ++ [0]) :=
  ⟨((verbs_return_event_routes ep_events_sample 2 0 0 0 .CCI_SUCCESS 0).1
      (by decide)).imp (fun _ g => ⟨g.1, g.2.1⟩),
    ((verbs_return_event_routes ep_events_sample 2 0 0 0 .CCI_SUCCESS 0).2.1
      (by decide) (by decide) (by decide)).imp (fun _ g => ⟨g.1, g.2.1⟩),
    ((verbs_return_event_routes ep_events_sample 2 0 0 0 .CCI_SUCCESS 0).2.2
      (by decide)).imp (fun _ g => ⟨g.1, g.2.1⟩),
    ((verbs_return_event_routes ep_conn_requested_sample 2 0 0 0 .CCI_SUCCESS 0).2.1
      (by decide) (by decide) (by decide)).imp (fun _ g => ⟨g.1, g.2.1⟩)⟩

/-- C17: evaluation of `verbs_return_event` at the failing input.  On the
initiator `ep_initiator_replied 0` (the ConnectAccepted event of Rx 0 was
taken by the application) and on `ep_initiator_replied 1` (ConnectRejected),
connection 0 holds the connect request record `cr_sample` made by
`verbs_connect`; `verbs_return_event` on the event of Rx 0 returns
`CCI_SUCCESS` and connection 0 still holds `cr_sample`. -/
theorem verbs_return_event_keeps_conn_req :
    ((ep_initiator_replied 0).bind (fun ep =>
        (verbs_return_event ep (.rx 0) .CCI_SUCCESS 0).map
          (fun r => (evt_type ep (.rx 0), conn_req_of ep 0, r.1, conn_req_of r.2 0))))
      = some (some .CCI_EVENT_CONNECT_ACCEPTED, some cr_sample, .CCI_SUCCESS, some cr_sample) ∧
    ((ep_initiator_replied 1).bind (fun ep =>
        (verbs_return_event ep (.rx 0) .CCI_SUCCESS 0).map
          (fun r => (evt_type ep (.rx 0), conn_req_of ep 0, r.1, conn_req_of r.2 0))))
      = some (some .CCI_EVENT_CONNECT_REJECTED, some cr_sample, .CCI_SUCCESS, some cr_sample)
    := by
  decide

/-! ## Claims on the URI, the device and the event ring -/

/-- C18, counterexample: `verbs_parse_uri` accepts `verbs://:`, whose host and
port are both empty, and `verbs://host:`, whose port is empty: it returns
`CCI_SUCCESS` with these empty strings as node and service. -/
theorem verbs_parse_uri_accepts_empty_host_and_port :
    verbs_parse_uri "verbs://:".toList = (.CCI_SUCCESS, some ([], [])) ∧
    verbs_parse_uri "verbs://host:".toList = (.CCI_SUCCESS, some ("host".toList, [])) ∧
    verbs_parse_uri "verbs://:5000".toList = (.CCI_SUCCESS, some ([], "5000".toList)) := by
  decide

/-- C18, amended: `verbs_parse_uri` accepts exactly the strings of the form
`verbs://<host>:<port>`, where host and port may be empty: it returns
`CCI_SUCCESS` with node and service if and only if the URI is the prefix
`verbs://` followed by node, a colon and service, node holding no colon (node
is the text between the prefix and the first colon, service the text after
that colon); it returns `CCI_EINVAL` and stores nothing if and only if the
URI is not the prefix followed by a text that holds a colon. -/
theorem verbs_parse_uri_accepts_first_colon (uri node service : List Char) :
    (verbs_parse_uri uri = (.CCI_SUCCESS, some (node, service)) ↔
      uri = VERBS_URI ++ node ++ ':' :: service ∧ ':' ∉ node) ∧
    (verbs_parse_uri uri = (.CCI_EINVAL, none) ↔
      ¬ ∃ a b, uri = VERBS_URI ++ a ++ ':' :: b) := by
  unfold verbs_parse_uri
  by_cases hp : strncmp_eq VERBS_URI uri = true
  · obtain ⟨t, ht⟩ := (strncmp_eq_iff _ _).mp hp
    subst ht
    simp only [hp, if_true, List.drop_left]
    cases hs : split_colon t with
    | none =>
      have hn := (split_colon_none t).mp hs
      refine ⟨?_, ?_⟩
      · simp only [Prod.mk.injEq, reduceCtorEq, false_and, false_iff, not_and, not_not]
        intro h
        rw [List.append_assoc] at h
        have := List.append_cancel_left h
        subst this
        exact absurd (List.mem_append_right _ (List.mem_cons_self _ _)) hn
      · simp only [true_iff]
        rintro ⟨a, b, h⟩
        rw [List.append_assoc] at h
        have := List.append_cancel_left h
        subst this
        exact hn (List.mem_append_right _ (List.mem_cons_self _ _))
    | some ab =>
      obtain ⟨a0, b0⟩ := ab
      have h0 := (split_colon_some t a0 b0).mp hs
      refine ⟨?_, ?_⟩
      · simp only [Prod.mk.injEq, true_and, Option.some.injEq]
        constructor
        · rintro ⟨h1, h2⟩
          subst h1; subst h2
          exact ⟨by rw [List.append_assoc, ← h0.1], h0.2⟩
        · rintro ⟨h1, h2⟩
          rw [List.append_assoc] at h1
          have h3 := List.append_cancel_left h1
          have h4 := (split_colon_some t node service).mpr ⟨h3, h2⟩
          rw [hs] at h4
          injection h4 with h4
          injection h4 with h5 h6
          exact ⟨h5, h6⟩
      · simp only [Prod.mk.injEq, reduceCtorEq, false_and, false_iff, not_not]
        exact ⟨a0, b0, by rw [List.append_assoc, ← h0.1]⟩
  · simp only [hp]
    refine ⟨?_, ?_⟩
    · simp only [Bool.false_eq_true, if_false, Prod.mk.injEq, reduceCtorEq, false_and,
        false_iff, not_and]
      intro h
      exact absurd ((strncmp_eq_iff _ _).mpr ⟨node ++ ':' :: service, by
        rw [h, List.append_assoc]⟩) hp
    · simp only [Bool.false_eq_true, if_false, true_iff]
      rintro ⟨a, b, h⟩
      exact absurd ((strncmp_eq_iff _ _).mpr ⟨a ++ ':' :: b, by
        rw [h, List.append_assoc]⟩) hp

/-- C19: let `d` be a device of the global list that is the first one with
`is_default` set, or the first device of the list when no device is flagged.
Then `cci_create_endpoint` without a device does what it does when given `d`;
when `d` is not up it returns `CCI_ENODEV`, allocates no endpoint and leaves
the global state as it was; when `d` is up and the allocation succeeds it
returns what the transport returns, for a new endpoint bound to `d`.  Given
any device that is not up it returns `CCI_ENODEV` in the same way, and on an
empty device list without a device as well. -/
theorem cci_create_endpoint_default_device (g : cci_globals) (calloc : Bool)
    (plugin_ret : cci_status) (d : Nat) (dev : cci__dev_t) (hd : g.devs[d]? = some dev)
    (hsel : (dev.is_default ≠ 0 ∧ ∀ d0 ∈ g.devs.take d, d0.is_default = 0) ∨
      (d = 0 ∧ ∀ d0 ∈ g.devs, d0.is_default = 0)) :
    cci_create_endpoint g none calloc plugin_ret
        = cci_create_endpoint g (some d) calloc plugin_ret ∧
      (dev.is_up = 0 → cci_create_endpoint g none calloc plugin_ret
        = some { ret := .CCI_ENODEV, globals := g, endpoint := none, dev := none }) ∧
      (dev.is_up ≠ 0 → calloc = true →
        cci_create_endpoint g none calloc plugin_ret
          = some { ret := plugin_ret,
                   globals := { devs := g.devs.set d { dev with eps := dev.eps ++ [g.n_eps] },
                                n_eps := g.n_eps + 1 },
                   endpoint := some g.n_eps, dev := some d }) ∧
      (∀ k dk, g.devs[k]? = some dk → dk.is_up = 0 →
        cci_create_endpoint g (some k) calloc plugin_ret
          = some { ret := .CCI_ENODEV, globals := g, endpoint := none, dev := none }) ∧
      cci_create_endpoint { g with devs := [] } none calloc plugin_ret
        = some { ret := .CCI_ENODEV, globals := { g with devs := [] }, endpoint := none,
                 dev := none } := by
  have hsel' : (dev.is_default ≠ 0 ∧
      ∀ k0 d0, k0 < d → g.devs[k0]? = some d0 → d0.is_default = 0) ∨
      (d = 0 ∧ ∀ d0 ∈ g.devs, d0.is_default = 0) := by
    rcases hsel with ⟨h1, h2⟩ | h
    · refine Or.inl ⟨h1, ?_⟩
      intro k0 d0 hk h0
      exact h2 d0 (List.mem_iff_getElem?.mpr ⟨k0, by rw [List.getElem?_take_of_lt hk]; exact h0⟩)
    · exact Or.inr h
  obtain ⟨h1, h2, h3, h4⟩ :=
    cci_create_endpoint_device_lemma g calloc plugin_ret d dev hd hsel'
  refine ⟨h1, h2, h3, ?_, h4⟩
  intro k dk hk hup
  simp [cci_create_endpoint, hk, hup]

/-- Witness of C19 on `globals_sample`: device 1 is the first flagged device
and is up, so the endpoint is created on device 1. -/
theorem cci_create_endpoint_default_device_witness :
    cci_create_endpoint globals_sample none true .CCI_SUCCESS
      = cci_create_endpoint globals_sample (some 1) true .CCI_SUCCESS ∧
    (cci_create_endpoint globals_sample none true .CCI_SUCCESS).map (fun r => (r.ret, r.dev))
      = some (.CCI_SUCCESS, some 1) :=
  ⟨(cci_create_endpoint_default_device globals_sample true .CCI_SUCCESS 1
      { is_default := 1, is_up := 1, eps := [] } (by decide)
      (Or.inl ⟨by decide, by decide⟩)).1, by decide⟩

/-- C20, counterexample: on a ring of 4 slots initialised as specified, four
produces without any return do not all succeed: the first three succeed and
the fourth fails with NoSpace (slot 0 holds the synthetic event, so three
slots are free). -/
theorem ring_fourth_produce_no_space :
    (ring_produce_all (ring_init 4 0) [11, 12, 13, 14]).1
      = [.Ok, .Ok, .Ok, .NoSpace] := by
  decide

/-- C20, amended: for a ring of 4 slots initialised as specified (slot 0
seeded on the busy list with the synthetic event `ok`, the three others
threaded on the free list), three produces without any return succeed and the
fourth fails with NoSpace and changes nothing; the consumer that starts at
slot 0 sees the three produced events once each, in produce order, and
reaches slot 3; after one of the slots 0, 1, 2 is returned the next produce
succeeds and the consumer, going on from slot 3, sees that event and no
other. -/
theorem ring_four_slots (ok a b c d e : Nat) (s : Int) (hs : s = 0 ∨ s = 1 ∨ s = 2) :
    (ring_produce_all (ring_init 4 ok) [a, b, c, d]).1 = [.Ok, .Ok, .Ok, .NoSpace] ∧
    (ring_produce_all (ring_init 4 ok) [a, b, c, d]).2
      = (ring_produce_all (ring_init 4 ok) [a, b, c]).2 ∧
    ring_consume (ring_produce_all (ring_init 4 ok) [a, b, c, d]).2 4 0 = ([a, b, c], 3) ∧
    (ring_produce (ring_return (ring_produce_all (ring_init 4 ok) [a, b, c, d]).2 s) e).1
      = .Ok ∧
    ring_consume
      (ring_produce (ring_return (ring_produce_all (ring_init 4 ok) [a, b, c, d]).2 s) e).2
      4 3 = ([e], s) := by
  have hinit : ring_init 4 ok =
      { slots := [{ next_busy_offset := -1, next_free_offset := -1, event := ok },
                  { next_busy_offset := -1, next_free_offset := 2, event := 0 },
                  { next_busy_offset := -1, next_free_offset := 3, event := 0 },
                  { next_busy_offset := -1, next_free_offset := -1, event := 0 }],
        last_busy := 0, first_free := 1, last_free := 3 } := rfl
  rw [hinit]
  rcases hs with h | h | h <;> subst h <;>
    simp [ring_produce_all, ring_produce, ring_return, event_ring.slot, event_ring.set_slot,
      list_modify, ring_consume]

/-- Witness of C20: the events 11, 12, 13, the refused 14, slot 1 returned,
then the event 15. -/
theorem ring_four_slots_witness :
    (ring_produce_all (ring_init 4 0) [11, 12, 13, 14]).1 = [.Ok, .Ok, .Ok, .NoSpace] ∧
    ring_consume (ring_produce_all (ring_init 4 0) [11, 12, 13, 14]).2 4 0
      = ([11, 12, 13], 3) ∧
    ring_consume
      (ring_produce (ring_return (ring_produce_all (ring_init 4 0) [11, 12, 13, 14]).2 1)
        15).2 4 3 = ([15], 1) :=
  (fun h => ⟨h.1, h.2.2.1, h.2.2.2.2⟩)
    (ring_four_slots 0 11 12 13 14 15 1 (Or.inr (Or.inl rfl)))

/-! ## Lemmas on the cache of remote handles -/

theorem verbs_conn_get_remote_loop_found (h : Nat) (r : verbs_rma_remote_t)
    (bs : List verbs_rma_remote_t) (hr : r.remote_handle = h) :
    ∀ (as seen : List verbs_rma_remote_t), (∀ a ∈ as, a.remote_handle ≠ h) →
      verbs_conn_get_remote_loop h seen (as ++ r :: bs)
        = (some r, r :: (seen ++ as ++ bs)) := by
  intro as
  induction as with
  | nil =>
    intro seen _
    by_cases hs : seen = []
    · subst hs; simp [verbs_conn_get_remote_loop, hr]
    · simp [verbs_conn_get_remote_loop, hr, hs]
  | cons a as ih =>
    intro seen hno
    have ha : a.remote_handle ≠ h := hno a (List.mem_cons_self _ _)
    simp only [List.cons_append, verbs_conn_get_remote_loop, ha, if_false]
    show verbs_conn_get_remote_loop h (seen ++ [a]) (as ++ r :: bs) = _
    rw [ih (seen ++ [a]) (fun x hx => hno x (List.mem_cons_of_mem _ hx))]
    simp

theorem verbs_conn_get_remote_loop_none (h : Nat) :
    ∀ (as seen : List verbs_rma_remote_t), (∀ a ∈ as, a.remote_handle ≠ h) →
      verbs_conn_get_remote_loop h seen as = (none, seen ++ as) := by
  intro as
  induction as with
  | nil => intro seen _; simp [verbs_conn_get_remote_loop]
  | cons a as ih =>
    intro seen hno
    have ha : a.remote_handle ≠ h := hno a (List.mem_cons_self _ _)
    simp only [verbs_conn_get_remote_loop, ha, if_false]
    rw [ih (seen ++ [a]) (fun x hx => hno x (List.mem_cons_of_mem _ hx))]
    simp

/-- C26: when the cache holds the entries `as`, then `r`, then `bs`, where no
entry of `as` has the requested handle and `r` has it, `verbs_conn_get_remote`
returns `r` and leaves the cache holding `r` followed by `as` and `bs`: the
same entries, `r` at the head, the others in their previous order.  When no
entry of the cache `cache` has the requested handle it returns null and
leaves the cache as it was. -/
theorem verbs_conn_get_remote_mru (h : Nat) (as bs cache : List verbs_rma_remote_t)
    (r : verbs_rma_remote_t) (has : ∀ a ∈ as, a.remote_handle ≠ h) (hr : r.remote_handle = h)
    (hcache : ∀ a ∈ cache, a.remote_handle ≠ h) :
    verbs_conn_get_remote (as ++ r :: bs) h = (some r, r :: (as ++ bs)) ∧
      verbs_conn_get_remote cache h = (none, cache) := by
  constructor
  · unfold verbs_conn_get_remote
    rw [verbs_conn_get_remote_loop_found h r bs hr as [] has]
    simp
  · unfold verbs_conn_get_remote
    rw [verbs_conn_get_remote_loop_none h cache [] hcache]
    simp

/-- Witness of C26: a cache of three entries with the handles 5, 7, 7 and the
requested handle 7; a cache without the handle 7. -/
theorem verbs_conn_get_remote_mru_witness :
    verbs_conn_get_remote
        [{ remote_handle := 5, remote_addr := 100, rkey := 1 },
         { remote_handle := 7, remote_addr := 200, rkey := 2 },
         { remote_handle := 7, remote_addr := 300, rkey := 3 }] 7
      = (some { remote_handle := 7, remote_addr := 200, rkey := 2 },
         [{ remote_handle := 7, remote_addr := 200, rkey := 2 },
          { remote_handle := 5, remote_addr := 100, rkey := 1 },
          { remote_handle := 7, remote_addr := 300, rkey := 3 }]) ∧
    verbs_conn_get_remote [{ remote_handle := 5, remote_addr := 100, rkey := 1 }] 7
      = (none, [{ remote_handle := 5, remote_addr := 100, rkey := 1 }]) :=
  verbs_conn_get_remote_mru 7 [{ remote_handle := 5, remote_addr := 100, rkey := 1 }]
    [{ remote_handle := 7, remote_addr := 300, rkey := 3 }]
    [{ remote_handle := 5, remote_addr := 100, rkey := 1 }]
    { remote_handle := 7, remote_addr := 200, rkey := 2 } (by decide) rfl (by decide)

/-! ## Lemmas on `verbs_send_common` -/

theorem verbs_send_common_post_takes (ep : cci__ep_t) (conn : Nat) (c : verbs_conn_t)
    (iov : List iovec) (context flags t : Nat) (rest : List Nat) (post : cci_status)
    (hc : ep.vconns[conn]? = some c) (hlen : verbs_iov_len iov ≤ c.max_send_size)
    (hidle : ep.idle_txs = t :: rest) (htx : t < ep.txs.length) :
    ∃ ep3, verbs_send_common_post true ep conn iov context flags post
        = some (post, some t, ep3) ∧ ep3.idle_txs = rest := by
  obtain ⟨tx, htx'⟩ : ∃ tx, ep.txs[t]? = some tx := ⟨_, List.getElem?_eq_getElem htx⟩
  have hl : ¬ (verbs_iov_len iov > c.max_send_size) := by omega
  cases hres : verbs_send_common_post true ep conn iov context flags post with
  | none =>
    simp only [verbs_send_common_post, hc, hl, verbs_get_tx, verbs_get_tx_locked, hidle, htx',
      verbs_post_send, Bool.not_true, Bool.false_eq_true, if_false] at hres
    by_cases hp : post.nonzero = true <;> simp [hp] at hres
  | some r =>
    obtain ⟨ret, ot, ep3⟩ := r
    simp only [verbs_send_common_post, hc, hl, verbs_get_tx, verbs_get_tx_locked, hidle, htx',
      verbs_post_send, Bool.not_true, Bool.false_eq_true, if_false] at hres
    by_cases hp : post.nonzero = true
    · simp only [hp, if_true, Option.some.injEq, Prod.mk.injEq] at hres
      obtain ⟨h1, h2, h3⟩ := hres
      subst h1; subst h2; subst h3
      exact ⟨_, rfl, rfl⟩
    · simp only [hp, if_false, Option.some.injEq, Prod.mk.injEq] at hres
      obtain ⟨h1, h2, h3⟩ := hres
      subst h1; subst h2; subst h3
      exact ⟨_, rfl, rfl⟩

/-- C25: let `verbs_send_common` take the Tx `t` (the transport is
initialised, the length fits, `t` is the head of the idle list, `rest` the
others) and let `ep3` be the endpoint after the call of `verbs_post_send`,
whose idle list is `rest`.  When the posting fails the result is `ep3` with
`t` put once at the head of the idle list.  When the send is posted and not
blocking the result is `ep3`: `t` is not on the idle list.  When the send is
posted and blocking and the wait loop finds the event of `t` with status `st`
in the state `ep4`, the result is `ep4` with `t` put once at the head of the
idle list, whether `st` is success or a failure; while the event does not
show up the call does not return. -/
theorem verbs_send_common_idles_tx_once (ep : cci__ep_t) (conn : Nat) (c : verbs_conn_t)
    (iov : List iovec) (context flags t : Nat) (rest : List Nat) (post : cci_status)
    (others : List (cci__ep_t → cci__ep_t))
    (hc : ep.vconns[conn]? = some c) (hlen : verbs_iov_len iov ≤ c.max_send_size)
    (hidle : ep.idle_txs = t :: rest) (htx : t < ep.txs.length) :
    ∃ ep3, verbs_send_common_post true ep conn iov context flags post
        = some (post, some t, ep3) ∧ ep3.idle_txs = rest ∧
      (post.nonzero = true →
        verbs_send_common true ep conn iov context flags post others
          = some (post, { ep3 with idle_txs := t :: rest })) ∧
      (post.nonzero = false →
        ¬ (flags &&& CCI_FLAG_BLOCKING ≠ 0 ∧ cci_conn_is_reliable c.conn_attribute = true) →
        verbs_send_common true ep conn iov context flags post others = some (post, ep3)) ∧
      (post.nonzero = false →
        (flags &&& CCI_FLAG_BLOCKING ≠ 0 ∧ cci_conn_is_reliable c.conn_attribute = true) →
        (∀ st ep4, verbs_send_common_wait t ep3 others = some (st, ep4) →
          verbs_send_common true ep conn iov context flags post others
            = some (st, { ep4 with idle_txs := t :: ep4.idle_txs })) ∧
        (verbs_send_common_wait t ep3 others = none →
          verbs_send_common true ep conn iov context flags post others = none)) := by
  obtain ⟨ep3, hpost, hrest⟩ :=
    verbs_send_common_post_takes ep conn c iov context flags t rest post hc hlen hidle htx
  refine ⟨ep3, hpost, hrest, ?_, ?_, ?_⟩
  · intro hp
    simp only [verbs_send_common, hpost, hp, if_true, hrest]
  · intro hp hnb
    simp only [verbs_send_common, hpost, hp, hc, Bool.false_eq_true, if_false]
    rw [if_neg hnb]
  · intro hp hb
    refine ⟨?_, ?_⟩
    · intro st ep4 hw
      simp only [verbs_send_common, hpost, hp, hc, Bool.false_eq_true, if_false]
      rw [if_pos hb]
      simp only [hw]
      by_cases hs : st.nonzero = true
      · simp [hs]
      · simp [hs]
    · intro hw
      simp only [verbs_send_common, hpost, hp, hc, Bool.false_eq_true, if_false]
      rw [if_pos hb]
      simp only [hw]

/-! ## Lemmas on the lists after a connection reply -/

/-- Inserting at the tail of a well-formed list leaves the words of the other
link field and the heads of the other lists alone. -/
theorem TAILQ_INSERT_TAIL_other (ep ep' : cci__ep_t) (l : conn_list) (elm : Nat)
    (f f' : conn_link) (xs : List Nat) (h : tailq_is ep l f xs = true)
    (hins : TAILQ_INSERT_TAIL ep l elm f = some ep') (hf : f' ≠ f) :
    (∀ j, link_of ep'.vconns j f' = link_of ep.vconns j f') ∧
      ∀ l', l' ≠ l → ep'.head l' = ep.head l' := by
  have helm : elm < ep.vconns.length := by
    cases hv : ep.vconns[elm]? with
    | none => simp [TAILQ_INSERT_TAIL, hv] at hins
    | some c => exact (List.getElem?_eq_some_iff.mp hv).1
  obtain ⟨hlast, hok⟩ := tailq_is_last ep l f xs h
  obtain ⟨ep2, hins2, hlinks, hheads⟩ := TAILQ_INSERT_TAIL_words ep l elm f helm hok
  rw [hins] at hins2
  injection hins2 with hins2
  subst hins2
  have hshape : (∀ j, (ep.head l).tqh_last ≠ .next j f') ∧
      ∀ l', l' ≠ l → (ep.head l).tqh_last ≠ .head l' := by
    rcases last_ptr_cases (.head l) xs f with ⟨_, h1⟩ | ⟨z, _, h1⟩
    · rw [hlast, h1]
      refine ⟨fun j hh => (by cases hh), fun l' hl hh => ?_⟩
      injection hh with hh
      exact hl hh.symm
    · rw [hlast, h1]
      refine ⟨fun j hh => ?_, fun l' _ hh => (by cases hh)⟩
      injection hh with _ hh
      exact hf hh.symm
  refine ⟨?_, ?_⟩
  · intro j
    rw [hlinks]
    simp only [hshape.1 j, hf, and_false, if_false]
    cases link_of ep.vconns j f' <;> rfl
  · intro l' hl
    rw [hheads]
    simp only [hl, hshape.2 l' hl, if_false]

theorem verbs_handle_conn_reply_lists (ep : cci__ep_t) (wc : ibv_wc) (sender_le : Bool)
    (outcome : cci_event_type) (as bs ys : List Nat) (vc i : Nat) (c : verbs_conn_t)
    (rx : verbs_rx_t)
    (hact : tailq_is ep .active .temp (as ++ vc :: bs) = true)
    (hno : ∀ a ∈ as, ∀ d, ep.vconns[a]? = some d → d.qp_num ≠ wc.qp_num)
    (hc : ep.vconns[vc]? = some c) (hq : c.qp_num = wc.qp_num)
    (hconns : tailq_is ep .conns .entry ys = true) (hny : vc ∉ ys)
    (hid : wc.wr_id = .rx i) (hrx : ep.rxs[i]? = some rx)
    (hout : outcome = .CCI_EVENT_CONNECT_ACCEPTED ∨ outcome = .CCI_EVENT_CONNECT_REJECTED)
    (himm : wc.imm_data = imm_on_receiver sender_le ep.little_endian
      (htonl sender_le (VERBS_MSG_CONN_REPLY ||| (cci_event_type.code outcome <<< 4)))) :
    ∃ ep', verbs_handle_conn_reply ep wc = some (.CCI_SUCCESS, ep') ∧
      tailq_links ep'.vconns .temp (.head .active) (as ++ bs) ep'.active.tqh_first
        (last_ptr (.head .active) (as ++ bs) .temp) = true ∧
      (ep'.vconns[vc]?).map conn_data = some (conn_data c) ∧
      tailq_is ep' .conns .entry
        (if outcome = .CCI_EVENT_CONNECT_ACCEPTED then ys ++ [vc] else ys) = true ∧
      (bs ≠ [] → tailq_is ep' .active .temp (as ++ bs) = true ∧ ep'.passive = ep.passive) := by
  have hlt : vc < ep.vconns.length := (List.getElem?_eq_some_iff.mp hc).1
  obtain ⟨hlA, hndA⟩ := (tailq_is_iff ep .active .temp _).mp hact
  have hlen := tailq_is_length ep .active .temp _ hact
  have hfind : verbs_find_conn ep .temp wc.qp_num (ep.vconns.length + 1) ep.active.tqh_first
      = some (some vc) :=
    verbs_find_conn_found ep .temp wc.qp_num vc c bs _ hc hq as _ _ _ hlA hno
      (by simp at hlen; omega)
  obtain ⟨e, hE, hprev, hnext, hok, hnv⟩ := tailq_is_member ep .active .temp as bs vc hact
  obtain ⟨ep1, hrem, hlinks, hheads⟩ := TAILQ_REMOVE_words ep .passive vc .temp e hE hnv hok
  have hsame1 := TAILQ_REMOVE_same ep ep1 .passive vc .temp hrem
  obtain ⟨_, hrx1, _, _, _, _, _, hlen1, hdata1⟩ := same_but_links_fields hsame1
  have hpe : ∀ j, e.tqe_prev ≠ .next j .entry := by
    intro j hh
    rw [hprev] at hh
    rcases last_ptr_cases (.head .active) as .temp with ⟨_, h1⟩ | ⟨z, _, h1⟩ <;>
      rw [h1] at hh <;> cases hh
  have hpc : e.tqe_prev ≠ .head .conns := by
    intro hh
    rw [hprev] at hh
    rcases last_ptr_cases (.head .active) as .temp with ⟨_, h1⟩ | ⟨z, _, h1⟩ <;>
      rw [h1] at hh <;> cases hh
  have hpp : e.tqe_prev ≠ .head .passive := by
    intro hh
    rw [hprev] at hh
    rcases last_ptr_cases (.head .active) as .temp with ⟨_, h1⟩ | ⟨z, _, h1⟩ <;>
      rw [h1] at hh <;> cases hh
  have hconns1 : tailq_is ep1 .conns .entry ys = true := by
    rw [tailq_is_congr ep ep1 .conns .entry ys]
    · exact hconns
    · rw [hheads]; simp [hpc]
    · intro j _
      rw [hlinks]
      simp only [hpe j, if_false]
      cases link_of ep.vconns j .entry <;> simp

  have hO : ∀ j, j ≠ vc → link_of ep1.vconns j .temp = (link_of ep.vconns j .temp).map
      (fun e0 =>
        if e.tqe_prev = .next j .temp then
          { (if e.tqe_next = some j then { e0 with tqe_prev := e.tqe_prev } else e0)
            with tqe_next := e.tqe_next }
        else if e.tqe_next = some j then { e0 with tqe_prev := e.tqe_prev }
        else e0) := by
    intro j _
    rw [hlinks]
    simp only [and_true]
  have hchain0 := tailq_links_remove ep.vconns ep1.vconns .temp vc e bs _ hE hO as
    (.head .active) _ hlA hndA (by intro j _ hh; cases hh)
  have hfirst1 : (ep1.head .active).tqh_first
      = (if e.tqe_prev = .head .active then e.tqe_next else (ep.head .active).tqh_first) := by
    rw [hheads]
    by_cases hp : e.tqe_prev = .head .active <;> simp [hp]
  have hlast1 : (ep1.head .active).tqh_last = (ep.head .active).tqh_last := by
    rw [hheads]
    by_cases hp : e.tqe_prev = .head .active <;> simp [hp]
  rw [← hfirst1] at hchain0
  have hlastval := tailq_links_last _ _ _ _ _ _ hchain0
  rw [hlastval] at hchain0
  have hchain1 : tailq_links ep1.vconns .temp (.head .active) (as ++ bs) ep1.active.tqh_first
      (last_ptr (.head .active) (as ++ bs) .temp) = true := hchain0
  have hnd1 : (as ++ bs).Nodup := by
    have := List.nodup_append.mp hndA
    rw [List.nodup_append]
    exact ⟨this.1, (List.nodup_cons.mp this.2.1).2,
      fun a ha hb => this.2.2 ha (List.mem_cons_of_mem _ hb)⟩
  have hD1 : bs ≠ [] → tailq_is ep1 .active .temp (as ++ bs) = true ∧ ep1.passive = ep.passive := by
    intro hbs
    have hne : e.tqe_next ≠ none := by
      rw [hnext]
      cases bs with
      | nil => exact absurd rfl hbs
      | cons b bs' => simp
    refine ⟨?_, ?_⟩
    · rw [tailq_is_iff]
      refine ⟨?_, hnd1⟩
      have hl : (ep1.head .active).tqh_last = last_ptr (.head .active) (as ++ bs) .temp := by
        rw [hlast1, ← hlastval]
        simp [hne]
      rw [hl]
      exact hchain1
    · have := hheads .passive
      simp only [hpp, hne, and_false, if_false] at this
      exact this
  have hstate1 : (ep1.vconns[vc]?).map conn_data = some (conn_data c) := by
    rw [hdata1, hc]; rfl
  have htype := conn_reply_header_decode sender_le ep.little_endian outcome hout
  rw [← himm] at htype
  have hrx1' : ep1.rxs[i]? = some rx := by rw [hrx1]; exact hrx
  rcases hout with ho | ho
  · subst ho
    let ep2 : cci__ep_t := { ep1 with rxs := ep1.rxs.set i { rx with evt := { rx.evt with event :=
      { rx.evt.event with type := .CCI_EVENT_CONNECT_ACCEPTED,
                          accepted_context := (match c.conn_req with
                            | some r => r.context
                            | none => 0),
                          accepted_connection := some vc } } } }
    have hconns2 : tailq_is ep2 .conns .entry ys = true := hconns1
    have hlt2 : vc < ep2.vconns.length := by
      show vc < ep1.vconns.length
      rw [hlen1]; exact hlt
    obtain ⟨ep3, hins, his, hsame3⟩ :=
      TAILQ_INSERT_TAIL_spec ep2 .conns vc .entry ys hconns2 hlt2 hny
    obtain ⟨_, _, _, _, _, _, _, _, hdata3⟩ := same_but_links_fields hsame3
    obtain ⟨hl3, hh3⟩ := TAILQ_INSERT_TAIL_other ep2 ep3 .conns vc .entry .temp ys hconns2 hins
      (by decide)
    have hact3 : ep3.head .active = ep1.head .active := hh3 .active (by decide)
    have hpas3 : ep3.head .passive = ep1.head .passive := hh3 .passive (by decide)
    have hchain3 : tailq_links ep3.vconns .temp (.head .active) (as ++ bs) ep3.active.tqh_first
        (last_ptr (.head .active) (as ++ bs) .temp) = true := by
      rw [tailq_links_congr ep1.vconns ep3.vconns .temp (as ++ bs) _ _ _ (fun j _ => hl3 j)]
      have : ep3.active.tqh_first = ep1.active.tqh_first := congrArg tailq_head.tqh_first hact3
      rw [this]
      exact hchain1
    refine ⟨{ ep3 with evts := ep3.evts ++ [.rx i] }, ?_, hchain3, ?_, ?_, ?_⟩
    · unfold verbs_handle_conn_reply
      simp only [hfind, hrem, hc, hid, hrx1', htype, if_true]
      show (match TAILQ_INSERT_TAIL ep2 .conns vc .entry with
        | none => none
        | some ep3 => _) = _
      rw [hins]
    · show (ep3.vconns[vc]?).map conn_data = _
      rw [hdata3]
      exact hstate1
    · simpa using his
    · intro hbs
      obtain ⟨h1, h2⟩ := hD1 hbs
      refine ⟨?_, ?_⟩
      · show tailq_is ep3 .active .temp (as ++ bs) = true
        rw [tailq_is_congr ep1 ep3 .active .temp (as ++ bs) hact3 (fun j _ => hl3 j)]
        exact h1
      · show ep3.passive = ep.passive
        exact hpas3.trans h2
  · subst ho
    refine ⟨{ ep1 with rxs := ep1.rxs.set i { rx with evt := { rx.evt with event :=
        { rx.evt.event with type := .CCI_EVENT_CONNECT_REJECTED,
                            rejected_context := (match c.conn_req with
                              | some r => r.context
                              | none => 0) } } },
                       evts := ep1.evts ++ [.rx i] }, ?_, hchain1, hstate1, ?_, ?_⟩
    · unfold verbs_handle_conn_reply
      simp only [hfind, hrem, hc, hid, hrx1', htype]
      simp
    · simpa using hconns1
    · intro hbs
      exact hD1 hbs

/-- Witness of C25 on `ep_sample`: a non-blocking send of 5 bytes on
connection 0 takes Tx 0 off the idle list `[0, 1]`; when the posting fails
with `CCI_ERROR` the list is `[0, 1]` again, and when it succeeds the list
stays `[1]`. -/
theorem verbs_send_common_idles_tx_once_witness :
    ∃ ep3, verbs_send_common_post true ep_sample 0 [{ iov_base := 0, iov_len := 5 }] 170 0
        .CCI_ERROR = some (.CCI_ERROR, some 0, ep3) ∧ ep3.idle_txs = [1] ∧
      verbs_send_common true ep_sample 0 [{ iov_base := 0, iov_len := 5 }] 170 0 .CCI_ERROR []
        = some (.CCI_ERROR, { ep3 with idle_txs := [0, 1] }) :=
  (verbs_send_common_idles_tx_once ep_sample 0 conn_sample [{ iov_base := 0, iov_len := 5 }]
    170 0 0 [1] .CCI_ERROR [] (by decide) (by decide) (by decide) (by decide)).imp
    (fun _ h => ⟨h.1, h.2.1, h.2.2.1 (by decide)⟩)

/-! ## Claims on the completion paths -/

/-- C22: evaluation of the completion path at the failing input.  On the
initiator `ep_initiator_sample`, `verbs_conn_est_active` has taken Tx 0 for
the ConnPayload (the idle list is `[1]`, the stored kind of Tx 0 is 0).  After
`verbs_get_cq_event` has polled the successful Send completion of Tx 0 it
returns `CCI_SUCCESS`, no event has been appended, and the idle list is still
`[1]`: Tx 0 is not idle again. -/
theorem verbs_get_cq_event_conn_payload_tx_not_idle :
    ep_initiator_sample.idle_txs = [1] ∧
    (ep_initiator_sample.txs[0]?).map (fun t => t.msg_type) = some 0 ∧
    (verbs_get_cq_event ep_initiator_sample
        (.ok [{ wr_id := .tx 0, status := .IBV_WC_SUCCESS, opcode := IBV_WC_SEND, imm_data := 0,
                byte_len := 0, qp_num := 20 }])).map
        (fun r => (r.1, r.2.idle_txs, r.2.evts, tx_idle r.2 0))
      = some (.CCI_SUCCESS, [1], [], false) := by
  decide

/-- C23: evaluation of `verbs_get_cq_event` at the failing input.  On
`ep_sample` the Rx 1, 2, 3 are posted to the shared receive queue and no event
is pending.  After a Recv completion of Rx 2 with a non-success status has
been polled, Rx 2 is not posted again (the queue holds Rx 1 and 3); and when
the header of that completion reads as a Send, the event of Rx 2 has been
appended to the event list. -/
theorem verbs_get_cq_event_failed_recv_not_reposted :
    (ep_sample.srq, ep_sample.evts) = ([1, 2, 3], []) ∧
    (verbs_get_cq_event ep_sample
        (.ok [{ wr_id := .rx 2, status := .other 5, opcode := IBV_WC_RECV, imm_data := 0,
                byte_len := 0, qp_num := 10 }])).map
        (fun r => (r.1, r.2.srq, r.2.evts))
      = some (.CCI_SUCCESS, [1, 3], []) ∧
    (verbs_get_cq_event ep_sample
        (.ok [{ wr_id := .rx 2, status := .other 5, opcode := IBV_WC_RECV,
                imm_data := htonl true VERBS_MSG_SEND, byte_len := 0, qp_num := 10 }])).map
        (fun r => (r.1, r.2.srq, r.2.evts))
      = some (.CCI_SUCCESS, [1, 3], [.rx 2]) := by
  decide

/-- C24: evaluation of `verbs_handle_conn_reply` at the failing input.  On
the initiator `ep_initiator_sample` connection 0 is alone on the Active list
and the Passive list is the empty list.  The ConnReply of the peer is handled
with `CCI_SUCCESS`, for an Accepted reply as for a Rejected one, and
afterwards the tail pointer of the Passive head addresses the head of the
Active list, the tail pointer of the Active head still addresses connection
0, neither list is well formed any more, and connection 0 is still in state
Active. -/
theorem verbs_handle_conn_reply_state_stays_active :
    (ep_initiator_sample.passive, tailq_is ep_initiator_sample .active .temp [0],
        tailq_is ep_initiator_sample .passive .temp [])
      = ({ tqh_first := none, tqh_last := .head .passive }, true, true) ∧
    (verbs_handle_conn_reply ep_initiator_sample (conn_reply_wc 0 20 0)).map
        (fun r => (r.1, r.2.passive, r.2.active))
      = some (.CCI_SUCCESS, { tqh_first := none, tqh_last := .head .active },
          { tqh_first := none, tqh_last := .next 0 .temp }) ∧
    (verbs_handle_conn_reply ep_initiator_sample (conn_reply_wc 0 20 0)).map
        (fun r => (tailq_is r.2 .passive .temp [], tailq_is r.2 .active .temp [],
          (r.2.vconns[0]?).map (fun c => c.state)))
      = some (false, false, some .VERBS_CONN_ACTIVE) ∧
    (verbs_handle_conn_reply ep_initiator_sample (conn_reply_wc 0 20 1)).map
        (fun r => (r.1, r.2.passive, r.2.active))
      = some (.CCI_SUCCESS, { tqh_first := none, tqh_last := .head .active },
          { tqh_first := none, tqh_last := .next 0 .temp }) ∧
    (verbs_handle_conn_reply ep_initiator_sample (conn_reply_wc 0 20 1)).map
        (fun r => (tailq_is r.2 .passive .temp [], tailq_is r.2 .active .temp [],
          (r.2.vconns[0]?).map (fun c => c.state)))
      = some (false, false, some .VERBS_CONN_ACTIVE) := by
  decide

/-- While the Active list is well formed: after `verbs_handle_conn_reply` has
handled a ConnReply
(Accepted or Rejected) for the connection `vc` found in the Active list
`as ++ vc :: bs`, the function has returned `CCI_SUCCESS`, the walk of the
Active list from its head goes through `as ++ bs`, the other members in their
previous order, and `vc` is not among them; the state of `vc` is the one it
had; the established list `conns` holds `ys ++ [vc]` when the reply was
Accepted and `ys`, as before, when it was Rejected. -/
theorem verbs_handle_conn_reply_leaves_active (ep : cci__ep_t) (wc : ibv_wc) (sender_le : Bool)
    (outcome : cci_event_type) (as bs ys : List Nat) (vc i : Nat) (rx : verbs_rx_t)
    (hact : tailq_is ep .active .temp (as ++ vc :: bs) = true)
    (hno : ∀ a ∈ as, (ep.vconns[a]?).map (fun d => d.qp_num) ≠ some wc.qp_num)
    (hq : (ep.vconns[vc]?).map (fun d => d.qp_num) = some wc.qp_num)
    (hconns : tailq_is ep .conns .entry ys = true) (hny : vc ∉ ys)
    (hid : wc.wr_id = .rx i) (hrx : ep.rxs[i]? = some rx)
    (hout : outcome = .CCI_EVENT_CONNECT_ACCEPTED ∨ outcome = .CCI_EVENT_CONNECT_REJECTED)
    (himm : wc.imm_data = imm_on_receiver sender_le ep.little_endian
      (htonl sender_le (VERBS_MSG_CONN_REPLY ||| (cci_event_type.code outcome <<< 4)))) :
    ∃ ep', verbs_handle_conn_reply ep wc = some (.CCI_SUCCESS, ep') ∧
      tailq_links ep'.vconns .temp (.head .active) (as ++ bs) ep'.active.tqh_first
        (last_ptr (.head .active) (as ++ bs) .temp) = true ∧
      vc ∉ as ++ bs ∧
      (ep'.vconns[vc]?).map (fun c => c.state) = (ep.vconns[vc]?).map (fun c => c.state) ∧
      tailq_is ep' .conns .entry
        (if outcome = .CCI_EVENT_CONNECT_ACCEPTED then ys ++ [vc] else ys) = true := by
  cases hc : ep.vconns[vc]? with
  | none => simp [hc] at hq
  | some c =>
    have hq' : c.qp_num = wc.qp_num := by simpa [hc] using hq
    have hno' : ∀ a ∈ as, ∀ d, ep.vconns[a]? = some d → d.qp_num ≠ wc.qp_num := by
      intro a ha d hd hh
      exact hno a ha (by simp [hd, hh])
    obtain ⟨ep', h1, h2, h3, h4, _⟩ := verbs_handle_conn_reply_lists ep wc sender_le outcome
      as bs ys vc i c rx hact hno' hc hq' hconns hny hid hrx hout himm
    have hnd := ((tailq_is_iff ep .active .temp _).mp hact).2
    have hmem : vc ∉ as ++ bs := by
      have h5 := List.nodup_append.mp hnd
      intro hh
      rcases List.mem_append.mp hh with ha | hb
      · exact h5.2.2 ha (List.mem_cons_self _ _)
      · exact (List.nodup_cons.mp h5.2.1).1 hb
    refine ⟨ep', h1, h2, hmem, ?_, h4⟩
    cases hx : ep'.vconns[vc]? with
    | none => simp [hx] at h3
    | some c' =>
      simp only [hx, Option.map_some', Option.some.injEq] at h3
      have : c'.state = c.state := congrArg (fun p => p.2.1) h3
      simp [this]

/-- The lemma `verbs_handle_conn_reply_leaves_active` on
`ep_initiator_sample`: the accepting ConnReply of the
peer (queue pair 20) arrives in Rx 0; connection 0 is alone on the Active
list and the established list is empty. -/
theorem verbs_handle_conn_reply_leaves_active_witness :
    ∃ ep', verbs_handle_conn_reply ep_initiator_sample (conn_reply_wc 0 20 0)
        = some (.CCI_SUCCESS, ep') ∧
      ep'.active.tqh_first = none ∧
      (ep'.vconns[0]?).map (fun c => c.state) = some .VERBS_CONN_ACTIVE ∧
      tailq_is ep' .conns .entry [0] = true :=
  (verbs_handle_conn_reply_leaves_active ep_initiator_sample (conn_reply_wc 0 20 0) true
    .CCI_EVENT_CONNECT_ACCEPTED [] [] [] 0 0
    { evt := { event := cci_event.zero, conn := none }, offset := 0 }
    (by decide) (fun a ha => absurd ha (List.not_mem_nil a)) (by decide)
    (by decide) (by decide) rfl (by decide) (Or.inl rfl) (by decide)).imp
    (fun ep' h => ⟨h.1, by
      have h2 := h.2.1
      simp [tailq_links] at h2
      exact h2.1, h.2.2.2.1.trans (by decide), by simpa using h.2.2.2.2⟩)

/-! ## Claims on endpoint creation, sizes and remote memory access -/

/-- C21: the return value of the `GET_INFO` operation is 0 whenever the two
copies succeed, whatever the interfaces are.  At the failing input no
interface exists at all: the operation returns 0, not `-ENODEV`, and hands
back the fields it had preset (-1 and rate 0).  With one loopback interface
that has the given address the result is the same: the loopback type is not
looked up. -/
theorem ccieth_ioctl_get_info_missing_interface_returns_zero :
    (∀ devs arg, (ccieth_ioctl_get_info_op devs (some arg) 0).1 = 0) ∧
    ccieth_ioctl_get_info_op []
        (some { addr := [0, 1, 2, 3, 4, 5], max_send_size := 0, pci_domain := 0, pci_bus := 0,
                pci_dev := 0, pci_func := 0, rate := 0 }) 0
      = (0, some { addr := [0, 1, 2, 3, 4, 5], max_send_size := (-1), pci_domain := (-1),
                   pci_bus := (-1), pci_dev := (-1), pci_func := (-1), rate := 0 }) ∧
    ccieth_ioctl_get_info_op
        [{ type := ARPHRD_LOOPBACK, dev_addr := [0, 0, 0, 0, 0, 0], mtu := 1500, pci := none,
           get_settings := none }]
        (some { addr := [0, 0, 0, 0, 0, 0], max_send_size := 0, pci_domain := 0, pci_bus := 0,
                pci_dev := 0, pci_func := 0, rate := 0 }) 0
      = (0, some { addr := [0, 0, 0, 0, 0, 0], max_send_size := (-1), pci_domain := (-1),
                   pci_bus := (-1), pci_dev := (-1), pci_func := (-1), rate := 0 }) := by
  refine ⟨fun devs arg => ?_, by decide, by decide⟩
  simp [ccieth_ioctl_get_info_op]

/-- C27: evaluation of `cci_create_endpoint` at the failing input.  With the
devices of `globals_sample` (the default device is device 1, with no
endpoint), a null `device` and a transport whose `create_endpoint` returns
`CCI_ENOMEM`, the function returns `CCI_ENOMEM` and the endpoint list of
device 1 holds the new endpoint 0. -/
theorem cci_create_endpoint_binds_failed_endpoint :
    (globals_sample.devs[1]?).map (fun d => d.eps) = some [] ∧
    (cci_create_endpoint globals_sample none true .CCI_ENOMEM).map
        (fun r => (r.ret, r.dev, (r.globals.devs[1]?).map (fun d => d.eps)))
      = some (.CCI_ENOMEM, some 1, some [0]) := by
  decide

/-- C28: evaluation of `verbs_send_common` at the failing input.  Connection 0
of `ep_sample` has `max_send_size` 2048.  For three segments of 2^31, 2^31 and
1 bytes the 32-bit accumulated length is 1, the send is not rejected (the
result is `CCI_SUCCESS`, the posted length is 1), and the copy loop copies
2^32 + 1 bytes into the Tx buffer. -/
theorem verbs_send_common_copies_past_max_send_size :
    (ep_sample.vconns[0]?).map (fun c => c.max_send_size) = some 2048 ∧
    verbs_iov_len [{ iov_base := 0, iov_len := 2 ^ 31 }, { iov_base := 0, iov_len := 2 ^ 31 },
      { iov_base := 0, iov_len := 1 }] = 1 ∧
    (verbs_send_common true ep_sample 0
        [{ iov_base := 0, iov_len := 2 ^ 31 }, { iov_base := 0, iov_len := 2 ^ 31 },
         { iov_base := 0, iov_len := 1 }] 170 0 .CCI_SUCCESS []).map (fun r => r.1)
      = some .CCI_SUCCESS ∧
    verbs_send_common_copied
        [{ iov_base := 0, iov_len := 2 ^ 31 }, { iov_base := 0, iov_len := 2 ^ 31 },
         { iov_base := 0, iov_len := 1 }] = 2 ^ 32 + 1 := by
  decide

/-- C29: evaluation of `verbs_post_rma` at the failing input.  The cache holds
the handle 77 with remote address 4096 and key 9; the local registration is
at 8192.  For a write of 64 bytes with `local_offset` 16 and `remote_offset`
256 the work request addresses local memory at 8208 and remote memory at
4096, the cached address without the offset. -/
theorem verbs_post_rma_ignores_remote_offset :
    verbs_post_rma
        (verbs_rma_op [{ remote_handle := 77, remote_addr := 4096, rkey := 9 }]
          { mr_addr := 8192, lkey := 3 } 16 77 256 64 CCI_FLAG_WRITE) .CCI_SUCCESS
      = some (.CCI_SUCCESS,
          { sge_addr := 8208, sge_length := 64, sge_lkey := 3, num_sge := 1,
            opcode := .IBV_WR_RDMA_WRITE, signaled := true, fence := false,
            remote_addr := 4096, rkey := 9 }) := by
  decide

/-- C30: evaluation at the failing input.  `verbs_connect` with a null context
and an empty payload returns `CCI_SUCCESS` and leaves connection 0 without a
connect request record; `verbs_conn_est_active` on that connection then reads
the attribute of the missing record: the model has no result. -/
theorem verbs_conn_est_active_reads_missing_conn_req :
    ((verbs_connect (verbs_create_endpoint true 2 4 1024 4096)
        "verbs://10.0.0.1:5000".toList [] 0 1 0 (connect_env_ok 20)).map
        (fun r => (r.1, conn_req_of r.2 0, r.2.idle_txs,
          verbs_conn_est_active r.2 0 (.ok .IBV_MTU_2048) .CCI_SUCCESS)))
      = some (.CCI_SUCCESS, none, [0, 1], none) := by
  decide

end CCI
